import Mathlib

/-!
# A shallow embedding of the `diskbptree` package

This file embeds the disk-resident B+ tree of `diskbptree.go` in Lean 4.
The backing file and every page are byte sequences, represented positionally
as a natural number together with a length — byte `i` of `b` is
`b.data / 256^i % 256` — so that reads and writes at byte offsets are plain
division/modulus arithmetic; node pages are encoded and decoded exactly
as in the source (`ToBytes` / `BytesToNode`); the tree handle carries the
cached key size and master page, mirroring the `DiskBTree` struct.  Each
Go method becomes a function in the `EStateM Err DiskBTree` monad, so an
error return carries the state reached at the error point, matching Go's
behaviour of keeping all writes performed before the failure.  Go runtime
panics (out-of-range indexing and slicing, failed type assertions on
`interface` values, nil dereferences) are modelled as the distinguished
error `Err.goPanic`; loops on disk data that Go runs unboundedly take a
fuel argument and report `Err.outOfFuel` when it runs out.
-/

namespace DiskBPTree

/-- The closed error taxonomy of the package (`errors.go` of `diskbptree`),
together with the two artefacts of the embedding: `goPanic` for Go runtime
panics and `outOfFuel` for exhausted recursion fuel. -/
inductive Err where
  | keyNotFound
  | keyAlreadyExists
  | invalidKey
  | invalidData
  | keySizeTooLarge
  | invalidKeySize
  | invalidKeyIndex
  | invalidPointerIndex
  | typeConversion
  | treeEmpty
  | invalidReadIndex
  | unexpectedReadSize
  | unexpectedWriteSize
  | goPanic
  | outOfFuel
deriving DecidableEq, Repr

/-- Binary exponentiation with structural fuel (`n < 2^fuel` always holds for
`fuel = n+1`, so `bpowAux (n+1) b n = b^n`); the kernel evaluates it in
logarithmically many accelerated arithmetic steps, where the structural
`Nat.pow` would recurse once per unit of the exponent. -/
def bpowAux : Nat → Nat → Nat → Nat
  | 0, _, _ => 1
  | f + 1, b, n =>
      if n = 0 then 1
      else bpowAux f (b * b) (n / 2) * (if n % 2 = 1 then b else 1)

/-- `256 ^ k`, by binary exponentiation. -/
def pow256 (k : Nat) : Nat := bpowAux (k + 1) 256 k

/-- A byte sequence (Go `[]byte`), represented positionally: byte `i` is
`data / 256^i % 256`, and `data < 256^size` is kept canonical by every
operation below. -/
structure Bytes where
  data : Nat
  size : Nat
deriving DecidableEq, Repr

/-- Byte `i` of a byte sequence. -/
def Bytes.bget (b : Bytes) (i : Nat) : Nat := b.data / pow256 i % 256

/-- Pack a list of byte values into a byte sequence (each entry reduced mod
256, as storing into a Go `[]byte` does). -/
def bytesOfList (l : List Nat) : Nat × Nat :=
  match l with
  | [] => (0, 0)
  | x :: xs =>
      let r := bytesOfList xs
      (x % 256 + r.1 * 256, r.2 + 1)

/-- A byte sequence from a list of byte values. -/
def bytesOf (l : List Nat) : Bytes := ⟨(bytesOfList l).1, (bytesOfList l).2⟩

/-- Unpack a byte sequence into the list of its bytes. -/
def listOfBytesAux : Nat → Nat → List Nat
  | 0, _ => []
  | n + 1, d => d % 256 :: listOfBytesAux n (d / 256)

/-- The list of bytes of a byte sequence. -/
def listOfBytes (b : Bytes) : List Nat := listOfBytesAux b.size b.data

/-- One entry of a node's `Pointers []interface{}` slice.  In the disk tree a
slot holds either a `[]byte` value (leaves), a `uint64` page offset
(internal nodes), the untyped `nil` a freshly made node starts with, or —
transiently, never on disk — a `*DiskBTreeNode` object, which we identify by
its page offset. -/
inductive Slot where
  | bytes (v : Bytes)
  | ptr (p : Nat)
  | noderef (p : Nat)
  | null
deriving DecidableEq, Repr

/-- The in-memory image of one node page (`DiskBTreeNode`).  Go's `[][]byte`
keys are lists of byte lists (a nil Go slice is represented by `[]`, which is
indistinguishable from it under `bytes.Compare`, `copy` and encoding). -/
structure DiskBTreeNode where
  Ptr : Nat
  IsLeaf : Bool
  Numkeys : Nat
  Parent : Nat
  Next : Nat
  Prev : Nat
  Keysize : Nat
  Keys : List (List Nat)
  Pointers : List Slot
deriving DecidableEq, Repr

/-- The cached master page (`MasterPage`): root offset and page count. -/
structure MasterPage where
  root : Nat
  pageCount : Nat
deriving DecidableEq, Repr

/-- The tree handle (`DiskBTree`): fixed key size, cached master page, and
the backing file, modelled as its byte contents. -/
structure DiskBTree where
  keySize : Nat
  masterPage : Option MasterPage
  file : Bytes
deriving DecidableEq, Repr

/-- The monad of the embedding: state-threading with Go-style errors that
keep the state reached so far. -/
abbrev M := EStateM Err DiskBTree

def m_ORDER : Nat := 4

/-- Ceil of `ORDER/2`. -/
def m_ORDER_HALF : Nat := m_ORDER / 2 + m_ORDER % 2

def m_MASTER_PAGE_SIZE : Nat := 4096
def m_PAGE_SIZE : Nat := 8192

/-- `2^64`, the modulus of Go's `uint64` arithmetic. -/
def U64MOD : Nat := 2 ^ 64

/-- `2^16`, the modulus of Go's `uint16` arithmetic. -/
def U16MOD : Nat := 2 ^ 16

/-- Go `uint16` addition, used for the cursor arithmetic of the node codec. -/
def a16 (x y : Nat) : Nat := (x + y) % U16MOD

/-- Indexing a Go slice; out of range is a runtime panic. -/
def goGet (xs : List α) (i : Nat) : Except Err α :=
  match xs.get? i with
  | some v => .ok v
  | none => .error .goPanic

/-- Updating a Go slice entry; out of range is a runtime panic. -/
def goSet (xs : List α) (i : Nat) (v : α) : Except Err (List α) :=
  if i < xs.length then .ok (xs.set i v) else .error .goPanic

/-- Overwrite the bytes of `b` at positions `[start, start + src.size)` with
`src`, keeping the rest; callers guarantee `start + src.size ≤ b.size`. -/
def Bytes.splice (b : Bytes) (start : Nat) (src : Bytes) : Bytes :=
  ⟨b.data % pow256 start + src.data * pow256 start
     + b.data / pow256 (start + src.size) * pow256 (start + src.size),
   b.size⟩

/-- Indexing a byte of a Go byte slice; out of range panics. -/
def goByte (b : Bytes) (i : Nat) : Except Err Nat :=
  if i < b.size then .ok (b.bget i) else .error .goPanic

/-- A Go slice expression `b[start:stop]`; invalid bounds are a panic. -/
def goSlice (b : Bytes) (start stop : Nat) : Except Err Bytes :=
  if start ≤ stop ∧ stop ≤ b.size then
    .ok ⟨b.data / pow256 start % pow256 (stop - start), stop - start⟩
  else .error .goPanic

/-- Go `copy(page[start:stop], src)`: copies `min (stop - start) src.size`
bytes into the window, leaving the rest of the page unchanged; an invalid
window is a panic. -/
def goCopy (page : Bytes) (start stop : Nat) (src : Bytes) : Except Err Bytes :=
  if start ≤ stop ∧ stop ≤ page.size then
    let n := min (stop - start) src.size
    .ok (page.splice start ⟨src.data % pow256 n, n⟩)
  else .error .goPanic

/-- Overwrite `src.size` bytes of `page` at `start` (the fixed-offset
header writes of the codec, always within the page). -/
def putAt (page : Bytes) (start : Nat) (src : Bytes) : Bytes :=
  page.splice start src

/-- Big-endian bytes of a `uint16` (`binary.BigEndian.PutUint16`). -/
def u16Bytes (x : Nat) : Bytes := bytesOf [x / 2 ^ 8 % 256, x % 256]

/-- Big-endian bytes of a `uint64` (`binary.BigEndian.PutUint64`). -/
def u64Bytes (x : Nat) : Bytes :=
  bytesOf [x / 2 ^ 56 % 256, x / 2 ^ 48 % 256, x / 2 ^ 40 % 256, x / 2 ^ 32 % 256,
           x / 2 ^ 24 % 256, x / 2 ^ 16 % 256, x / 2 ^ 8 % 256, x % 256]

/-- `binary.BigEndian.Uint16` of a slice; a slice shorter than 2 panics. -/
def beU16 (s : Bytes) : Except Err Nat :=
  if s.size < 2 then .error .goPanic
  else .ok (s.bget 0 * 2 ^ 8 + s.bget 1)

/-- `binary.BigEndian.Uint64` of a slice; a slice shorter than 8 panics. -/
def beU64 (s : Bytes) : Except Err Nat :=
  if s.size < 8 then .error .goPanic
  else .ok (s.bget 0 * 2 ^ 56 + s.bget 1 * 2 ^ 48 + s.bget 2 * 2 ^ 40 +
            s.bget 3 * 2 ^ 32 + s.bget 4 * 2 ^ 24 + s.bget 5 * 2 ^ 16 +
            s.bget 6 * 2 ^ 8 + s.bget 7)

/-- A bounded `for i := lo; i < lo+count; i++` loop threading a value and
allowed to fail, used to transcribe the Go loops of the codec and the node
primitives. -/
def eLoop (count : Nat) (f : Nat → σ → Except Err σ) : Nat → σ → Except Err σ :=
  match count with
  | 0 => fun _ acc => .ok acc
  | c + 1 => fun i acc => do eLoop c f (i + 1) (← f i acc)

/-- Go's single-result type assertion `slot.([]byte)`: panics unless the slot
holds a byte slice. -/
def asBytesAssert : Slot → Except Err Bytes
  | .bytes v => .ok v
  | _ => .error .goPanic

/-- Go's single-result type assertion `slot.(uint64)`: panics unless the slot
holds a page offset. -/
def asU64Assert : Slot → Except Err Nat
  | .ptr p => .ok p
  | _ => .error .goPanic

/-- `(n *DiskBTreeNode) ToBytes()`: encode a node into one fresh zeroed page.
Header at fixed offsets, then the first `Numkeys` keys packed with stride
`Keysize`, then for a leaf `(uint16 length, bytes)` pairs and for an internal
node `Numkeys+1` big-endian offsets, tracked with the source's `uint16`
`start`/`end` cursors. -/
def DiskBTreeNode.ToBytes (n : DiskBTreeNode) : Except Err Bytes := do
  let nodeBytes : Bytes := ⟨0, m_PAGE_SIZE⟩
  let nodeBytes := if n.IsLeaf then putAt nodeBytes 0 (bytesOf [1]) else nodeBytes
  let nodeBytes := putAt nodeBytes 1 (u16Bytes n.Numkeys)
  let nodeBytes := putAt nodeBytes 3 (u64Bytes n.Parent)
  let nodeBytes := putAt nodeBytes 11 (u64Bytes n.Next)
  let nodeBytes := putAt nodeBytes 19 (u64Bytes n.Prev)
  let nodeBytes := putAt nodeBytes 27 (u16Bytes n.Keysize)
  let (start, _, nodeBytes) ← eLoop n.Numkeys
    (fun i acc => do
      let (start, stop, pg) := acc
      let k ← goGet n.Keys i
      let pg ← goCopy pg start stop (bytesOf k)
      .ok (stop, a16 stop n.Keysize, pg))
    0 (29, a16 29 n.Keysize, nodeBytes)
  if n.IsLeaf then do
    let (_, _, nodeBytes) ← eLoop n.Numkeys
      (fun i acc => do
        let (start, _, pg) := acc
        let s ← goGet n.Pointers i
        let val ← asBytesAssert s
        let dataLength := val.size % U16MOD
        let stop := a16 start 2
        let pg ← goCopy pg start stop (u16Bytes dataLength)
        let start := stop
        let stop := a16 start dataLength
        let pg ← goCopy pg start stop val
        .ok (stop, stop, pg))
      0 (start, start, nodeBytes)
    .ok nodeBytes
  else do
    let (_, _, nodeBytes) ← eLoop (n.Numkeys + 1)
      (fun i acc => do
        let (start, stop, pg) := acc
        let s ← goGet n.Pointers i
        let p ← asU64Assert s
        let pg ← goCopy pg start stop (u64Bytes p)
        .ok (stop, a16 stop 8, pg))
      0 (start, a16 start 8, nodeBytes)
    .ok nodeBytes

/-- `BytesToNode(b, ptr)`: decode one page back into a node image carrying its
own file offset.  `Keys` and `Pointers` are freshly allocated at lengths
`ORDER-1` and `ORDER` with only the first `Numkeys` (respectively `Numkeys`
or `Numkeys+1`) entries filled. -/
def BytesToNode (b : Bytes) (ptr : Nat) : Except Err DiskBTreeNode := do
  let b0 ← goByte b 0
  let numkeys ← do beU16 (← goSlice b 1 3)
  let parent ← do beU64 (← goSlice b 3 11)
  let next ← do beU64 (← goSlice b 11 19)
  let prev ← do beU64 (← goSlice b 19 27)
  let keysize ← do beU16 (← goSlice b 27 29)
  let isLeaf := b0 == 1
  let (start, _, keys) ← eLoop numkeys
    (fun i acc => do
      let (start, stop, ks) := acc
      let src ← goSlice b start stop
      -- `make([]byte, Keysize)` then `copy`: the first `min Keysize src.size`
      -- bytes of the slice, zero-padded to length `Keysize`
      let key := listOfBytes ⟨src.data % pow256 (min keysize src.size), keysize⟩
      let ks ← goSet ks i key
      .ok (stop, a16 stop keysize, ks))
    0 (29, a16 29 keysize, (List.replicate (m_ORDER - 1) [] : List (List Nat)))
  let pointers ←
    if isLeaf then do
      let (_, _, ps) ← eLoop numkeys
        (fun i acc => do
          let (start, _, ps) := acc
          let stop := a16 start 2
          let vlen ← do beU16 (← goSlice b start stop)
          let start := stop
          let stop := a16 start vlen
          let v ← goSlice b start stop
          let ps ← goSet ps i (.bytes v)
          .ok (stop, stop, ps))
        0 (start, start, (List.replicate m_ORDER .null : List Slot))
      .ok ps
    else do
      let (_, _, ps) ← eLoop (numkeys + 1)
        (fun i acc => do
          let (start, stop, ps) := acc
          let p ← do beU64 (← goSlice b start stop)
          let ps ← goSet ps i (.ptr p)
          .ok (stop, a16 stop 8, ps))
        0 (start, a16 start 8, (List.replicate m_ORDER .null : List Slot))
      .ok ps
  .ok { Ptr := ptr, IsLeaf := isLeaf, Numkeys := numkeys, Parent := parent,
        Next := next, Prev := prev, Keysize := keysize, Keys := keys,
        Pointers := pointers }

/-- Writing `data` at byte offset `ptr` of a file, zero-filling any gap past
the current end (the semantics of seek-beyond-end + write). -/
def fileWrite (f : Bytes) (ptr : Nat) (data : Bytes) : Bytes :=
  ⟨f.data % pow256 ptr + data.data * pow256 ptr
     + f.data / pow256 (ptr + data.size) * pow256 (ptr + data.size),
   max f.size (ptr + data.size)⟩

/-- The tree handle obtained from an empty backing file (`newTreeFromFile`
with `stats.Size() = 0`): no cached master page. -/
def emptyTree : DiskBTree := { keySize := 0, masterPage := none, file := ⟨0, 0⟩ }

def lift (e : Except Err α) : M α :=
  match e with
  | .ok a => pure a
  | .error e => throw e

/-- `(t *DiskBTree) readNode(ptr)`: empty-tree and upper-bound checks (the
bound `(pageCount-1)*PAGE_SIZE + MASTER_PAGE_SIZE` is computed in wrapping
`uint64` arithmetic), then a full-page read and decode.  A short or failed
read (fewer than `PAGE_SIZE` bytes available at `ptr`) is the single error
`unexpectedReadSize`. -/
def readNode (ptr : Nat) : M DiskBTreeNode := do
  let t ← get
  match t.masterPage with
  | none => throw .treeEmpty
  | some mp =>
    if ptr > ((mp.pageCount + (U64MOD - 1)) % U64MOD * m_PAGE_SIZE % U64MOD
              + m_MASTER_PAGE_SIZE) % U64MOD then
      throw .invalidReadIndex
    else
      if t.file.size < ptr + m_PAGE_SIZE then throw .unexpectedReadSize
      else
        let data : Bytes := ⟨t.file.data / pow256 ptr % pow256 m_PAGE_SIZE, m_PAGE_SIZE⟩
        lift (BytesToNode data ptr)

/-- `(t *DiskBTree) writeNode(nodeBytes, ptr)`: seek and write; in-memory
backing files never write short, so no error path remains. -/
def writeNode (nodeBytes : Bytes) (ptr : Nat) : M Unit :=
  modify fun t => { t with file := fileWrite t.file ptr nodeBytes }

/-- `(t *DiskBTree) writeMasterPage()`: root offset and page count as two
big-endian `uint64` at the start of a zeroed `MASTER_PAGE_SIZE` block written
at offset 0.  Dereferences the cached master page (nil would panic). -/
def writeMasterPage : M Unit := do
  let t ← get
  match t.masterPage with
  | none => throw .goPanic
  | some mp =>
    let b := putAt (putAt (⟨0, 4096⟩ : Bytes) 0 (u64Bytes mp.root)) 8
                   (u64Bytes mp.pageCount)
    modify fun s => { s with file := fileWrite s.file 0 b }

/-- `bytes.Compare(a, b) >= 0`: lexicographic byte comparison, shorter
prefixes sort first. -/
def lexGE : List Nat → List Nat → Bool
  | [], [] => true
  | [], _ :: _ => false
  | _ :: _, [] => true
  | x :: xs, y :: ys => if x = y then lexGE xs ys else decide (x > y)

/-- `makeNode(ptr)`: a fresh internal node with `ORDER-1` nil keys and
`ORDER` nil pointer slots. -/
def makeNode (ptr : Nat) : DiskBTreeNode :=
  { Ptr := ptr, Keys := List.replicate (m_ORDER - 1) [], Numkeys := 0,
    Pointers := List.replicate m_ORDER .null, IsLeaf := false,
    Parent := 0, Next := 0, Prev := 0, Keysize := 0 }

/-- `makeLeaf(ptr)`. -/
def makeLeaf (ptr : Nat) : DiskBTreeNode :=
  { makeNode ptr with IsLeaf := true }

/-- The scan of `getKeyIndex`: first `i < count` with `Keys[i]` equal to
`key` (`bytes.Compare == 0`), else `-1`. -/
def getKeyIndexLoop (keys : List (List Nat)) (key : List Nat) :
    Nat → Nat → Except Err Int
  | _, 0 => .ok (-1)
  | i, c + 1 => do
      let k ← goGet keys i
      if k = key then .ok (Int.ofNat i) else getKeyIndexLoop keys key (i + 1) c

/-- `getKeyIndex(node, key)`.  The source's `key == nil` guard is handled at
the public entry points, which reject a nil key before any call reaches
this function, so `key` is a plain byte list here. -/
def getKeyIndex (node : DiskBTreeNode) (key : List Nat) : Except Err Int :=
  getKeyIndexLoop node.Keys key 0 node.Numkeys

/-- The scan shared by `getInsertionIndex` and the descent step of
`findLeaf`: advance while `bytes.Compare(key, Keys[i]) >= 0`. -/
def getInsertionIndexLoop (keys : List (List Nat)) (key : List Nat) :
    Nat → Nat → Except Err Nat
  | i, 0 => .ok i
  | i, c + 1 => do
      let k ← goGet keys i
      if lexGE key k then getInsertionIndexLoop keys key (i + 1) c else .ok i

/-- `getInsertionIndex(node, key)`. -/
def getInsertionIndex (node : DiskBTreeNode) (key : List Nat) : Except Err Nat :=
  getInsertionIndexLoop node.Keys key 0 node.Numkeys

/-- The `pointer interface{}` argument of `deleteEntry` / `removeFromNode` /
`getPointerIndex`: either a pointer slot taken from a node, or a transient
`*DiskBTreeNode` object (identified by its page offset, which is how the
embedding renders Go object identity). -/
inductive DelPtr where
  | sl (s : Slot)
  | ndobj (p : Nat)
deriving DecidableEq, Repr

/-- Go interface equality `Pointers[i] == pointer` for the non-`[]byte`
cases: values are equal only when the dynamic types agree.  A decoded slot
(`uint64` or `[]byte`) is never equal to a `*DiskBTreeNode` object. -/
def slotEqDelPtr (s : Slot) (p : DelPtr) : Bool :=
  match s, p with
  | .ptr a, .sl (.ptr b) => a == b
  | .noderef a, .sl (.noderef b) => a == b
  | .noderef a, .ndobj b => a == b
  | .null, .sl .null => true
  | _, _ => false

/-- The scan of `getPointerIndex`: for a `[]byte` pointer compare via
`bytes.Compare` (asserting each visited slot to `[]byte`, a panic on an
offset slot); otherwise Go interface equality. -/
def getPointerIndexLoop (node : DiskBTreeNode) (pointer : DelPtr) :
    Nat → Nat → Except Err Int
  | _, 0 => .ok (-1)
  | i, c + 1 => do
      let s ← goGet node.Pointers i
      match pointer with
      | .sl (.bytes val) => do
          let w ← asBytesAssert s
          if w = val then .ok (Int.ofNat i)
          else getPointerIndexLoop node pointer (i + 1) c
      | _ =>
          if slotEqDelPtr s pointer then .ok (Int.ofNat i)
          else getPointerIndexLoop node pointer (i + 1) c

/-- `getPointerIndex(node, pointer)`: `-1` for a nil pointer, else the scan
over the `Numkeys` (leaf) or `Numkeys+1` (internal) slots in use. -/
def getPointerIndex (node : DiskBTreeNode) (pointer : DelPtr) : Except Err Int :=
  if pointer = .sl .null then .ok (-1)
  else
    let adj := if node.IsLeaf then 0 else 1
    getPointerIndexLoop node pointer 0 (node.Numkeys + adj)

/-- The `pointer interface{}` argument of `insertIntoNode` and
`recursivelySplitAndInsert`: a `[]byte` value for leaves or a
`*DiskBTreeNode` for internal nodes; the code only ever reads the node's
`.Ptr` field, which is all the embedding carries. -/
inductive IPtr where
  | val (v : Bytes)
  | nd (p : Nat)
deriving DecidableEq, Repr

/-- The backward shift `for i := Numkeys; i > insertionIndex; i--` of
`insertIntoNode`, run `count = Numkeys - insertionIndex` times. -/
def insertShift (adj : Nat) :
    Nat → Nat → (List (List Nat) × List Slot) → Except Err (List (List Nat) × List Slot)
  | _, 0, acc => .ok acc
  | i, c + 1, (keys, ptrs) => do
      let kv ← goGet keys (i - 1)
      let keys ← goSet keys i kv
      let pv ← goGet ptrs (i - 1 + adj)
      let ptrs ← goSet ptrs (i + adj) pv
      insertShift adj (i - 1) c (keys, ptrs)

/-- `insertIntoNode(node, key, pointer)`: shift the tail right from the
sorted position, place the key, and place the value (leaf, same index) or
the child's offset (internal, index + 1).  The transient cases where the
dynamic type of `pointer` does not match `IsLeaf` mirror Go exactly: an
internal insert of a `[]byte` panics on the `.(*DiskBTreeNode)` assertion,
and a leaf insert of a node object stores the object itself in the slot. -/
def insertIntoNode (node : DiskBTreeNode) (key : List Nat) (pointer : IPtr) :
    Except Err DiskBTreeNode := do
  let insertionIndex ← getInsertionIndex node key
  let adj := if node.IsLeaf then 0 else 1
  let (keys, ptrs) ← insertShift adj node.Numkeys (node.Numkeys - insertionIndex)
      (node.Keys, node.Pointers)
  let keys ← goSet keys insertionIndex key
  let ptrs ←
    match node.IsLeaf, pointer with
    | true, .val v => goSet ptrs insertionIndex (.bytes v)
    | true, .nd p => goSet ptrs insertionIndex (.noderef p)
    | false, .nd p => goSet ptrs (insertionIndex + 1) (.ptr p)
    | false, .val _ => .error .goPanic
  .ok { node with Keys := keys, Pointers := ptrs, Numkeys := node.Numkeys + 1 }

/-- The `for !node.IsLeaf` descent of `findLeaf`, with fuel for the
unbounded loop. -/
def findLeafLoop (key : List Nat) : Nat → DiskBTreeNode → M DiskBTreeNode
  | 0, _ => throw .outOfFuel
  | fuel + 1, node =>
    if node.IsLeaf then pure node
    else do
      let i ← lift (getInsertionIndexLoop node.Keys key 0 node.Numkeys)
      let s ← lift (goGet node.Pointers i)
      match s with
      | .ptr p => do
          let node ← readNode p
          findLeafLoop key fuel node
      | _ => throw .typeConversion

/-- `(t *DiskBTree) findLeaf(key)`: start at the cached root (a nil master
page would be a nil dereference) and descend. -/
def findLeaf (fuel : Nat) (key : List Nat) : M DiskBTreeNode := do
  let t ← get
  match t.masterPage with
  | none => throw .goPanic
  | some mp => do
      let node ← readNode mp.root
      findLeafLoop key fuel node

/-- `(t *DiskBTree) Find(key)`. -/
def Find (fuel : Nat) (key : Option (List Nat)) : M Bytes := do
  let t ← get
  match t.masterPage, key with
  | none, _ => throw .keyNotFound
  | _, none => throw .keyNotFound
  | some _, some k =>
      if k.length ≠ t.keySize then throw .invalidKeySize
      else do
        let leaf ← findLeaf fuel k
        let idx ← lift (getKeyIndex leaf k)
        if idx < 0 then throw .keyNotFound
        else do
          let s ← lift (goGet leaf.Pointers idx.toNat)
          match s with
          | .bytes v => pure v
          | _ => throw .typeConversion

/-- `(t *DiskBTree) Update(key, newValue)`: no validation of `newValue`; the
slot is overwritten (`newValue` may be nil, which encodes identically to an
empty slice) and the leaf page is rewritten in place. -/
def Update (fuel : Nat) (key newValue : Option (List Nat)) : M Unit := do
  let t ← get
  match t.masterPage, key with
  | none, _ => throw .keyNotFound
  | _, none => throw .keyNotFound
  | some _, some k =>
      if k.length ≠ t.keySize then throw .invalidKeySize
      else do
        let leaf ← findLeaf fuel k
        let idx ← lift (getKeyIndex leaf k)
        if idx < 0 then throw .keyNotFound
        else do
          let ptrs ← lift (goSet leaf.Pointers idx.toNat (.bytes (bytesOf (newValue.getD []))))
          let leaf := { leaf with Pointers := ptrs }
          let b ← lift leaf.ToBytes
          writeNode b leaf.Ptr

/-- `(t *DiskBTree) newPagePtr()`: bump allocation at
`MASTER_PAGE_SIZE + pageCount*PAGE_SIZE` in `uint64` arithmetic. -/
def newPagePtr : M Nat := do
  let t ← get
  match t.masterPage with
  | none => throw .goPanic
  | some mp =>
      pure ((m_MASTER_PAGE_SIZE + mp.pageCount * m_PAGE_SIZE % U64MOD) % U64MOD)

/-- `t.masterPage.pageCount++` on the cached master page. -/
def incPageCount : M Unit := do
  let t ← get
  match t.masterPage with
  | none => throw .goPanic
  | some mp =>
      set { t with masterPage := some { mp with pageCount := (mp.pageCount + 1) % U64MOD } }

/-- `t.masterPage.root = ptr` on the cached master page. -/
def setRoot (ptr : Nat) : M Unit := do
  let t ← get
  match t.masterPage with
  | none => throw .goPanic
  | some mp => set { t with masterPage := some { mp with root := ptr } }

/-- `(t *DiskBTree) splitRootAndInsert(node, newNode, nonLeafKeyToAddToParent)`:
allocate a new internal root holding one separator (the right node's first
key for a leaf split, the promoted key for an internal split) and the two
children, rewrite all three pages, point the master page at the new root and
persist it. -/
def splitRootAndInsert (node newNode : DiskBTreeNode)
    (nonLeafKeyToAddToParent : List Nat) : M Unit := do
  let p ← newPagePtr
  let newParent := makeNode p
  incPageCount
  let k0 ← if node.IsLeaf then lift (goGet newNode.Keys 0)
           else pure nonLeafKeyToAddToParent
  let keys ← lift (goSet newParent.Keys 0 k0)
  let ptrs ← lift (goSet newParent.Pointers 0 (.ptr node.Ptr))
  let ptrs ← lift (goSet ptrs 1 (.ptr newNode.Ptr))
  let t ← get
  let newParent := { newParent with
                     Keys := keys, Pointers := ptrs,
                     Numkeys := newParent.Numkeys + 1,
                     Keysize := t.keySize % U16MOD }
  let node := { node with Parent := newParent.Ptr }
  let newNode := { newNode with Parent := newParent.Ptr }
  let b ← lift newParent.ToBytes
  writeNode b newParent.Ptr
  let b ← lift node.ToBytes
  writeNode b node.Ptr
  let b ← lift newNode.ToBytes
  writeNode b newNode.Ptr
  setRoot newParent.Ptr
  writeMasterPage

/-- The `for i = ORDER_HALF; i < ORDER; i++` redistribution loop of
`recursivelySplitAndInsert`: move the upper half of the transient node into
the new sibling; for an internal split each moved child is re-read and
rewritten with its parent set to the sibling. -/
def splitMoveLoop (tempNode : DiskBTreeNode) (isLeaf : Bool) (adj : Nat) :
    Nat → Nat → DiskBTreeNode → M DiskBTreeNode
  | _, 0, newNode => pure newNode
  | i, c + 1, newNode => do
      let newNode ←
        if isLeaf then do
          let kv ← lift (goGet tempNode.Keys i)
          let ks ← lift (goSet newNode.Keys (i - m_ORDER_HALF) kv)
          pure { newNode with Keys := ks, Numkeys := newNode.Numkeys + 1 }
        else do
          let newNode ←
            if i > m_ORDER_HALF then do
              let kv ← lift (goGet tempNode.Keys i)
              let ks ← lift (goSet newNode.Keys (i - m_ORDER_HALF - 1) kv)
              pure { newNode with Keys := ks, Numkeys := newNode.Numkeys + 1 }
            else pure newNode
          let s ← lift (goGet tempNode.Pointers (i + adj))
          match s with
          | .ptr p => do
              let childNode ← readNode p
              let childNode := { childNode with Parent := newNode.Ptr }
              let b ← lift childNode.ToBytes
              writeNode b childNode.Ptr
              pure newNode
          | _ => throw .typeConversion
      let s ← lift (goGet tempNode.Pointers (i + adj))
      let ps ← lift (goSet newNode.Pointers (i - m_ORDER_HALF) s)
      splitMoveLoop tempNode isLeaf adj (i + 1) c { newNode with Pointers := ps }

/-- `(t *DiskBTree) recursivelySplitAndInsert(node, key, pointer)`: allocate
a sibling page (splicing it after `node` in the leaf chain for a leaf),
build the transient oversized node, insert the new entry there, redistribute
the lower half back into `node` and the upper half into the sibling, then
either split the root, insert the separator into a parent with room, or
recurse on the full parent. -/
def recursivelySplitAndInsert :
    Nat → DiskBTreeNode → List Nat → IPtr → M Unit
  | 0, _, _, _ => throw .outOfFuel
  | fuel + 1, node, key, pointer => do
      let newNodePtr ← newPagePtr
      incPageCount
      let (node, newNode) ←
        if node.IsLeaf then
          let newNode := makeLeaf newNodePtr
          let newNode := { newNode with Next := node.Next, Prev := node.Ptr }
          pure ({ node with Next := newNode.Ptr }, newNode)
        else
          pure (node, makeNode newNodePtr)
      let t ← get
      let newNode := { newNode with Keysize := t.keySize % U16MOD, Parent := node.Parent }
      let tempNode : DiskBTreeNode :=
        { Ptr := 0, IsLeaf := node.IsLeaf, Numkeys := node.Numkeys, Parent := 0,
          Next := 0, Prev := 0, Keysize := 0,
          Keys := List.replicate m_ORDER [],
          Pointers := List.replicate (m_ORDER + 1) .null }
      let (tk, tp) ← lift (eLoop node.Numkeys
        (fun i acc => do
          let (ks, ps) := acc
          let kv ← goGet node.Keys i
          let ks ← goSet ks i kv
          let pv ← goGet node.Pointers i
          let ps ← goSet ps i pv
          .ok (ks, ps))
        0 (tempNode.Keys, tempNode.Pointers))
      let pv ← lift (goGet node.Pointers node.Numkeys)
      let tp ← lift (goSet tp node.Numkeys pv)
      let tempNode := { tempNode with Keys := tk, Pointers := tp }
      let tempNode ← lift (insertIntoNode tempNode key pointer)
      let node := { node with
                    Numkeys := 0,
                    Keys := List.replicate (m_ORDER - 1) [],
                    Pointers := List.replicate m_ORDER .null }
      let (nk, np, nnum) ← lift (eLoop m_ORDER_HALF
        (fun i acc => do
          let (ks, ps, num) := acc
          let kv ← goGet tempNode.Keys i
          let ks ← goSet ks i kv
          let pv ← goGet tempNode.Pointers i
          let ps ← goSet ps i pv
          .ok (ks, ps, num + 1))
        0 (node.Keys, node.Pointers, node.Numkeys))
      let node := { node with Keys := nk, Pointers := np, Numkeys := nnum }
      let (node, nodePointerAdjustment) ←
        if !node.IsLeaf then do
          let pv ← lift (goGet tempNode.Pointers m_ORDER_HALF)
          let np ← lift (goSet node.Pointers m_ORDER_HALF pv)
          pure ({ node with Pointers := np }, 1)
        else pure (node, 0)
      let newNode ← splitMoveLoop tempNode node.IsLeaf nodePointerAdjustment
        m_ORDER_HALF (m_ORDER - m_ORDER_HALF) newNode
      let t ← get
      match t.masterPage with
      | none => throw .goPanic
      | some mp =>
        if node.Ptr == mp.root then do
          let sep ← lift (goGet tempNode.Keys m_ORDER_HALF)
          splitRootAndInsert node newNode sep
        else do
          let b ← lift node.ToBytes
          writeNode b node.Ptr
          let b ← lift newNode.ToBytes
          writeNode b newNode.Ptr
          writeMasterPage
          let nodeParent ← readNode node.Parent
          if nodeParent.Numkeys < m_ORDER - 1 then do
            let nodeParent ←
              if node.IsLeaf then do
                let k0 ← lift (goGet newNode.Keys 0)
                lift (insertIntoNode nodeParent k0 (.nd newNode.Ptr))
              else do
                let sep ← lift (goGet tempNode.Keys m_ORDER_HALF)
                lift (insertIntoNode nodeParent sep (.nd newNode.Ptr))
            let b ← lift nodeParent.ToBytes
            writeNode b nodeParent.Ptr
          else
            if node.IsLeaf then do
              let k0 ← lift (goGet newNode.Keys 0)
              recursivelySplitAndInsert fuel nodeParent k0 (.nd newNode.Ptr)
            else do
              let sep ← lift (goGet tempNode.Keys m_ORDER_HALF)
              recursivelySplitAndInsert fuel nodeParent sep (.nd newNode.Ptr)

/-- `(t *DiskBTree) Insert(key, value)`: nil checks, oversize-key check,
first-insert root creation (which fixes the tree's key size), then the
duplicate probe (skipped when `findLeaf` failed — in which case the later
use of the nil leaf is a nil dereference), the fixed-key-size check, and an
in-place insert or a split. -/
def Insert (fuel : Nat) (key value : Option (List Nat)) : M Unit := do
  match key, value with
  | none, _ => throw .invalidData
  | _, none => throw .invalidData
  | some k, some v =>
    if k.length > U16MOD - 1 then throw .keySizeTooLarge
    else do
      let t ← get
      match t.masterPage with
      | none => do
          let rootNode := makeLeaf m_MASTER_PAGE_SIZE
          let keys ← lift (goSet rootNode.Keys 0 k)
          let ptrs ← lift (goSet rootNode.Pointers 0 (.bytes (bytesOf v)))
          let rootNode := { rootNode with
                            Keys := keys, Pointers := ptrs,
                            Numkeys := rootNode.Numkeys + 1,
                            Keysize := k.length % U16MOD }
          modify fun s => { s with keySize := k.length,
                                   masterPage := some ⟨rootNode.Ptr, 1⟩ }
          writeMasterPage
          let b ← lift rootNode.ToBytes
          writeNode b rootNode.Ptr
      | some _ => do
          let leafE ← tryCatch (do pure (Except.ok (← findLeaf fuel k)))
                               (fun e => pure (Except.error e))
          (match leafE with
           | .ok leaf => do
               let idx ← lift (getKeyIndex leaf k)
               if idx > -1 then throw .keyAlreadyExists else pure ()
           | .error _ => pure ())
          if k.length ≠ t.keySize then throw .invalidKeySize
          else
            match leafE with
            | .error _ => throw .goPanic
            | .ok leaf =>
              if leaf.Numkeys < m_ORDER - 1 then do
                let leaf ← lift (insertIntoNode leaf k (.val (bytesOf v)))
                let b ← lift leaf.ToBytes
                writeNode b leaf.Ptr
              else recursivelySplitAndInsert fuel leaf k (.val (bytesOf v))

/-- Indexing with a Go `int` index; a negative index panics. -/
def goGetI (xs : List α) (i : Int) : Except Err α :=
  if i < 0 then .error .goPanic else goGet xs i.toNat

/-- Updating at a Go `int` index; a negative index panics. -/
def goSetI (xs : List α) (i : Int) (v : α) : Except Err (List α) :=
  if i < 0 then .error .goPanic else goSet xs i.toNat v

/-- A bounded descending `for i := hi; i > lo; i--` loop. -/
def eLoopDown (count : Nat) (f : Nat → σ → Except Err σ) : Nat → σ → Except Err σ :=
  match count with
  | 0 => fun _ acc => .ok acc
  | c + 1 => fun i acc => do eLoopDown c f (i - 1) (← f i acc)

/-- `(t *DiskBTree) getSiblingIndex(node)`: position of `node` among its
parent's children (by offset equality `parent.Pointers[i] == node.Ptr`),
minus one; `-1` when `node` is the leftmost child or not found. -/
def getSiblingIndexLoop (parent : DiskBTreeNode) (ptr : Nat) :
    Nat → Nat → Except Err Int
  | _, 0 => .ok (-1)
  | i, c + 1 => do
      let s ← goGet parent.Pointers i
      if s = .ptr ptr then .ok (Int.ofNat i - 1)
      else getSiblingIndexLoop parent ptr (i + 1) c

def getSiblingIndex (node : DiskBTreeNode) : M Int := do
  let parent ← readNode node.Parent
  lift (getSiblingIndexLoop parent node.Ptr 0 (parent.Numkeys + 1))

/-- `(t *DiskBTree) adjustRoot()`: re-read the root page; if it still holds
keys do nothing; an empty internal root is demoted to its single child; an
empty leaf root truncates the file to zero length.  The cached master page
is not cleared in the leaf case. -/
def adjustRoot : M Unit := do
  let t ← get
  match t.masterPage with
  | none => throw .goPanic
  | some mp => do
      let rootNode ← readNode mp.root
      if rootNode.Numkeys > 0 then pure ()
      else if !rootNode.IsLeaf then do
        let s ← lift (goGet rootNode.Pointers 0)
        match s with
        | .ptr newRootPtr => do
            let newRoot ← readNode newRootPtr
            setRoot newRootPtr
            let newRoot := { newRoot with Parent := 0 }
            let b ← lift newRoot.ToBytes
            writeNode b newRootPtr
            writeMasterPage
        | _ => throw .typeConversion
      else
        modify fun s => { s with file := ⟨0, 0⟩ }

/-- `(t *DiskBTree) borrowFromSibling(node, sibling, isLeftSibling, kPrime,
kPrimeIdx)`: move one entry from the sibling into the underflowed node,
updating the parent's separator; four cases by node kind and sibling side.
For internal nodes the borrowed child is re-read and its parent field set in
memory (the source never writes that page back).  Finally `node`, `sibling`
and the parent are persisted. -/
def borrowFromSibling (node sibling : DiskBTreeNode) (isLeftSibling : Bool)
    (kPrime : List Nat) (kPrimeIdx : Int) : M Unit := do
  let nodeParent ← readNode node.Parent
  let (node, sibling, nodeParent) ←
    if !node.IsLeaf then
      if isLeftSibling then do
        let (keys, ptrs) ← lift (eLoopDown node.Numkeys
          (fun i acc => do
            let (ks, ps) := acc
            let kv ← goGet ks (i - 1)
            let ks ← goSet ks i kv
            let pv ← goGet ps i
            let ps ← goSet ps (i + 1) pv
            .ok (ks, ps))
          node.Numkeys (node.Keys, node.Pointers))
        let pv ← lift (goGet ptrs 0)
        let ptrs ← lift (goSet ptrs 1 pv)
        let keys ← lift (goSet keys 0 kPrime)
        let sv ← lift (goGet sibling.Pointers sibling.Numkeys)
        let ptrs ← lift (goSet ptrs 0 sv)
        let borrowdChildPtr ← (match sv with
          | .ptr p => pure p
          | _ => throw Err.typeConversion)
        let borrowdChild ← readNode borrowdChildPtr
        let _ := { borrowdChild with Parent := node.Ptr }
        let sk ← lift (goGet sibling.Keys (sibling.Numkeys - 1))
        let pKeys ← lift (goSetI nodeParent.Keys kPrimeIdx sk)
        let node := { node with Keys := keys, Pointers := ptrs,
                                Numkeys := node.Numkeys + 1 }
        let sKeys ← lift (goSet sibling.Keys (sibling.Numkeys - 1) [])
        let sPtrs ← lift (goSet sibling.Pointers sibling.Numkeys .null)
        let sibling := { sibling with Keys := sKeys, Pointers := sPtrs,
                                      Numkeys := sibling.Numkeys - 1 }
        pure (node, sibling, { nodeParent with Keys := pKeys })
      else do
        let keys ← lift (goSet node.Keys node.Numkeys kPrime)
        let sv ← lift (goGet sibling.Pointers 0)
        let ptrs ← lift (goSet node.Pointers (node.Numkeys + 1) sv)
        let borrowdChildPtr ← (match sv with
          | .ptr p => pure p
          | _ => throw Err.typeConversion)
        let borrowdChild ← readNode borrowdChildPtr
        let _ := { borrowdChild with Parent := node.Parent }
        let sk ← lift (goGet sibling.Keys 0)
        let pKeys ← lift (goSetI nodeParent.Keys kPrimeIdx sk)
        let node := { node with Keys := keys, Pointers := ptrs,
                                Numkeys := node.Numkeys + 1 }
        let (sKeys, sPtrs) ← lift (eLoop (sibling.Numkeys - 1)
          (fun i acc => do
            let (ks, ps) := acc
            let kv ← goGet ks (i + 1)
            let ks ← goSet ks i kv
            let pv ← goGet ps (i + 1)
            let ps ← goSet ps i pv
            let ks ← goSet ks (i + 1) []
            let ps ← goSet ps (i + 1) .null
            .ok (ks, ps))
          0 (sibling.Keys, sibling.Pointers))
        let i := sibling.Numkeys - 1
        let pv ← lift (goGet sPtrs (i + 1))
        let sPtrs ← lift (goSet sPtrs i pv)
        let sPtrs ← lift (goSet sPtrs (i + 1) .null)
        let sKeys ← lift (goSet sKeys i [])
        let sPtrs ← lift (goSet sPtrs (i + 1) .null)
        let sibling := { sibling with Keys := sKeys, Pointers := sPtrs,
                                      Numkeys := sibling.Numkeys - 1 }
        pure (node, sibling, { nodeParent with Keys := pKeys })
    else
      if isLeftSibling then do
        let (keys, ptrs) ← lift (eLoopDown node.Numkeys
          (fun i acc => do
            let (ks, ps) := acc
            let kv ← goGet ks (i - 1)
            let ks ← goSet ks i kv
            let pv ← goGet ps (i - 1)
            let ps ← goSet ps i pv
            .ok (ks, ps))
          node.Numkeys (node.Keys, node.Pointers))
        let sk ← lift (goGet sibling.Keys (sibling.Numkeys - 1))
        let keys ← lift (goSet keys 0 sk)
        let sv ← lift (goGet sibling.Pointers (sibling.Numkeys - 1))
        let ptrs ← lift (goSet ptrs 0 sv)
        let k0 ← lift (goGet keys 0)
        let pKeys ← lift (goSetI nodeParent.Keys kPrimeIdx k0)
        let node := { node with Keys := keys, Pointers := ptrs,
                                Numkeys := node.Numkeys + 1 }
        let sKeys ← lift (goSet sibling.Keys (sibling.Numkeys - 1) [])
        let sPtrs ← lift (goSet sibling.Pointers (sibling.Numkeys - 1) .null)
        let sibling := { sibling with Keys := sKeys, Pointers := sPtrs,
                                      Numkeys := sibling.Numkeys - 1 }
        pure (node, sibling, { nodeParent with Keys := pKeys })
      else do
        let sk ← lift (goGet sibling.Keys 0)
        let keys ← lift (goSet node.Keys node.Numkeys sk)
        let sv ← lift (goGet sibling.Pointers 0)
        let ptrs ← lift (goSet node.Pointers node.Numkeys sv)
        let sk1 ← lift (goGet sibling.Keys 1)
        let pKeys ← lift (goSetI nodeParent.Keys kPrimeIdx sk1)
        let node := { node with Keys := keys, Pointers := ptrs,
                                Numkeys := node.Numkeys + 1 }
        let (sKeys, sPtrs) ← lift (eLoop (sibling.Numkeys - 1)
          (fun i acc => do
            let (ks, ps) := acc
            let kv ← goGet ks (i + 1)
            let ks ← goSet ks i kv
            let pv ← goGet ps (i + 1)
            let ps ← goSet ps i pv
            let ks ← goSet ks (i + 1) []
            let ps ← goSet ps (i + 1) .null
            .ok (ks, ps))
          0 (sibling.Keys, sibling.Pointers))
        let sibling := { sibling with Keys := sKeys, Pointers := sPtrs,
                                      Numkeys := sibling.Numkeys - 1 }
        pure (node, sibling, { nodeParent with Keys := pKeys })
  let b ← lift node.ToBytes
  writeNode b node.Ptr
  let b ← lift sibling.ToBytes
  writeNode b sibling.Ptr
  let b ← lift nodeParent.ToBytes
  writeNode b nodeParent.Ptr

/-- `(t *DiskBTree) removeFromNode(node, key, pointer)`: locate and remove
the key and the pointer, compacting both arrays and clearing the vacated
slots; when a leaf's first key was removed and the key also appears in the
parent, rewrite that parent key with the leaf's new first key and persist
the parent.  Returns the mutated in-memory node (the source mutates it in
place; the node page itself is not written here). -/
def removeFromNode (node : DiskBTreeNode) (key : List Nat) (pointer : DelPtr) :
    M DiskBTreeNode := do
  let keyIdx ← lift (getKeyIndex node key)
  if keyIdx < 0 then throw .invalidKeyIndex
  else do
    let keys ← lift (eLoop (node.Numkeys - (keyIdx.toNat + 1))
      (fun i ks => do
        let kv ← goGet ks i
        goSet ks (i - 1) kv)
      (keyIdx.toNat + 1) node.Keys)
    let keys ← lift (goSet keys (node.Numkeys - 1) [])
    let adj := if node.IsLeaf then 0 else 1
    let numPointers := node.Numkeys + adj
    let pointerIdx ← lift (getPointerIndex node pointer)
    if pointerIdx < 0 then throw .invalidPointerIndex
    else do
      let ptrs ← lift (eLoop (numPointers - (pointerIdx.toNat + 1))
        (fun i ps => do
          let pv ← goGet ps i
          goSet ps (i - 1) pv)
        (pointerIdx.toNat + 1) node.Pointers)
      let ptrs ← lift (goSet ptrs (numPointers - 1) .null)
      let node := { node with Keys := keys, Pointers := ptrs,
                              Numkeys := node.Numkeys - 1 }
      if node.IsLeaf ∧ node.Parent ≠ 0 ∧ keyIdx = 0 ∧ node.Numkeys > 0 then do
        let nodeParent ← readNode node.Parent
        let oldKeyIdxInParent ← lift (getKeyIndex nodeParent key)
        if oldKeyIdxInParent > -1 then do
          let k0 ← lift (goGet node.Keys 0)
          let pKeys ← lift (goSetI nodeParent.Keys oldKeyIdxInParent k0)
          let nodeParent := { nodeParent with Keys := pKeys }
          let b ← lift nodeParent.ToBytes
          writeNode b nodeParent.Ptr
          pure node
        else pure node
      else pure node

mutual

/-- `(t *DiskBTree) deleteEntry(node, key, pointer)`: remove the entry,
handle the root, stop unless the node underflowed below
`minKeys = ORDER_HALF - 1`, otherwise pick a sibling (preferring the left)
with the separating parent key `kPrime` and either borrow or merge. -/
def deleteEntry : Nat → DiskBTreeNode → List Nat → DelPtr → M Unit
  | 0, _, _, _ => throw .outOfFuel
  | fuel + 1, node, key, pointer => do
      let node ← removeFromNode node key pointer
      let t ← get
      match t.masterPage with
      | none => throw .goPanic
      | some mp =>
        if node.Ptr == mp.root then adjustRoot
        else do
          let minKeys := m_ORDER_HALF - 1
          if node.Numkeys > minKeys - 1 then pure ()
          else do
            let siblingIdx ← getSiblingIndex node
            let nodeIdx := siblingIdx + 1
            let (siblingIdx, kPrimeIdx) :=
              if siblingIdx < 0 then ((1 : Int), (0 : Int))
              else (siblingIdx, siblingIdx)
            let nodeParent ← readNode node.Parent
            let kPrime ← lift (goGetI nodeParent.Keys kPrimeIdx)
            let s ← lift (goGetI nodeParent.Pointers siblingIdx)
            match s with
            | .ptr siblingPtr => do
                let sibling ← readNode siblingPtr
                if sibling.Numkeys > minKeys then
                  borrowFromSibling node sibling (decide (siblingIdx < nodeIdx))
                    kPrime kPrimeIdx
                else
                  mergeNodes fuel node sibling (decide (siblingIdx < nodeIdx)) kPrime
            | _ => throw .typeConversion

/-- `(t *DiskBTree) mergeNodes(node, sibling, isLeftSibling, kPrime)`:
canonicalize so `sibling` is the left participant, append `kPrime` (internal
only) and all of `node`'s entries to `sibling` (rewriting moved children's
parent fields on disk for an internal merge), persist both participants and
recurse into the parent to drop the dead separator and child. -/
def mergeNodes : Nat → DiskBTreeNode → DiskBTreeNode → Bool → List Nat → M Unit
  | 0, _, _, _, _ => throw .outOfFuel
  | fuel + 1, node0, sibling0, isLeftSibling, kPrime => do
      let (node, sibling) :=
        if !isLeftSibling then (sibling0, node0) else (node0, sibling0)
      let insertionIndex := sibling.Numkeys
      let sibling ←
        if !node.IsLeaf then do
          let sKeys ← lift (goSet sibling.Keys insertionIndex kPrime)
          let sibling := { sibling with Keys := sKeys,
                                        Numkeys := sibling.Numkeys + 1 }
          let (sibling, i) ← mergeMoveLoop fuel node sibling
            0 node.Numkeys (insertionIndex + 1)
          let pv ← lift (goGet node.Pointers node.Numkeys)
          let sPtrs ← lift (goSet sibling.Pointers i pv)
          let sibling := { sibling with Pointers := sPtrs }
          let borrowdChildPtr ← (match pv with
            | .ptr p => pure p
            | _ => throw Err.typeConversion)
          let borrowdChild ← readNode borrowdChildPtr
          let borrowdChild := { borrowdChild with Parent := sibling.Ptr }
          let b ← lift borrowdChild.ToBytes
          writeNode b borrowdChildPtr
          pure sibling
        else do
          let (sKeys, sPtrs) ← lift (eLoop node.Numkeys
            (fun j acc => do
              let (ks, ps) := acc
              let kv ← goGet node.Keys j
              let ks ← goSet ks (insertionIndex + j) kv
              let pv ← goGet node.Pointers j
              let ps ← goSet ps (insertionIndex + j) pv
              .ok (ks, ps))
            0 (sibling.Keys, sibling.Pointers))
          pure { sibling with Keys := sKeys, Pointers := sPtrs }
      let sibling := { sibling with Numkeys := sibling.Numkeys + node.Numkeys }
      let b ← lift node.ToBytes
      writeNode b node.Ptr
      let b ← lift sibling.ToBytes
      writeNode b sibling.Ptr
      let nodeParent ← readNode node.Parent
      deleteEntry fuel nodeParent kPrime (.ndobj node.Ptr)

/-- The `for ; j < node.Numkeys; j++` copy loop of an internal merge: copy
key and pointer `j` of `node` to position `i` of `sibling`, re-reading and
rewriting the moved child with its new parent; returns the sibling and the
final `i`. -/
def mergeMoveLoop (fuel : Nat) (node : DiskBTreeNode) :
    DiskBTreeNode → Nat → Nat → Nat → M (DiskBTreeNode × Nat)
  | sibling, _, 0, i => pure (sibling, i)
  | sibling, j, c + 1, i => do
      let kv ← lift (goGet node.Keys j)
      let sKeys ← lift (goSet sibling.Keys i kv)
      let pv ← lift (goGet node.Pointers j)
      let sPtrs ← lift (goSet sibling.Pointers i pv)
      let sibling := { sibling with Keys := sKeys, Pointers := sPtrs }
      let borrowdChildPtr ← (match pv with
        | .ptr p => pure p
        | _ => throw Err.typeConversion)
      let borrowdChild ← readNode borrowdChildPtr
      let borrowdChild := { borrowdChild with Parent := sibling.Ptr }
      let b ← lift borrowdChild.ToBytes
      writeNode b borrowdChildPtr
      mergeMoveLoop fuel node sibling (j + 1) c (i + 1)

end

/-- `(t *DiskBTree) Delete(key)`: nil and empty-tree checks (both report
`KEY_NOT_FOUND`; there is no key-size check), leaf descent, membership
check, then `deleteEntry` with the key's value slot. -/
def Delete (fuel : Nat) (key : Option (List Nat)) : M Unit := do
  let t ← get
  match t.masterPage, key with
  | none, _ => throw .keyNotFound
  | _, none => throw .keyNotFound
  | some _, some k => do
      let leaf ← findLeaf fuel k
      let idx ← lift (getKeyIndex leaf k)
      if idx < 0 then throw .keyNotFound
      else do
        let s ← lift (goGetI leaf.Pointers idx)
        deleteEntry fuel leaf k (.sl s)

/-- Go slice `xs[:n]`; `n` beyond the length panics. -/
def goTake (xs : List α) (n : Nat) : Except Err (List α) :=
  if n ≤ xs.length then .ok (xs.take n) else .error .goPanic

/-- The descent to the leftmost leaf shared by `PrintLeaves` and
`PrintLeavesBackwards`: from the root, repeatedly follow `Pointers[0]`. -/
def leftmostLeaf : Nat → M DiskBTreeNode
  | 0 => throw .outOfFuel
  | fuel + 1 => do
      let t ← get
      match t.masterPage with
      | none => throw .treeEmpty
      | some mp => do
          let node ← readNode mp.root
          leftmostDescend fuel node
where
  leftmostDescend : Nat → DiskBTreeNode → M DiskBTreeNode
    | 0, _ => throw .outOfFuel
    | fuel + 1, leaf =>
      if leaf.IsLeaf then pure leaf
      else do
        let s ← lift (goGet leaf.Pointers 0)
        match s with
        | .ptr p => do
            let nonLeafNode ← readNode p
            leftmostDescend fuel nonLeafNode
        | _ => throw .typeConversion

/-- The traversal of `PrintLeaves`, collecting `Keys[:Numkeys]` of each leaf
instead of printing: follow `Next` until it is 0. -/
def collectNextChain : Nat → DiskBTreeNode → M (List (List Nat))
  | 0, _ => throw .outOfFuel
  | fuel + 1, leaf => do
      let ks ← lift (goTake leaf.Keys leaf.Numkeys)
      if leaf.Next = 0 then pure ks
      else do
        let nextLeaf ← readNode leaf.Next
        let rest ← collectNextChain fuel nextLeaf
        pure (ks ++ rest)

/-- The symmetric descent to the rightmost leaf: from the root, repeatedly
follow `Pointers[Numkeys]` (the last child in use). -/
def rightmostLeaf : Nat → M DiskBTreeNode
  | 0 => throw .outOfFuel
  | fuel + 1 => do
      let t ← get
      match t.masterPage with
      | none => throw .treeEmpty
      | some mp => do
          let node ← readNode mp.root
          rightmostDescend fuel node
where
  rightmostDescend : Nat → DiskBTreeNode → M DiskBTreeNode
    | 0, _ => throw .outOfFuel
    | fuel + 1, leaf =>
      if leaf.IsLeaf then pure leaf
      else do
        let s ← lift (goGet leaf.Pointers leaf.Numkeys)
        match s with
        | .ptr p => do
            let nonLeafNode ← readNode p
            rightmostDescend fuel nonLeafNode
        | _ => throw .typeConversion

/-- The backward traversal of the leaf chain, collecting `Keys[:Numkeys]` of
each leaf: follow `Prev` until it is 0 (the loop of
`PrintLeavesBackwards`, started from the rightmost leaf as the claimed
invariant requires rather than from the leftmost leaf the diagnostic
happens to reach). -/
def collectPrevChain : Nat → DiskBTreeNode → M (List (List Nat))
  | 0, _ => throw .outOfFuel
  | fuel + 1, leaf => do
      let ks ← lift (goTake leaf.Keys leaf.Numkeys)
      if leaf.Prev = 0 then pure ks
      else do
        let previousLeaf ← readNode leaf.Prev
        let rest ← collectPrevChain fuel previousLeaf
        pure (ks ++ rest)

/-- One public operation of the API, with `Option` arguments standing for
possibly-nil Go slices. -/
inductive Op where
  | ins (k v : Option (List Nat))
  | upd (k v : Option (List Nat))
  | del (k : Option (List Nat))
  | fnd (k : Option (List Nat))
deriving DecidableEq, Repr

/-- Fuel used when running whole operations; all runs in this file stay far
below it. -/
def opFuel : Nat := 1000

/-- Run a monadic computation for its final state (Go keeps all writes made
before an error return). -/
def runState (m : M α) (t : DiskBTree) : DiskBTree :=
  match m.run t with
  | .ok _ s => s
  | .error _ s => s

/-- Run a monadic computation for its result. -/
def runRes (m : M α) (t : DiskBTree) : Except Err α :=
  match m.run t with
  | .ok a _ => .ok a
  | .error e _ => .error e

/-- The state transformer of one public operation. -/
def applyOp (t : DiskBTree) (o : Op) : DiskBTree :=
  match o with
  | .ins k v => runState (Insert opFuel k v) t
  | .upd k v => runState (Update opFuel k v) t
  | .del k => runState (Delete opFuel k) t
  | .fnd k => runState (Find opFuel k) t

/-- The result of one public operation, discarding any found value. -/
def opResult (t : DiskBTree) (o : Op) : Except Err Unit :=
  match o with
  | .ins k v => runRes (Insert opFuel k v) t
  | .upd k v => runRes (Update opFuel k v) t
  | .del k => runRes (Delete opFuel k) t
  | .fnd k => (runRes (Find opFuel k) t).map fun _ => ()

/-- Run a sequence of public operations from a state. -/
def runOps (t : DiskBTree) (ops : List Op) : DiskBTree :=
  ops.foldl applyOp t

end DiskBPTree

deriving instance DecidableEq for Except

namespace DiskBPTree

/-! ## Stepping lemmas for the monad of the embedding -/

@[simp] theorem run_bind (m : M α) (f : α → M β) (s : DiskBTree) :
    (m >>= f).run s =
      match m.run s with
      | .ok a t => (f a).run t
      | .error e t => .error e t := by
  show EStateM.bind m f s = _
  unfold EStateM.bind
  simp only [EStateM.run]
  cases hm : m s <;> simp [hm]

@[simp] theorem run_pure (a : α) (s : DiskBTree) :
    (pure a : M α).run s = .ok a s := rfl

@[simp] theorem run_throw (e : Err) (s : DiskBTree) :
    (throw e : M α).run s = .error e s := rfl

@[simp] theorem run_get (s : DiskBTree) :
    (get : M DiskBTree).run s = .ok s s := rfl

@[simp] theorem run_set (t s : DiskBTree) :
    (set t : M Unit).run s = .ok () t := rfl

@[simp] theorem run_modify (f : DiskBTree → DiskBTree) (s : DiskBTree) :
    (modify f : M Unit).run s = .ok () (f s) := rfl

@[simp] theorem run_tryCatch (m : M α) (h : Err → M α) (s : DiskBTree) :
    (tryCatch m h).run s =
      match m.run s with
      | .ok a t => .ok a t
      | .error e t => (h e).run t := by
  show EStateM.tryCatch m h s = _
  unfold EStateM.tryCatch
  simp only [EStateM.run]
  cases hm : m s with
  | ok a t => simp [hm]
  | error e t =>
      simp [hm, EStateM.Backtrackable.restore, EStateM.Backtrackable.save,
            EStateM.nonBacktrackable, EStateM.dummyRestore, EStateM.dummySave]

@[simp] theorem run_lift_ok (a : α) (s : DiskBTree) :
    (lift (.ok a) : M α).run s = .ok a s := rfl

@[simp] theorem run_lift_error (e : Err) (s : DiskBTree) :
    (lift (.error e) : M α).run s = .error e s := rfl

@[simp] theorem exc_bind_ok (a : α) (f : α → Except Err β) :
    (Except.ok a >>= f) = f a := rfl

@[simp] theorem exc_bind_error (e : Err) (f : α → Except Err β) :
    ((Except.error e : Except Err α) >>= f) = .error e := rfl

/-! ## Arithmetic facts about the byte layer -/

theorem bpowAux_eq (f : Nat) : ∀ b n, n < 2 ^ f → bpowAux f b n = b ^ n := by
  induction f with
  | zero =>
      intro b n h
      interval_cases n
      rfl
  | succ f ih =>
      intro b n h
      rw [bpowAux]
      by_cases h0 : n = 0
      · simp [h0]
      · have hlt : n / 2 < 2 ^ f := by
          rw [Nat.div_lt_iff_lt_mul (by norm_num)]
          calc n < 2 ^ (f + 1) := h
            _ = 2 ^ f * 2 := by ring
        rw [if_neg h0, ih (b * b) (n / 2) hlt]
        have h2 : (b * b) ^ (n / 2) = b ^ (2 * (n / 2)) := by
          rw [pow_mul]; ring_nf
        rw [h2]
        rcases Nat.even_or_odd n with he | ho
        · have h1 : n % 2 = 0 := Nat.even_iff.mp he
          rw [h1, if_neg (by omega), mul_one]
          congr 1
          omega
        · have h1 : n % 2 = 1 := Nat.odd_iff.mp ho
          rw [h1, if_pos rfl, ← pow_succ]
          congr 1
          omega

theorem pow256_eq (k : Nat) : pow256 k = 256 ^ k :=
  bpowAux_eq (k + 1) 256 k (Nat.lt_pow_self (by norm_num) k |>.trans
    (Nat.pow_lt_pow_succ (by norm_num)))

@[simp] theorem pow256_pos (k : Nat) : 0 < pow256 k := by
  rw [pow256_eq]; positivity

/-- A byte sequence is canonical when its positional value has no digits at
or above its length. -/
def Bytes.Canon (b : Bytes) : Prop := b.data < 256 ^ b.size

/-- The value written by `wr x p d ds` below: `x` with its base-256 digits
`[p, p+ds)` replaced by the digits of `d` — the shared data formula of
`Bytes.splice` and `fileWrite`. -/
theorem wr_div_mod_same (x p d ds : Nat) (hd : d < 256 ^ ds) :
    (x % 256 ^ p + d * 256 ^ p + x / 256 ^ (p + ds) * 256 ^ (p + ds))
        / 256 ^ p % 256 ^ ds = d := by
  have hB : 0 < (256 : Nat) ^ p := by positivity
  have hx : x % 256 ^ p < 256 ^ p := Nat.mod_lt _ hB
  have hre : x % 256 ^ p + d * 256 ^ p + x / 256 ^ (p + ds) * 256 ^ (p + ds)
      = x % 256 ^ p + 256 ^ p * (d + 256 ^ ds * (x / 256 ^ (p + ds))) := by
    rw [pow_add]; ring
  rw [hre, Nat.add_mul_div_left _ _ hB, Nat.div_eq_of_lt hx, Nat.zero_add,
      Nat.add_mul_mod_self_left, Nat.mod_eq_of_lt hd]

theorem wr_div_mod_below (x p d ds r len : Nat) (h : r + len ≤ p) :
    (x % 256 ^ p + d * 256 ^ p + x / 256 ^ (p + ds) * 256 ^ (p + ds))
        / 256 ^ r % 256 ^ len = x / 256 ^ r % 256 ^ len := by
  have key : ∀ y : Nat, y / 256 ^ r % 256 ^ len = y % 256 ^ (r + len) / 256 ^ r := by
    intro y
    rw [Nat.div_mod_eq_mod_mul_div, ← pow_add]
  rw [key, key x]
  congr 1
  have hdvd : (256 : Nat) ^ (r + len) ∣ 256 ^ p := pow_dvd_pow _ h
  have hdvd2 : (256 : Nat) ^ (r + len) ∣ 256 ^ (p + ds) :=
    pow_dvd_pow _ (by omega)
  obtain ⟨c1, hc1⟩ := hdvd
  obtain ⟨c2, hc2⟩ := hdvd2
  have hre : x % 256 ^ p + d * 256 ^ p + x / 256 ^ (p + ds) * 256 ^ (p + ds)
      = x % 256 ^ p + 256 ^ (r + len) * (d * c1 + x / 256 ^ (p + ds) * c2) := by
    rw [hc1, hc2]; ring
  rw [hre, Nat.add_mul_mod_self_left]
  exact Nat.mod_mod_of_dvd x ⟨c1, hc1⟩

theorem wr_small (x p d ds : Nat) (hd : d < 256 ^ ds) :
    x % 256 ^ p + d * 256 ^ p < 256 ^ (p + ds) := by
  have hB : 0 < (256 : Nat) ^ p := by positivity
  have h1 : x % 256 ^ p < 256 ^ p := Nat.mod_lt _ hB
  have h2 : d * 256 ^ p ≤ (256 ^ ds - 1) * 256 ^ p :=
    Nat.mul_le_mul_right _ (by omega)
  have h3 : (256 : Nat) ^ (p + ds) = 256 ^ ds * 256 ^ p := by
    rw [pow_add]; ring
  have h4 : 0 < (256 : Nat) ^ ds := by positivity
  have h5 : (256 ^ ds - 1) * 256 ^ p + 256 ^ p = 256 ^ ds * 256 ^ p := by
    rw [Nat.sub_one_mul]
    have h6 : 256 ^ p ≤ 256 ^ ds * 256 ^ p := Nat.le_mul_of_pos_left _ h4
    omega
  omega

theorem wr_div_above (x p d ds r : Nat) (h : p + ds ≤ r) (hd : d < 256 ^ ds) :
    (x % 256 ^ p + d * 256 ^ p + x / 256 ^ (p + ds) * 256 ^ (p + ds))
        / 256 ^ r = x / 256 ^ r := by
  have hsmall := wr_small x p d ds hd
  have hC : 0 < (256 : Nat) ^ (p + ds) := by positivity
  have step1 : (x % 256 ^ p + d * 256 ^ p + x / 256 ^ (p + ds) * 256 ^ (p + ds))
      / 256 ^ (p + ds) = x / 256 ^ (p + ds) := by
    rw [Nat.add_mul_div_right _ _ hC, Nat.div_eq_of_lt hsmall, Nat.zero_add]
  calc (x % 256 ^ p + d * 256 ^ p + x / 256 ^ (p + ds) * 256 ^ (p + ds)) / 256 ^ r
      = (x % 256 ^ p + d * 256 ^ p + x / 256 ^ (p + ds) * 256 ^ (p + ds))
          / 256 ^ (p + ds) / 256 ^ (r - (p + ds)) := by
        rw [Nat.div_div_eq_div_mul, ← pow_add]
        congr 2
        omega
    _ = x / 256 ^ (p + ds) / 256 ^ (r - (p + ds)) := by rw [step1]
    _ = x / 256 ^ r := by
        rw [Nat.div_div_eq_div_mul, ← pow_add]
        congr 2
        omega

theorem wr_div_mod_above (x p d ds r len : Nat) (h : p + ds ≤ r) (hd : d < 256 ^ ds) :
    (x % 256 ^ p + d * 256 ^ p + x / 256 ^ (p + ds) * 256 ^ (p + ds))
        / 256 ^ r % 256 ^ len = x / 256 ^ r % 256 ^ len := by
  rw [wr_div_above x p d ds r h hd]

theorem wr_lt (x p d ds n : Nat) (hx : x < 256 ^ n) (hd : d < 256 ^ ds)
    (hn : p + ds ≤ n) :
    x % 256 ^ p + d * 256 ^ p + x / 256 ^ (p + ds) * 256 ^ (p + ds) < 256 ^ n := by
  have hsmall := wr_small x p d ds hd
  have hC : 0 < (256 : Nat) ^ (p + ds) := by positivity
  have hdvd : (256 : Nat) ^ (p + ds) ∣ 256 ^ n := pow_dvd_pow _ hn
  have hq2 : x / 256 ^ (p + ds) < 256 ^ n / 256 ^ (p + ds) :=
    Nat.div_lt_div_of_lt_of_dvd hdvd hx
  have hmul : 256 ^ (p + ds) * (1 + x / 256 ^ (p + ds))
      = 256 ^ (p + ds) + x / 256 ^ (p + ds) * 256 ^ (p + ds) := by ring
  have h8 : 256 ^ (p + ds) * (1 + x / 256 ^ (p + ds))
      ≤ 256 ^ (p + ds) * (256 ^ n / 256 ^ (p + ds)) :=
    Nat.mul_le_mul_left _ (by omega)
  have h9 : 256 ^ (p + ds) * (256 ^ n / 256 ^ (p + ds)) = 256 ^ n :=
    Nat.mul_div_cancel' hdvd
  omega

/-! ## The byte-packing functions `bytesOf` / `listOfBytes` -/

@[simp] theorem bytesOf_size (l : List Nat) : (bytesOf l).size = l.length := by
  suffices h : ∀ l : List Nat, (bytesOfList l).2 = l.length by exact h l
  intro l
  induction l with
  | nil => rfl
  | cons x xs ih => simp [bytesOfList, ih]

theorem bytesOf_lt (l : List Nat) : (bytesOf l).data < 256 ^ l.length := by
  suffices h : ∀ l : List Nat, (bytesOfList l).1 < 256 ^ l.length by exact h l
  intro l
  induction l with
  | nil => simp [bytesOfList]
  | cons x xs ih =>
      simp only [bytesOfList, List.length_cons]
      have hx : x % 256 < 256 := Nat.mod_lt _ (by norm_num)
      have : (bytesOfList xs).1 * 256 ≤ (256 ^ xs.length - 1) * 256 :=
        Nat.mul_le_mul_right _ (by omega)
      have hp : 0 < (256 : Nat) ^ xs.length := by positivity
      have he : (256 : Nat) ^ (xs.length + 1) = 256 ^ xs.length * 256 := by
        rw [pow_succ]
      have hs : (256 ^ xs.length - 1) * 256 + 256 = 256 ^ xs.length * 256 := by
        rw [Nat.sub_one_mul]
        have : (256 : Nat) ≤ 256 ^ xs.length * 256 :=
          le_mul_of_one_le_left (by norm_num) hp
        omega
      omega

theorem bytesOf_canon (l : List Nat) : (bytesOf l).Canon := by
  have := bytesOf_lt l
  have hs := bytesOf_size l
  unfold Bytes.Canon
  rw [hs]
  exact this

theorem bytesOf_append (a b : List Nat) :
    (bytesOf (a ++ b)).data = (bytesOf a).data + (bytesOf b).data * 256 ^ a.length := by
  suffices h : ∀ a b : List Nat,
      (bytesOfList (a ++ b)).1 = (bytesOfList a).1 + (bytesOfList b).1 * 256 ^ a.length by
    exact h a b
  intro a
  induction a with
  | nil => intro b; simp [bytesOfList]
  | cons x xs ih =>
      intro b
      simp only [List.cons_append, bytesOfList]
      rw [show xs.append b = xs ++ b from rfl, ih b]
      simp only [List.length_cons]
      rw [pow_succ]
      ring

theorem listOfBytes_bytesOf (l : List Nat) (h : ∀ x ∈ l, x < 256) :
    listOfBytes (bytesOf l) = l := by
  suffices hgen : ∀ l : List Nat, (∀ x ∈ l, x < 256) →
      listOfBytesAux l.length (bytesOfList l).1 = l by
    unfold listOfBytes
    rw [bytesOf_size]
    exact hgen l h
  intro l
  induction l with
  | nil => intro _; rfl
  | cons x xs ih =>
      intro hv
      have hx : x < 256 := hv x (by simp)
      simp only [List.length_cons, bytesOfList, listOfBytesAux]
      refine congrArg₂ List.cons (by omega) ?_
      · have hd : (x % 256 + (bytesOfList xs).1 * 256) / 256 = (bytesOfList xs).1 := by
          omega
        rw [hd]
        exact ih (fun y hy => hv y (by simp [hy]))

@[simp] theorem zero_bytes_eq (n : Nat) :
    (⟨0, n⟩ : Bytes) = bytesOf (List.replicate n 0) := by
  have hd : ∀ n, (bytesOfList (List.replicate n 0)).1 = 0 := by
    intro n
    induction n with
    | zero => rfl
    | succ m ih => simp [List.replicate, bytesOfList, ih]
  have hs := bytesOf_size (List.replicate n 0)
  unfold bytesOf
  rw [List.length_replicate] at hs
  refine congrArg₂ Bytes.mk ?_ ?_
  · exact (hd n).symm
  · rw [show (bytesOfList (List.replicate n 0)).2 = (bytesOf (List.replicate n 0)).size from rfl,
        hs]

theorem bytesOfList_listOfBytesAux :
    ∀ n d, d < 256 ^ n → bytesOfList (listOfBytesAux n d) = (d, n) := by
  intro n
  induction n with
  | zero =>
      intro d h
      simp only [pow_zero, Nat.lt_one_iff] at h
      subst h
      rfl
  | succ m ih =>
      intro d h
      have hlt : d / 256 < 256 ^ m := by
        rw [Nat.div_lt_iff_lt_mul (by norm_num)]
        rw [pow_succ] at h
        exact h
      simp only [listOfBytesAux, bytesOfList, ih (d / 256) hlt]
      refine congrArg₂ Prod.mk (by omega) rfl

theorem bytesOf_listOfBytes (b : Bytes) (h : b.Canon) : bytesOf (listOfBytes b) = b := by
  obtain ⟨d, n⟩ := b
  unfold Bytes.Canon at h
  simp only at h
  unfold bytesOf listOfBytes
  simp only
  rw [bytesOfList_listOfBytesAux n d h]

theorem listOfBytes_lt (b : Bytes) : ∀ x ∈ listOfBytes b, x < 256 := by
  obtain ⟨d, n⟩ := b
  unfold listOfBytes
  simp only
  induction n generalizing d with
  | zero => intro x hx; simp [listOfBytesAux] at hx
  | succ m ih =>
      intro x hx
      simp only [listOfBytesAux, List.mem_cons] at hx
      rcases hx with h1 | h2
      · omega
      · exact ih (d / 256) x h2

@[simp] theorem listOfBytes_length (b : Bytes) : (listOfBytes b).length = b.size := by
  obtain ⟨d, n⟩ := b
  unfold listOfBytes
  simp only
  induction n generalizing d with
  | zero => rfl
  | succ m ih => simp [listOfBytesAux, ih]

/-- The window-read lemma: reading `l2.length` bytes at offset `l1.length` of
the packed list `l1 ++ l2 ++ l3` yields the packed `l2`. -/
theorem bytesOf_read (l1 l2 l3 : List Nat) :
    (bytesOf (l1 ++ l2 ++ l3)).data / 256 ^ l1.length % 256 ^ l2.length
      = (bytesOf l2).data := by
  have h12 : (bytesOf (l1 ++ l2 ++ l3)).data
      = (bytesOf l1).data + 256 ^ l1.length *
          ((bytesOf l2).data + (bytesOf l3).data * 256 ^ l2.length) := by
    rw [bytesOf_append, bytesOf_append, List.length_append]
    rw [pow_add]
    ring
  have hB : 0 < (256 : Nat) ^ l1.length := by positivity
  rw [h12, Nat.add_mul_div_left _ _ hB,
      Nat.div_eq_of_lt (bytesOf_lt l1), Nat.zero_add,
      Nat.add_mul_mod_self_right, Nat.mod_eq_of_lt (bytesOf_lt l2)]

/-- `goSlice` on a packed concatenation picks out the middle component. -/
theorem goSlice_bytesOf (l1 l2 l3 : List Nat) (start stop : Nat)
    (h1 : l1.length = start) (h2 : start + l2.length = stop)
    (h3 : stop ≤ start + l2.length + l3.length) :
    goSlice (bytesOf (l1 ++ l2 ++ l3)) start stop = .ok (bytesOf l2) := by
  unfold goSlice
  rw [pow256_eq, pow256_eq]
  have hsz : (bytesOf (l1 ++ l2 ++ l3)).size = l1.length + l2.length + l3.length := by
    rw [bytesOf_size]
    simp [List.length_append]
    omega
  rw [if_pos (by omega)]
  subst h1
  have hstop : stop - l1.length = l2.length := by omega
  rw [hstop, bytesOf_read l1 l2 l3]
  refine congrArg Except.ok ?_
  refine congrArg₂ Bytes.mk rfl ?_
  exact (bytesOf_size l2).symm

/-- The write-step lemma: splicing `src` into a packed list at the boundary
between `P` and `Z` replaces the first `src.size` bytes of `Z`. -/
theorem splice_bytesOf (P Z : List Nat) (src : Bytes) (hc : src.Canon)
    (hsz : src.size ≤ Z.length) :
    (bytesOf (P ++ Z)).splice P.length src
      = bytesOf (P ++ (listOfBytes src ++ Z.drop src.size)) := by
  obtain ⟨Z1, Z2, hZ, hZ1⟩ : ∃ Z1 Z2, Z = Z1 ++ Z2 ∧ Z1.length = src.size :=
    ⟨Z.take src.size, Z.drop src.size, (List.take_append_drop _ _).symm,
     List.length_take_of_le hsz⟩
  have hdrop : Z.drop src.size = Z2 := by
    rw [hZ, ← hZ1, List.drop_left]
  unfold Bytes.splice
  rw [hdrop, hZ]
  have hx := bytesOf_lt P
  have hread1 : (bytesOf (P ++ (Z1 ++ Z2))).data % 256 ^ P.length = (bytesOf P).data := by
    rw [bytesOf_append, Nat.add_mul_mod_self_right, Nat.mod_eq_of_lt hx]
  have hread2 : (bytesOf (P ++ (Z1 ++ Z2))).data / 256 ^ (P.length + src.size)
      = (bytesOf Z2).data := by
    have hassoc : P ++ (Z1 ++ Z2) = (P ++ Z1) ++ Z2 := by rw [List.append_assoc]
    rw [hassoc, bytesOf_append]
    have hlen : (P ++ Z1).length = P.length + src.size := by
      rw [List.length_append, hZ1]
    rw [hlen]
    have hPZ1 : (bytesOf (P ++ Z1)).data < 256 ^ (P.length + src.size) := by
      have := bytesOf_lt (P ++ Z1)
      rwa [hlen] at this
    have hB : 0 < (256 : Nat) ^ (P.length + src.size) := by positivity
    rw [Nat.add_mul_div_right _ _ hB, Nat.div_eq_of_lt hPZ1, Nat.zero_add]
  rw [pow256_eq, pow256_eq, hread1, hread2]
  refine congrArg₂ Bytes.mk ?_ ?_
  · show _ = (bytesOf (P ++ (listOfBytes src ++ Z2))).data
    rw [bytesOf_append, bytesOf_append, bytesOf_listOfBytes src hc,
        listOfBytes_length, pow_add]
    ring
  · show (bytesOf (P ++ (Z1 ++ Z2))).size = (bytesOf (P ++ (listOfBytes src ++ Z2))).size
    simp only [bytesOf_size, List.length_append, listOfBytes_length]
    omega

/-- `splice_bytesOf` for a byte-valid source list: writing the packed `l` at
the `P`/`Z` boundary. -/
theorem splice_step (P Z l : List Nat) (hv : ∀ x ∈ l, x < 256)
    (hsz : l.length ≤ Z.length) :
    (bytesOf (P ++ Z)).splice P.length (bytesOf l)
      = bytesOf (P ++ (l ++ Z.drop l.length)) := by
  have h := splice_bytesOf P Z (bytesOf l) (bytesOf_canon l)
    (by rw [bytesOf_size]; exact hsz)
  rw [h, bytesOf_size, listOfBytes_bytesOf l hv]

/-- `goSlice` of a packed list via an explicit three-way split. -/
theorem goSlice_split (b : Bytes) (F l1 l2 l3 : List Nat) (start stop : Nat)
    (hb : b = bytesOf F) (hF : F = l1 ++ l2 ++ l3)
    (h1 : l1.length = start) (h2 : start + l2.length = stop) :
    goSlice b start stop = .ok (bytesOf l2) := by
  subst hb hF
  exact goSlice_bytesOf l1 l2 l3 start stop h1 h2 (by omega)

/-! ## The byte-list image of an encoded node -/

/-- The two big-endian bytes of a `uint16`. -/
def u16L (x : Nat) : List Nat := [x / 2 ^ 8 % 256, x % 256]

/-- The eight big-endian bytes of a `uint64`. -/
def u64L (x : Nat) : List Nat :=
  [x / 2 ^ 56 % 256, x / 2 ^ 48 % 256, x / 2 ^ 40 % 256, x / 2 ^ 32 % 256,
   x / 2 ^ 24 % 256, x / 2 ^ 16 % 256, x / 2 ^ 8 % 256, x % 256]

theorem u16Bytes_eq (x : Nat) : u16Bytes x = bytesOf (u16L x) := rfl

theorem u64Bytes_eq (x : Nat) : u64Bytes x = bytesOf (u64L x) := rfl

@[simp] theorem u16L_length (x : Nat) : (u16L x).length = 2 := rfl

@[simp] theorem u64L_length (x : Nat) : (u64L x).length = 8 := rfl

theorem u16L_valid (x : Nat) : ∀ y ∈ u16L x, y < 256 := by
  intro y hy
  simp only [u16L, List.mem_cons, List.not_mem_nil, or_false] at hy
  rcases hy with rfl | rfl <;> exact Nat.mod_lt _ (by norm_num)

theorem u64L_valid (x : Nat) : ∀ y ∈ u64L x, y < 256 := by
  intro y hy
  simp only [u64L, List.mem_cons, List.not_mem_nil, or_false] at hy
  rcases hy with rfl | rfl | rfl | rfl | rfl | rfl | rfl | rfl <;>
    exact Nat.mod_lt _ (by norm_num)

/-- The 29-byte header of a node page. -/
def encHeader (n : DiskBTreeNode) : List Nat :=
  (if n.IsLeaf then 1 else 0) ::
    (u16L n.Numkeys ++ u64L n.Parent ++ u64L n.Next ++ u64L n.Prev ++ u16L n.Keysize)

@[simp] theorem encHeader_length (n : DiskBTreeNode) : (encHeader n).length = 29 := by
  simp [encHeader, u16L, u64L]

theorem append_valid {l1 l2 : List Nat} (h1 : ∀ y ∈ l1, y < 256)
    (h2 : ∀ y ∈ l2, y < 256) : ∀ y ∈ l1 ++ l2, y < 256 := by
  intro y hy
  rcases List.mem_append.mp hy with h | h
  exacts [h1 y h, h2 y h]

theorem encHeader_valid (n : DiskBTreeNode) : ∀ y ∈ encHeader n, y < 256 := by
  intro y hy
  rcases List.mem_cons.mp hy with rfl | h
  · split <;> norm_num
  · exact append_valid (append_valid (append_valid (append_valid
      (u16L_valid _) (u64L_valid _)) (u64L_valid _)) (u64L_valid _))
      (u16L_valid _) y h

/-- The bytes of one leaf value slot: `uint16` length then the value. -/
def encSlot : Slot → List Nat
  | .bytes v => u16L v.size ++ listOfBytes v
  | _ => []

/-- The bytes of one child-offset slot. -/
def encPtr : Slot → List Nat
  | .ptr p => u64L p
  | _ => []

/-- The pointers region of a node: length-prefixed values for a leaf,
`Numkeys + 1` offsets for an internal node. -/
def encRegion (n : DiskBTreeNode) : List Nat :=
  if n.IsLeaf then List.flatten ((n.Pointers.take n.Numkeys).map encSlot)
  else List.flatten ((n.Pointers.take (n.Numkeys + 1)).map encPtr)

/-- The byte-list image of `ToBytes` before zero padding. -/
def encList (n : DiskBTreeNode) : List Nat :=
  encHeader n ++ List.flatten (n.Keys.take n.Numkeys) ++ encRegion n

/-- The full page image of `ToBytes`. -/
def encPage (n : DiskBTreeNode) : Bytes :=
  bytesOf (encList n ++ List.replicate (8192 - (encList n).length) 0)

/-- Wellformedness of a node image as the encoder expects it: canonical
slice lengths, `Numkeys` within bounds, keys of length `Keysize` made of
bytes, matching slot kinds, fields in `uint16`/`uint64` range, and the
whole encoding fitting in one page. -/
structure NodeWF (n : DiskBTreeNode) : Prop where
  hkl : n.Keys.length = 3
  hpl : n.Pointers.length = 4
  hnk : n.Numkeys ≤ 3
  hks : n.Keysize ≤ 65535
  hpar : n.Parent < 2 ^ 64
  hnext : n.Next < 2 ^ 64
  hprev : n.Prev < 2 ^ 64
  hkeys : ∀ j, j < n.Numkeys → ∃ k, n.Keys.get? j = some k ∧
    k.length = n.Keysize ∧ ∀ x ∈ k, x < 256
  hleafslots : n.IsLeaf = true → ∀ j, j < n.Numkeys →
    ∃ v, n.Pointers.get? j = some (.bytes v) ∧ v.Canon ∧ v.size ≤ 65535
  hptrslots : n.IsLeaf = false → ∀ j, j < n.Numkeys + 1 →
    ∃ p, n.Pointers.get? j = some (.ptr p) ∧ p < 2 ^ 64
  hfit : (encList n).length ≤ 8192

/-- `splice_step` with the write offset abstracted. -/
theorem splice_step2 (P Z l : List Nat) (start : Nat) (hst : P.length = start)
    (hv : ∀ x ∈ l, x < 256) (hsz : l.length ≤ Z.length) :
    (bytesOf (P ++ Z)).splice start (bytesOf l)
      = bytesOf (P ++ (l ++ Z.drop l.length)) := by
  subst hst
  exact splice_step P Z l hv hsz

/-- A header write into the zero padding after the prefix `P`. -/
theorem putAt_pad (P : List Nat) (pad : Nat) (l : List Nat) (start : Nat)
    (hst : P.length = start) (hv : ∀ y ∈ l, y < 256) (hsz : l.length ≤ pad) :
    putAt (bytesOf (P ++ List.replicate pad 0)) start (bytesOf l)
      = bytesOf ((P ++ l) ++ List.replicate (pad - l.length) 0) := by
  unfold putAt
  rw [splice_step2 P _ l start hst hv (by simp [hsz]), List.drop_replicate,
      List.append_assoc]

/-- `uint16` cursor addition without wraparound. -/
theorem a16_small (x y : Nat) (h : x + y < 65536) : a16 x y = x + y := by
  unfold a16 U16MOD
  omega

/-- Byte `i` of a packed byte-valid list. -/
theorem bget_bytesOf (l : List Nat) (hv : ∀ x ∈ l, x < 256) :
    ∀ i, i < l.length → (bytesOf l).bget i = l.getD i 0 := by
  induction l with
  | nil => intro i hi; cases hi
  | cons x xs ih =>
    intro i hi
    have hx : x < 256 := hv x (List.mem_cons_self x xs)
    have hd : (bytesOf (x :: xs)).data = x + (bytesOf xs).data * 256 := by
      show (bytesOfList (x :: xs)).1 = _
      unfold bytesOfList
      simp only
      rw [Nat.mod_eq_of_lt hx]
      rfl
    match i with
    | 0 =>
      show (bytesOf (x :: xs)).data / pow256 0 % 256 = x
      rw [hd, pow256_eq]
      simp
      omega
    | j + 1 =>
      show (bytesOf (x :: xs)).data / pow256 (j + 1) % 256 = xs.getD j 0
      have hstep : (bytesOf (x :: xs)).data / pow256 (j + 1)
          = (bytesOf xs).data / pow256 j := by
        rw [hd, pow256_eq, pow256_eq, pow_succ,
            show (256 : Nat) ^ j * 256 = 256 * 256 ^ j from by ring,
            ← Nat.div_div_eq_div_mul]
        congr 1
        omega
      have hj : j < xs.length := by
        simpa using Nat.lt_of_succ_lt_succ hi
      have := ih (fun y hy => hv y (List.mem_cons_of_mem x hy)) j hj
      rw [show Bytes.bget (bytesOf xs) j = (bytesOf xs).data / pow256 j % 256 from rfl] at this
      rw [hstep, this]

/-- Decoding the two big-endian bytes of `x` recovers `x mod 2^16`. -/
theorem beU16_u16L (x : Nat) : beU16 (bytesOf (u16L x)) = .ok (x % 2 ^ 16) := by
  unfold beU16
  rw [if_neg (by simp)]
  rw [show Bytes.bget (bytesOf (u16L x)) 0 = (u16L x).getD 0 0 from
        bget_bytesOf _ (u16L_valid x) 0 (by simp),
      show Bytes.bget (bytesOf (u16L x)) 1 = (u16L x).getD 1 0 from
        bget_bytesOf _ (u16L_valid x) 1 (by simp)]
  refine congrArg Except.ok ?_
  show x / 2 ^ 8 % 256 * 2 ^ 8 + x % 256 = x % 2 ^ 16
  omega

/-- Decoding the eight big-endian bytes of `x` recovers `x mod 2^64`. -/
theorem beU64_u64L (x : Nat) : beU64 (bytesOf (u64L x)) = .ok (x % 2 ^ 64) := by
  unfold beU64
  rw [if_neg (by simp)]
  have hb : ∀ i, i < 8 → Bytes.bget (bytesOf (u64L x)) i = (u64L x).getD i 0 :=
    fun i hi => bget_bytesOf _ (u64L_valid x) i (by simp; omega)
  rw [hb 0 (by norm_num), hb 1 (by norm_num), hb 2 (by norm_num),
      hb 3 (by norm_num), hb 4 (by norm_num), hb 5 (by norm_num),
      hb 6 (by norm_num), hb 7 (by norm_num)]
  refine congrArg Except.ok ?_
  show x / 2 ^ 56 % 256 * 2 ^ 56 + x / 2 ^ 48 % 256 * 2 ^ 48
      + x / 2 ^ 40 % 256 * 2 ^ 40 + x / 2 ^ 32 % 256 * 2 ^ 32
      + x / 2 ^ 24 % 256 * 2 ^ 24 + x / 2 ^ 16 % 256 * 2 ^ 16
      + x / 2 ^ 8 % 256 * 2 ^ 8 + x % 256 = x % 2 ^ 64
  omega

/-- Length of the packed prefix of a key list whose first `count` entries all
have length `L`. -/
theorem flatten_take_length (l : List (List Nat)) (count L : Nat)
    (h : ∀ j, j < count → ∃ k, l.get? j = some k ∧ k.length = L) :
    (List.flatten (l.take count)).length = count * L := by
  induction count generalizing l with
  | zero => simp
  | succ c ih =>
    obtain ⟨k, hk, hkl⟩ := h 0 (Nat.succ_pos c)
    match l with
    | [] => simp [List.get?] at hk
    | k0 :: l' =>
      have hk0 : k0 = k := by simpa [List.get?] using hk
      subst hk0
      have := ih l' (fun j hj => by
        obtain ⟨k', hk', hkl'⟩ := h (j + 1) (Nat.succ_lt_succ hj)
        exact ⟨k', by simpa [List.get?] using hk', hkl'⟩)
      simp only [List.take_succ_cons, List.flatten_cons, List.length_append, this, hkl]
      ring

/-- Length of the packed child-offset region. -/
theorem flatten_ptr_length (l : List Slot) (count : Nat)
    (h : ∀ j, j < count → ∃ p, l.get? j = some (.ptr p)) :
    (List.flatten ((l.take count).map encPtr)).length = count * 8 := by
  induction count generalizing l with
  | zero => simp
  | succ c ih =>
    obtain ⟨p, hp⟩ := h 0 (Nat.succ_pos c)
    match l with
    | [] => simp [List.get?] at hp
    | s0 :: l' =>
      have hs0 : s0 = .ptr p := by simpa [List.get?] using hp
      subst hs0
      have := ih l' (fun j hj => by
        obtain ⟨p', hp'⟩ := h (j + 1) (Nat.succ_lt_succ hj)
        exact ⟨p', by simpa [List.get?] using hp'⟩)
      simp only [List.take_succ_cons, List.map_cons, List.flatten_cons,
        List.length_append, this, encPtr]
      simp
      ring

/-- Overwrite the entries of `L` from position `i` on with `xs`. -/
def listWrite (L : List α) (i : Nat) (xs : List α) : List α :=
  L.take i ++ xs ++ L.drop (i + xs.length)

theorem listWrite_nil (L : List α) (i : Nat) (h : i ≤ L.length) :
    listWrite L i ([] : List α) = L := by
  unfold listWrite
  simp

theorem listWrite_cons (L : List α) (i : Nat) (x : α) (xs : List α)
    (h : i < L.length) :
    listWrite (L.set i x) (i + 1) xs = listWrite L i (x :: xs) := by
  unfold listWrite
  rw [List.set_eq_take_append_cons_drop, if_pos h]
  have htake : (L.take i ++ x :: L.drop (i + 1)).take (i + 1)
      = L.take i ++ [x] := by
    rw [List.take_append_eq_append_take]
    have h1 : (L.take i).length = i := List.length_take_of_le (Nat.le_of_lt h)
    rw [List.take_of_length_le (by omega), h1]
    simp
  have hdrop : (L.take i ++ x :: L.drop (i + 1)).drop (i + 1 + xs.length)
      = L.drop (i + (x :: xs).length) := by
    rw [List.drop_append_eq_append_drop]
    have h1 : (L.take i).length = i := List.length_take_of_le (Nat.le_of_lt h)
    rw [List.drop_of_length_le (by omega), h1]
    simp only [List.nil_append]
    rw [show i + 1 + xs.length - i = 1 + xs.length by omega]
    rw [show (1 : Nat) + xs.length = xs.length + 1 by omega]
    rw [List.drop_succ_cons, List.drop_drop]
    refine congrArg₂ List.drop (by simp; omega) rfl
  rw [htake, hdrop]
  simp

/-- The node image `BytesToNode` reconstructs from `ToBytes` output: the same
fields with the page offset stamped in, the used key and pointer slots kept,
and the unused tail slots reset to their fresh-allocation defaults. -/
def canonNode (n : DiskBTreeNode) (p : Nat) : DiskBTreeNode :=
  { n with
    Ptr := p
    Keys := n.Keys.take n.Numkeys ++ List.replicate (3 - n.Numkeys) []
    Pointers :=
      n.Pointers.take (if n.IsLeaf then n.Numkeys else n.Numkeys + 1)
        ++ List.replicate (4 - (if n.IsLeaf then n.Numkeys else n.Numkeys + 1)) .null }

theorem eLoop_zero (f : Nat → σ → Except Err σ) (i : Nat) (acc : σ) :
    eLoop 0 f i acc = .ok acc := rfl

theorem eLoop_succ (c : Nat) (f : Nat → σ → Except Err σ) (i : Nat) (acc : σ) :
    eLoop (c + 1) f i acc = f i acc >>= fun a => eLoop c f (i + 1) a :=
  rfl

/-- The six fixed-offset header writes of `ToBytes` produce the packed
header followed by zero padding. -/
theorem toBytes_header (n : DiskBTreeNode) :
    putAt (putAt (putAt (putAt (putAt
        (if n.IsLeaf then putAt (⟨0, m_PAGE_SIZE⟩ : Bytes) 0 (bytesOf [1])
         else (⟨0, m_PAGE_SIZE⟩ : Bytes)) 1 (u16Bytes n.Numkeys))
        3 (u64Bytes n.Parent)) 11 (u64Bytes n.Next)) 19 (u64Bytes n.Prev))
      27 (u16Bytes n.Keysize)
    = bytesOf (encHeader n ++ List.replicate 8163 0) := by
  have hflag : (if n.IsLeaf then putAt (⟨0, m_PAGE_SIZE⟩ : Bytes) 0 (bytesOf [1])
      else (⟨0, m_PAGE_SIZE⟩ : Bytes))
      = bytesOf (((if n.IsLeaf then 1 else 0) :: ([] : List Nat))
                 ++ List.replicate 8191 0) := by
    cases h : n.IsLeaf with
    | false =>
      rw [if_neg (by simp [h]), if_neg (by simp [h]), zero_bytes_eq,
          show m_PAGE_SIZE = 8192 from rfl,
          show ((0 : Nat) :: ([] : List Nat)) ++ List.replicate 8191 0
            = List.replicate 8192 0 from rfl]
    | true =>
      rw [if_pos (by simp [h]), if_pos (by simp [h]), zero_bytes_eq,
          show m_PAGE_SIZE = 8192 from rfl,
          show List.replicate 8192 0 = ([] : List Nat) ++ List.replicate 8192 0 from rfl,
          putAt_pad ([] : List Nat) 8192 [1] 0 rfl
            (by intro y hy; simp at hy; omega) (by norm_num)]
      rfl
  rw [hflag, u16Bytes_eq n.Numkeys, u64Bytes_eq n.Parent, u64Bytes_eq n.Next,
      u64Bytes_eq n.Prev, u16Bytes_eq n.Keysize]
  rw [putAt_pad _ _ _ 1 (by simp) (u16L_valid _) (by simp)]
  rw [putAt_pad _ _ _ 3 (by simp) (u64L_valid _) (by simp)]
  rw [putAt_pad _ _ _ 11 (by simp) (u64L_valid _) (by simp)]
  rw [putAt_pad _ _ _ 19 (by simp) (u64L_valid _) (by simp)]
  rw [putAt_pad _ _ _ 27 (by simp) (u16L_valid _) (by simp)]
  refine congrArg bytesOf ?_
  refine congrArg₂ (· ++ · : List Nat → List Nat → List Nat) ?_
    (congrArg₂ List.replicate (by simp) rfl)
  simp [encHeader, List.append_assoc]

/-- The key-packing loop of `ToBytes`, stated for an arbitrary suffix of the
iteration space over a page consisting of a packed prefix and zero padding. -/
theorem toBytes_keysLoop (n : DiskBTreeNode) (count : Nat) :
    ∀ (i : Nat) (P : List Nat),
      P.length = 29 + i * n.Keysize →
      29 + (i + count) * n.Keysize ≤ 8192 →
      (∀ j, i ≤ j → j < i + count → ∃ k, n.Keys.get? j = some k ∧
          k.length = n.Keysize ∧ ∀ x ∈ k, x < 256) →
      eLoop count
        ((fun i acc => do
          let k ← goGet n.Keys i
          let pg ← goCopy acc.2.2 acc.1 acc.2.1 (bytesOf k)
          Except.ok (acc.2.1, a16 acc.2.1 n.Keysize, pg)) :
          Nat → Nat × Nat × Bytes → Except Err (Nat × Nat × Bytes)) i
        (P.length, a16 P.length n.Keysize,
         bytesOf (P ++ List.replicate (8192 - P.length) 0))
      = .ok (P.length + count * n.Keysize,
             a16 (P.length + count * n.Keysize) n.Keysize,
             bytesOf ((P ++ List.flatten ((n.Keys.drop i).take count))
                      ++ List.replicate (8192 - (P.length + count * n.Keysize)) 0)) := by
  induction count with
  | zero =>
    intro i P hP hbound hkeys
    simp [eLoop]
  | succ c ih =>
    intro i P hP hbound hkeys
    obtain ⟨k, hk, hkl, hkv⟩ := hkeys i (Nat.le_refl i) (by omega)
    obtain ⟨hilt, hget⟩ := List.get?_eq_some.mp hk
    have hdropi : n.Keys.drop i = k :: n.Keys.drop (i + 1) := by
      rw [List.drop_eq_get_cons hilt, hget]
    have hmono : 29 + (i + 1) * n.Keysize ≤ 8192 := by
      refine le_trans ?_ hbound
      have := Nat.mul_le_mul_right n.Keysize (show i + 1 ≤ i + (c + 1) by omega)
      omega
    have hPle : P.length + n.Keysize ≤ 8192 := by
      have h1 : (i + 1) * n.Keysize = i * n.Keysize + n.Keysize := by ring
      omega
    have hstop : a16 P.length n.Keysize = P.length + n.Keysize :=
      a16_small _ _ (by omega)
    have hsize : (bytesOf (P ++ List.replicate (8192 - P.length) 0)).size = 8192 := by
      simp
      omega
    have hgg : goGet n.Keys i = .ok k := by
      unfold goGet
      rw [hk]
    have harg : (⟨(bytesOf k).data % pow256 n.Keysize, n.Keysize⟩ : Bytes)
        = bytesOf k := by
      have hlt : (bytesOf k).data < 256 ^ n.Keysize := by
        rw [← hkl]
        exact bytesOf_lt k
      rw [pow256_eq, Nat.mod_eq_of_lt hlt]
      conv_rhs => rw [show bytesOf k = ⟨(bytesOf k).data, (bytesOf k).size⟩ from rfl]
      rw [bytesOf_size, hkl]
    have hgc : goCopy (bytesOf (P ++ List.replicate (8192 - P.length) 0))
        P.length (a16 P.length n.Keysize) (bytesOf k)
        = .ok (bytesOf ((P ++ k)
            ++ List.replicate (8192 - (P.length + n.Keysize)) 0)) := by
      unfold goCopy
      rw [hstop, if_pos ⟨by omega, by rw [hsize]; omega⟩]
      simp only [bytesOf_size, hkl,
        show P.length + n.Keysize - P.length = n.Keysize from by omega, min_self]
      rw [harg, splice_step P _ k hkv (by simp; omega), List.drop_replicate]
      refine congrArg Except.ok ?_
      rw [← List.append_assoc]
      refine congrArg bytesOf (congrArg (List.append (P ++ k)) ?_)
      refine congrArg₂ List.replicate (by omega) rfl
    have hP'len : (P ++ k).length = P.length + n.Keysize := by simp [hkl]
    generalize hF : ((fun i acc => do
        let k ← goGet n.Keys i
        let pg ← goCopy acc.2.2 acc.1 acc.2.1 (bytesOf k)
        Except.ok (acc.2.1, a16 acc.2.1 n.Keysize, pg)) :
      Nat → Nat × Nat × Bytes → Except Err (Nat × Nat × Bytes)) = F
    rw [hF] at ih
    have happ : F i (P.length, a16 P.length n.Keysize,
        bytesOf (P ++ List.replicate (8192 - P.length) 0))
        = .ok ((P ++ k).length, a16 (P ++ k).length n.Keysize,
            bytesOf ((P ++ k)
              ++ List.replicate (8192 - (P ++ k).length) 0)) := by
      rw [← hF]
      simp only [hgg, hgc, exc_bind_ok]
      rw [hstop, ← hP'len]
    rw [eLoop_succ, happ, exc_bind_ok]
    rw [ih (i + 1) (P ++ k) (by rw [hP'len, hP]; ring)
        (by rw [show i + 1 + c = i + (c + 1) from by omega]; exact hbound)
        (fun j hj1 hj2 => hkeys j (by omega) (by omega))]
    have hcur : (P ++ k).length + c * n.Keysize
        = P.length + (c + 1) * n.Keysize := by
      rw [List.length_append, hkl]
      ring
    have hflat : List.flatten ((n.Keys.drop i).take (c + 1))
        = k ++ List.flatten ((n.Keys.drop (i + 1)).take c) := by
      rw [hdropi, List.take_succ_cons, List.flatten_cons]
    rw [hcur, hflat, ← List.append_assoc]

/-- `splice_bytesOf` with the write offset abstracted. -/
theorem splice_bytesOf2 (P Z : List Nat) (src : Bytes) (start : Nat)
    (hst : P.length = start) (hc : src.Canon) (hsz : src.size ≤ Z.length) :
    (bytesOf (P ++ Z)).splice start src
      = bytesOf (P ++ (listOfBytes src ++ Z.drop src.size)) := by
  subst hst
  exact splice_bytesOf P Z src hc hsz

/-- The packed image of `count` leaf value slots starting at slot `i`. -/
def encSlots (l : List Slot) (i count : Nat) : List Nat :=
  List.flatten (((l.drop i).take count).map encSlot)

/-- The child-offset packing loop of `ToBytes` for an internal node. -/
theorem toBytes_ptrLoop (n : DiskBTreeNode) (count : Nat) :
    ∀ (i : Nat) (P : List Nat),
      P.length + count * 8 ≤ 8192 →
      (∀ j, i ≤ j → j < i + count → ∃ p, n.Pointers.get? j = some (.ptr p)) →
      eLoop count
        ((fun i acc => do
          let s ← goGet n.Pointers i
          let p ← asU64Assert s
          let pg ← goCopy acc.2.2 acc.1 acc.2.1 (u64Bytes p)
          Except.ok (acc.2.1, a16 acc.2.1 8, pg)) :
          Nat → Nat × Nat × Bytes → Except Err (Nat × Nat × Bytes)) i
        (P.length, a16 P.length 8,
         bytesOf (P ++ List.replicate (8192 - P.length) 0))
      = .ok (P.length + count * 8, a16 (P.length + count * 8) 8,
             bytesOf ((P ++ List.flatten (((n.Pointers.drop i).take count).map encPtr))
                      ++ List.replicate (8192 - (P.length + count * 8)) 0)) := by
  induction count with
  | zero =>
    intro i P hbound hslots
    simp [eLoop]
  | succ c ih =>
    intro i P hbound hslots
    obtain ⟨p, hp⟩ := hslots i (Nat.le_refl i) (by omega)
    obtain ⟨hilt, hget⟩ := List.get?_eq_some.mp hp
    have hdropi : n.Pointers.drop i = .ptr p :: n.Pointers.drop (i + 1) := by
      rw [List.drop_eq_get_cons hilt, hget]
    have hstop : a16 P.length 8 = P.length + 8 := a16_small _ _ (by omega)
    have hsize : (bytesOf (P ++ List.replicate (8192 - P.length) 0)).size = 8192 := by
      simp
      omega
    have hgg : goGet n.Pointers i = .ok (.ptr p) := by
      unfold goGet
      rw [hp]
    have harg : (⟨(bytesOf (u64L p)).data % pow256 8, 8⟩ : Bytes)
        = bytesOf (u64L p) := by
      have hlt : (bytesOf (u64L p)).data < 256 ^ 8 := by
        have := bytesOf_lt (u64L p)
        rwa [u64L_length] at this
      rw [pow256_eq, Nat.mod_eq_of_lt hlt]
      conv_rhs => rw [show bytesOf (u64L p)
        = ⟨(bytesOf (u64L p)).data, (bytesOf (u64L p)).size⟩ from rfl]
      rw [bytesOf_size, u64L_length]
    have hgc : goCopy (bytesOf (P ++ List.replicate (8192 - P.length) 0))
        P.length (a16 P.length 8) (u64Bytes p)
        = .ok (bytesOf ((P ++ u64L p)
            ++ List.replicate (8192 - (P.length + 8)) 0)) := by
      unfold goCopy
      rw [u64Bytes_eq, hstop, if_pos ⟨by omega, by rw [hsize]; omega⟩]
      simp only [bytesOf_size, u64L_length,
        show P.length + 8 - P.length = 8 from by omega, min_self]
      rw [harg, splice_step P _ (u64L p) (u64L_valid p) (by simp; omega),
          List.drop_replicate]
      refine congrArg Except.ok ?_
      rw [← List.append_assoc]
      refine congrArg bytesOf (congrArg (List.append (P ++ u64L p)) ?_)
      refine congrArg₂ List.replicate (by simp; omega) rfl
    have hP'len : (P ++ u64L p).length = P.length + 8 := by simp
    generalize hF : ((fun i acc => do
        let s ← goGet n.Pointers i
        let p ← asU64Assert s
        let pg ← goCopy acc.2.2 acc.1 acc.2.1 (u64Bytes p)
        Except.ok (acc.2.1, a16 acc.2.1 8, pg)) :
      Nat → Nat × Nat × Bytes → Except Err (Nat × Nat × Bytes)) = F
    rw [hF] at ih
    have happ : F i (P.length, a16 P.length 8,
        bytesOf (P ++ List.replicate (8192 - P.length) 0))
        = .ok ((P ++ u64L p).length, a16 (P ++ u64L p).length 8,
            bytesOf ((P ++ u64L p)
              ++ List.replicate (8192 - (P ++ u64L p).length) 0)) := by
      rw [← hF]
      simp only [hgg, asU64Assert, hgc, exc_bind_ok]
      rw [hstop, ← hP'len]
    rw [eLoop_succ, happ, exc_bind_ok]
    rw [ih (i + 1) (P ++ u64L p) (by rw [hP'len]; omega)
        (fun j hj1 hj2 => hslots j (by omega) (by omega))]
    have hcur : (P ++ u64L p).length + c * 8 = P.length + (c + 1) * 8 := by
      rw [List.length_append, u64L_length]
      ring
    have hflat : List.flatten (((n.Pointers.drop i).take (c + 1)).map encPtr)
        = u64L p ++ List.flatten (((n.Pointers.drop (i + 1)).take c).map encPtr) := by
      rw [hdropi, List.take_succ_cons, List.map_cons, List.flatten_cons]
      rfl
    rw [hcur, hflat, ← List.append_assoc]

/-- The value packing loop of `ToBytes` for a leaf node. -/
theorem toBytes_leafLoop (n : DiskBTreeNode) (count : Nat) :
    ∀ (i : Nat) (P : List Nat),
      P.length + (encSlots n.Pointers i count).length ≤ 8192 →
      (∀ j, i ≤ j → j < i + count → ∃ v, n.Pointers.get? j = some (.bytes v) ∧
          v.Canon ∧ v.size ≤ 65535) →
      eLoop count
        ((fun i acc => do
          let s ← goGet n.Pointers i
          let val ← asBytesAssert s
          let pg ← goCopy acc.2.2 acc.1 (a16 acc.1 2) (u16Bytes (val.size % U16MOD))
          let pg ← goCopy pg (a16 acc.1 2) (a16 (a16 acc.1 2) (val.size % U16MOD)) val
          Except.ok (a16 (a16 acc.1 2) (val.size % U16MOD),
            a16 (a16 acc.1 2) (val.size % U16MOD), pg)) :
          Nat → Nat × Nat × Bytes → Except Err (Nat × Nat × Bytes)) i
        (P.length, P.length, bytesOf (P ++ List.replicate (8192 - P.length) 0))
      = .ok (P.length + (encSlots n.Pointers i count).length,
             P.length + (encSlots n.Pointers i count).length,
             bytesOf ((P ++ encSlots n.Pointers i count)
                      ++ List.replicate
                          (8192 - (P.length + (encSlots n.Pointers i count).length)) 0)) := by
  induction count with
  | zero =>
    intro i P hbound hslots
    simp [eLoop, encSlots]
  | succ c ih =>
    intro i P hbound hslots
    obtain ⟨v, hv, hvc, hv16⟩ := hslots i (Nat.le_refl i) (by omega)
    obtain ⟨hilt, hget⟩ := List.get?_eq_some.mp hv
    have hdropi : n.Pointers.drop i = .bytes v :: n.Pointers.drop (i + 1) := by
      rw [List.drop_eq_get_cons hilt, hget]
    have hSrec : encSlots n.Pointers i (c + 1)
        = (u16L v.size ++ listOfBytes v) ++ encSlots n.Pointers (i + 1) c := by
      unfold encSlots
      rw [hdropi, List.take_succ_cons, List.map_cons, List.flatten_cons]
      rfl
    have hSlen : (encSlots n.Pointers i (c + 1)).length
        = 2 + v.size + (encSlots n.Pointers (i + 1) c).length := by
      rw [hSrec]
      simp
      omega
    have hdl : v.size % U16MOD = v.size := by
      unfold U16MOD
      omega
    have h2 : a16 P.length 2 = P.length + 2 := a16_small _ _ (by omega)
    have h3 : a16 (P.length + 2) v.size = P.length + 2 + v.size :=
      a16_small _ _ (by omega)
    have hsize : (bytesOf (P ++ List.replicate (8192 - P.length) 0)).size = 8192 := by
      simp
      omega
    have hgg : goGet n.Pointers i = .ok (.bytes v) := by
      unfold goGet
      rw [hv]
    have harg1 : (⟨(bytesOf (u16L v.size)).data % pow256 2, 2⟩ : Bytes)
        = bytesOf (u16L v.size) := by
      have hlt : (bytesOf (u16L v.size)).data < 256 ^ 2 := by
        have := bytesOf_lt (u16L v.size)
        rwa [u16L_length] at this
      rw [pow256_eq, Nat.mod_eq_of_lt hlt]
      conv_rhs => rw [show bytesOf (u16L v.size)
        = ⟨(bytesOf (u16L v.size)).data, (bytesOf (u16L v.size)).size⟩ from rfl]
      rw [bytesOf_size, u16L_length]
    have hgc1 : goCopy (bytesOf (P ++ List.replicate (8192 - P.length) 0))
        P.length (P.length + 2) (u16Bytes v.size)
        = .ok (bytesOf ((P ++ u16L v.size)
            ++ List.replicate (8192 - (P.length + 2)) 0)) := by
      unfold goCopy
      rw [u16Bytes_eq, if_pos ⟨by omega, by rw [hsize]; omega⟩]
      simp only [bytesOf_size, u16L_length,
        show P.length + 2 - P.length = 2 from by omega, min_self]
      rw [harg1, splice_step P _ (u16L v.size) (u16L_valid _) (by simp; omega),
          List.drop_replicate]
      refine congrArg Except.ok ?_
      rw [← List.append_assoc]
      refine congrArg bytesOf (congrArg (List.append (P ++ u16L v.size)) ?_)
      refine congrArg₂ List.replicate (by simp; omega) rfl
    have hP1len : (P ++ u16L v.size).length = P.length + 2 := by simp
    have harg2 : (⟨v.data % pow256 v.size, v.size⟩ : Bytes) = v := by
      rw [pow256_eq, Nat.mod_eq_of_lt hvc]
    have hgc2 : goCopy (bytesOf ((P ++ u16L v.size)
          ++ List.replicate (8192 - (P.length + 2)) 0))
        (P.length + 2) (P.length + 2 + v.size) v
        = .ok (bytesOf (((P ++ u16L v.size) ++ listOfBytes v)
            ++ List.replicate (8192 - (P.length + 2 + v.size)) 0)) := by
      unfold goCopy
      rw [if_pos ⟨by omega, by simp; omega⟩]
      simp only [show P.length + 2 + v.size - (P.length + 2) = v.size from by omega,
        min_self]
      rw [harg2,
          splice_bytesOf2 (P ++ u16L v.size) _ v (P.length + 2) hP1len hvc
            (by simp; omega),
          List.drop_replicate]
      refine congrArg Except.ok ?_
      rw [← List.append_assoc]
      refine congrArg bytesOf
        (congrArg (List.append ((P ++ u16L v.size) ++ listOfBytes v)) ?_)
      refine congrArg₂ List.replicate (by simp; omega) rfl
    have hP'len : ((P ++ u16L v.size) ++ listOfBytes v).length
        = P.length + 2 + v.size := by
      simp
      omega
    generalize hF : ((fun i acc => do
        let s ← goGet n.Pointers i
        let val ← asBytesAssert s
        let pg ← goCopy acc.2.2 acc.1 (a16 acc.1 2) (u16Bytes (val.size % U16MOD))
        let pg ← goCopy pg (a16 acc.1 2) (a16 (a16 acc.1 2) (val.size % U16MOD)) val
        Except.ok (a16 (a16 acc.1 2) (val.size % U16MOD),
          a16 (a16 acc.1 2) (val.size % U16MOD), pg)) :
      Nat → Nat × Nat × Bytes → Except Err (Nat × Nat × Bytes)) = F
    rw [hF] at ih
    have happ : F i (P.length, P.length,
        bytesOf (P ++ List.replicate (8192 - P.length) 0))
        = .ok (((P ++ u16L v.size) ++ listOfBytes v).length,
            ((P ++ u16L v.size) ++ listOfBytes v).length,
            bytesOf (((P ++ u16L v.size) ++ listOfBytes v)
              ++ List.replicate
                  (8192 - ((P ++ u16L v.size) ++ listOfBytes v).length) 0)) := by
      rw [← hF]
      simp only [hgg, asBytesAssert, hdl, h2, hgc1, h3, hgc2, exc_bind_ok]
      rw [← hP'len]
    rw [eLoop_succ, happ, exc_bind_ok]
    rw [ih (i + 1) ((P ++ u16L v.size) ++ listOfBytes v)
        (by rw [hP'len]; omega)
        (fun j hj1 hj2 => hslots j (by omega) (by omega))]
    have hE1 : ((P ++ u16L v.size) ++ listOfBytes v).length
          + (encSlots n.Pointers (i + 1) c).length
        = P.length + (encSlots n.Pointers i (c + 1)).length := by
      rw [hP'len, hSlen]
      omega
    rw [hE1, hSrec, List.append_assoc P (u16L v.size) (listOfBytes v),
        List.append_assoc P (u16L v.size ++ listOfBytes v)
          (encSlots n.Pointers (i + 1) c)]

/-- `ToBytes` of a wellformed node succeeds and produces exactly the packed
node image `encPage`. -/
theorem toBytes_eq (n : DiskBTreeNode) (h : NodeWF n) :
    n.ToBytes = .ok (encPage n) := by
  have hflatlen : (List.flatten (n.Keys.take n.Numkeys)).length
      = n.Numkeys * n.Keysize :=
    flatten_take_length _ _ _ (fun j hj => (h.hkeys j hj).imp (fun k hk => ⟨hk.1, hk.2.1⟩))
  have hencl : (encList n).length
      = 29 + n.Numkeys * n.Keysize + (encRegion n).length := by
    simp [encList, hflatlen]
    omega
  have hfit := h.hfit
  unfold DiskBTreeNode.ToBytes
  simp only []
  rw [toBytes_header n]
  rw [show (29 : Nat) = (encHeader n).length from (encHeader_length n).symm]
  rw [show (8163 : Nat) = 8192 - (encHeader n).length from by
    rw [encHeader_length]]
  rw [toBytes_keysLoop n n.Numkeys 0 (encHeader n) (by simp)
      (by have h0 : (0 + n.Numkeys) * n.Keysize = n.Numkeys * n.Keysize := by ring
          omega)
      (fun j _ hj => h.hkeys j (by omega))]
  simp only [exc_bind_ok]
  rw [List.drop_zero]
  have hP'len : (encHeader n ++ List.flatten (n.Keys.take n.Numkeys)).length
      = (encHeader n).length + n.Numkeys * n.Keysize := by
    simp [hflatlen]
  rw [← hP'len]
  cases hleaf : n.IsLeaf with
  | true =>
    rw [if_pos rfl]
    have hreg : encRegion n = encSlots n.Pointers 0 n.Numkeys := by
      unfold encRegion encSlots
      rw [if_pos hleaf, List.drop_zero]
    rw [toBytes_leafLoop n n.Numkeys 0
        (encHeader n ++ List.flatten (n.Keys.take n.Numkeys))
        (by rw [hP'len, ← hreg, encHeader_length]; omega)
        (fun j _ hj => h.hleafslots hleaf j (by omega))]
    simp only [exc_bind_ok]
    refine congrArg Except.ok ?_
    unfold encPage
    rw [← hreg]
    have hcnt : (encHeader n ++ List.flatten (n.Keys.take n.Numkeys)).length
        + (encRegion n).length = (encList n).length := by
      rw [hP'len, encHeader_length, hencl]
    rw [hcnt]
    refine congrArg bytesOf (congrArg₂ (· ++ ·) ?_ rfl)
    unfold encList
    rfl
  | false =>
    rw [if_neg Bool.false_ne_true]
    have hreg : encRegion n
        = List.flatten ((n.Pointers.take (n.Numkeys + 1)).map encPtr) := by
      unfold encRegion
      rw [if_neg (by rw [hleaf]; exact Bool.false_ne_true)]
    have hreglen : (encRegion n).length = (n.Numkeys + 1) * 8 := by
      rw [hreg]
      exact flatten_ptr_length _ _
        (fun j hj => (h.hptrslots hleaf j hj).imp fun p hp => hp.1)
    rw [toBytes_ptrLoop n (n.Numkeys + 1) 0
        (encHeader n ++ List.flatten (n.Keys.take n.Numkeys))
        (by rw [hP'len, encHeader_length]; omega)
        (fun j _ hj => (h.hptrslots hleaf j (by omega)).imp fun p hp => hp.1)]
    simp only [exc_bind_ok]
    rw [List.drop_zero]
    refine congrArg Except.ok ?_
    unfold encPage
    rw [← hreg]
    have hcnt : (encHeader n ++ List.flatten (n.Keys.take n.Numkeys)).length
        + (n.Numkeys + 1) * 8 = (encList n).length := by
      rw [hP'len, encHeader_length, hencl, hreglen]
    rw [hcnt]
    refine congrArg bytesOf (congrArg₂ (· ++ ·) ?_ rfl)
    unfold encList
    rfl

/-- The key-decoding loop of `BytesToNode` over a page holding the packed
keys between a prefix `A` and a suffix `C`. -/
theorem bytesToNode_keysLoop (b : Bytes) (ks : Nat) (keys : List (List Nat))
    (count : Nat) :
    ∀ (i : Nat) (A C : List Nat) (L : List (List Nat)),
      b = bytesOf (A ++ (List.flatten ((keys.drop i).take count) ++ C)) →
      A.length = 29 + i * ks →
      29 + (i + count) * ks ≤ 8192 →
      (∀ j, i ≤ j → j < i + count → ∃ k, keys.get? j = some k ∧
          k.length = ks ∧ ∀ x ∈ k, x < 256) →
      i + count ≤ L.length →
      eLoop count
        ((fun i acc => do
          let src ← goSlice b acc.1 acc.2.1
          let ks2 ← goSet acc.2.2 i
            (listOfBytes ⟨src.data % pow256 (min ks src.size), ks⟩)
          Except.ok (acc.2.1, a16 acc.2.1 ks, ks2)) :
          Nat → Nat × Nat × List (List Nat)
            → Except Err (Nat × Nat × List (List Nat))) i
        (A.length, a16 A.length ks, L)
      = .ok (A.length + count * ks, a16 (A.length + count * ks) ks,
             listWrite L i ((keys.drop i).take count)) := by
  induction count with
  | zero =>
    intro i A C L hb hA hbound hkeys hL
    rw [eLoop_zero]
    simp only [List.take_zero, listWrite_nil L i (by omega)]
    simp
  | succ c ih =>
    intro i A C L hb hA hbound hkeys hL
    obtain ⟨k, hk, hkl, hkv⟩ := hkeys i (Nat.le_refl i) (by omega)
    obtain ⟨hilt, hget⟩ := List.get?_eq_some.mp hk
    have hdropi : keys.drop i = k :: keys.drop (i + 1) := by
      rw [List.drop_eq_get_cons hilt, hget]
    have hflat : List.flatten ((keys.drop i).take (c + 1))
        = k ++ List.flatten ((keys.drop (i + 1)).take c) := by
      rw [hdropi, List.take_succ_cons, List.flatten_cons]
    have hmono : 29 + (i + 1) * ks ≤ 8192 := by
      refine le_trans ?_ hbound
      have := Nat.mul_le_mul_right ks (show i + 1 ≤ i + (c + 1) by omega)
      omega
    have hAle : A.length + ks ≤ 8192 := by
      have h1 : (i + 1) * ks = i * ks + ks := by ring
      omega
    have hstop : a16 A.length ks = A.length + ks := a16_small _ _ (by omega)
    have hsplit : b = bytesOf (A ++ (k
        ++ (List.flatten ((keys.drop (i + 1)).take c) ++ C))) := by
      rw [hb, hflat, List.append_assoc]
    have hgs : goSlice b A.length (a16 A.length ks) = .ok (bytesOf k) := by
      rw [hstop]
      exact goSlice_split b _ A k
        (List.flatten ((keys.drop (i + 1)).take c) ++ C) A.length (A.length + ks)
        hsplit (by rw [List.append_assoc]) rfl (by rw [hkl])
    have hkey : listOfBytes
        (⟨(bytesOf k).data % pow256 (min ks (bytesOf k).size), ks⟩ : Bytes)
        = k := by
      rw [bytesOf_size, hkl, min_self, pow256_eq,
          Nat.mod_eq_of_lt (by rw [← hkl]; exact bytesOf_lt k),
          show (⟨(bytesOf k).data, ks⟩ : Bytes) = bytesOf k from by
            rw [← hkl, ← bytesOf_size]]
      exact listOfBytes_bytesOf k hkv
    have hset : goSet L i k = .ok (L.set i k) := by
      unfold goSet
      rw [if_pos (by omega)]
    have hA'len : (A ++ k).length = A.length + ks := by simp [hkl]
    generalize hF : ((fun i acc => do
        let src ← goSlice b acc.1 acc.2.1
        let ks2 ← goSet acc.2.2 i
          (listOfBytes ⟨src.data % pow256 (min ks src.size), ks⟩)
        Except.ok (acc.2.1, a16 acc.2.1 ks, ks2)) :
      Nat → Nat × Nat × List (List Nat)
        → Except Err (Nat × Nat × List (List Nat))) = F
    rw [hF] at ih
    have happ : F i (A.length, a16 A.length ks, L)
        = .ok ((A ++ k).length, a16 (A ++ k).length ks, L.set i k) := by
      rw [← hF]
      simp only [hgs, hkey, hset, exc_bind_ok]
      rw [hstop, ← hA'len]
    rw [eLoop_succ, happ, exc_bind_ok]
    rw [ih (i + 1) (A ++ k) C (L.set i k)
        (by rw [hsplit, List.append_assoc])
        (by rw [hA'len, hA]; ring)
        (by rw [show i + 1 + c = i + (c + 1) from by omega]; exact hbound)
        (fun j hj1 hj2 => hkeys j (by omega) (by omega))
        (by simp; omega)]
    have hcur : (A ++ k).length + c * ks = A.length + (c + 1) * ks := by
      rw [List.length_append, hkl]
      ring
    have htake : (keys.drop i).take (c + 1) = k :: (keys.drop (i + 1)).take c := by
      rw [hdropi, List.take_succ_cons]
    rw [hcur, htake, listWrite_cons L i k _ (by omega)]

/-- The value-decoding loop of `BytesToNode` for a leaf page. -/
theorem bytesToNode_leafLoop (b : Bytes) (slots : List Slot) (count : Nat) :
    ∀ (i : Nat) (A C : List Nat) (L : List Slot),
      b = bytesOf (A ++ (encSlots slots i count ++ C)) →
      A.length + (encSlots slots i count).length ≤ 8192 →
      (∀ j, i ≤ j → j < i + count → ∃ v, slots.get? j = some (.bytes v) ∧
          v.Canon ∧ v.size ≤ 65535) →
      i + count ≤ L.length →
      eLoop count
        ((fun i acc => do
          let w ← goSlice b acc.1 (a16 acc.1 2)
          let y ← beU16 w
          let v ← goSlice b (a16 acc.1 2) (a16 (a16 acc.1 2) y)
          let ps ← goSet acc.2.2 i (Slot.bytes v)
          Except.ok (a16 (a16 acc.1 2) y, a16 (a16 acc.1 2) y, ps)) :
          Nat → Nat × Nat × List Slot → Except Err (Nat × Nat × List Slot)) i
        (A.length, A.length, L)
      = .ok (A.length + (encSlots slots i count).length,
             A.length + (encSlots slots i count).length,
             listWrite L i ((slots.drop i).take count)) := by
  induction count with
  | zero =>
    intro i A C L hb hbound hslots hL
    rw [eLoop_zero]
    simp only [List.take_zero, listWrite_nil L i (by omega)]
    simp [encSlots]
  | succ c ih =>
    intro i A C L hb hbound hslots hL
    obtain ⟨v, hv, hvc, hv16⟩ := hslots i (Nat.le_refl i) (by omega)
    obtain ⟨hilt, hget⟩ := List.get?_eq_some.mp hv
    have hdropi : slots.drop i = .bytes v :: slots.drop (i + 1) := by
      rw [List.drop_eq_get_cons hilt, hget]
    have hSrec : encSlots slots i (c + 1)
        = (u16L v.size ++ listOfBytes v) ++ encSlots slots (i + 1) c := by
      unfold encSlots
      rw [hdropi, List.take_succ_cons, List.map_cons, List.flatten_cons]
      rfl
    have hSlen : (encSlots slots i (c + 1)).length
        = 2 + v.size + (encSlots slots (i + 1) c).length := by
      rw [hSrec]
      simp
      omega
    have hdl : v.size % 2 ^ 16 = v.size := by omega
    have h2 : a16 A.length 2 = A.length + 2 := a16_small _ _ (by omega)
    have h3 : a16 (A.length + 2) v.size = A.length + 2 + v.size :=
      a16_small _ _ (by omega)
    have hsplit : b = bytesOf (A ++ (u16L v.size ++ (listOfBytes v
        ++ (encSlots slots (i + 1) c ++ C)))) := by
      rw [hb, hSrec]
      simp [List.append_assoc]
    have hgs1 : goSlice b A.length (A.length + 2)
        = .ok (bytesOf (u16L v.size)) := by
      exact goSlice_split b _ A (u16L v.size)
        (listOfBytes v ++ (encSlots slots (i + 1) c ++ C)) A.length (A.length + 2)
        hsplit (by simp [List.append_assoc]) rfl (by simp)
    have hgs2 : goSlice b (A.length + 2) (A.length + 2 + v.size)
        = .ok (bytesOf (listOfBytes v)) := by
      exact goSlice_split b _ (A ++ u16L v.size) (listOfBytes v)
        (encSlots slots (i + 1) c ++ C) (A.length + 2) (A.length + 2 + v.size)
        hsplit (by simp [List.append_assoc]) (by simp) (by simp)
    have hlob : bytesOf (listOfBytes v) = v := bytesOf_listOfBytes v hvc
    have hset : goSet L i (Slot.bytes v) = .ok (L.set i (Slot.bytes v)) := by
      unfold goSet
      rw [if_pos (by omega)]
    have hA'len : ((A ++ u16L v.size) ++ listOfBytes v).length
        = A.length + 2 + v.size := by
      simp
      omega
    generalize hF : ((fun i acc => do
        let w ← goSlice b acc.1 (a16 acc.1 2)
        let y ← beU16 w
        let v ← goSlice b (a16 acc.1 2) (a16 (a16 acc.1 2) y)
        let ps ← goSet acc.2.2 i (Slot.bytes v)
        Except.ok (a16 (a16 acc.1 2) y, a16 (a16 acc.1 2) y, ps)) :
      Nat → Nat × Nat × List Slot → Except Err (Nat × Nat × List Slot)) = F
    rw [hF] at ih
    have happ : F i (A.length, A.length, L)
        = .ok (((A ++ u16L v.size) ++ listOfBytes v).length,
            ((A ++ u16L v.size) ++ listOfBytes v).length,
            L.set i (Slot.bytes v)) := by
      rw [← hF]
      simp only [hgs1, beU16_u16L, hdl, h2, hgs2, h3, hlob, hset, exc_bind_ok]
      rw [← hA'len]
    rw [eLoop_succ, happ, exc_bind_ok]
    rw [ih (i + 1) ((A ++ u16L v.size) ++ listOfBytes v) C (L.set i (Slot.bytes v))
        (by rw [hsplit]; simp [List.append_assoc])
        (by rw [hA'len]; omega)
        (fun j hj1 hj2 => hslots j (by omega) (by omega))
        (by simp; omega)]
    have hE1 : ((A ++ u16L v.size) ++ listOfBytes v).length
          + (encSlots slots (i + 1) c).length
        = A.length + (encSlots slots i (c + 1)).length := by
      rw [hA'len, hSlen]
      omega
    have htake : (slots.drop i).take (c + 1) = .bytes v :: (slots.drop (i + 1)).take c := by
      rw [hdropi, List.take_succ_cons]
    rw [hE1, htake, listWrite_cons L i (Slot.bytes v) _ (by omega)]

/-- The child-offset decoding loop of `BytesToNode` for an internal page. -/
theorem bytesToNode_ptrLoop (b : Bytes) (slots : List Slot) (count : Nat) :
    ∀ (i : Nat) (A C : List Nat) (L : List Slot),
      b = bytesOf (A ++ (List.flatten (((slots.drop i).take count).map encPtr) ++ C)) →
      A.length + count * 8 ≤ 8192 →
      (∀ j, i ≤ j → j < i + count → ∃ p, slots.get? j = some (.ptr p) ∧ p < 2 ^ 64) →
      i + count ≤ L.length →
      eLoop count
        ((fun i acc => do
          let w ← goSlice b acc.1 acc.2.1
          let y ← beU64 w
          let ps ← goSet acc.2.2 i (Slot.ptr y)
          Except.ok (acc.2.1, a16 acc.2.1 8, ps)) :
          Nat → Nat × Nat × List Slot → Except Err (Nat × Nat × List Slot)) i
        (A.length, a16 A.length 8, L)
      = .ok (A.length + count * 8, a16 (A.length + count * 8) 8,
             listWrite L i ((slots.drop i).take count)) := by
  induction count with
  | zero =>
    intro i A C L hb hbound hslots hL
    rw [eLoop_zero]
    simp only [List.take_zero, listWrite_nil L i (by omega)]
    simp
  | succ c ih =>
    intro i A C L hb hbound hslots hL
    obtain ⟨p, hp, hp64⟩ := hslots i (Nat.le_refl i) (by omega)
    obtain ⟨hilt, hget⟩ := List.get?_eq_some.mp hp
    have hdropi : slots.drop i = .ptr p :: slots.drop (i + 1) := by
      rw [List.drop_eq_get_cons hilt, hget]
    have hflat : List.flatten (((slots.drop i).take (c + 1)).map encPtr)
        = u64L p ++ List.flatten (((slots.drop (i + 1)).take c).map encPtr) := by
      rw [hdropi, List.take_succ_cons, List.map_cons, List.flatten_cons]
      rfl
    have hstop : a16 A.length 8 = A.length + 8 := a16_small _ _ (by omega)
    have hpm : p % 2 ^ 64 = p := Nat.mod_eq_of_lt hp64
    have hsplit : b = bytesOf (A ++ (u64L p
        ++ (List.flatten (((slots.drop (i + 1)).take c).map encPtr) ++ C))) := by
      rw [hb, hflat, List.append_assoc]
    have hgs : goSlice b A.length (a16 A.length 8) = .ok (bytesOf (u64L p)) := by
      rw [hstop]
      exact goSlice_split b _ A (u64L p)
        (List.flatten (((slots.drop (i + 1)).take c).map encPtr) ++ C)
        A.length (A.length + 8)
        hsplit (by rw [List.append_assoc]) rfl (by simp)
    have hset : goSet L i (Slot.ptr p) = .ok (L.set i (Slot.ptr p)) := by
      unfold goSet
      rw [if_pos (by omega)]
    have hA'len : (A ++ u64L p).length = A.length + 8 := by simp
    generalize hF : ((fun i acc => do
        let w ← goSlice b acc.1 acc.2.1
        let y ← beU64 w
        let ps ← goSet acc.2.2 i (Slot.ptr y)
        Except.ok (acc.2.1, a16 acc.2.1 8, ps)) :
      Nat → Nat × Nat × List Slot → Except Err (Nat × Nat × List Slot)) = F
    rw [hF] at ih
    have happ : F i (A.length, a16 A.length 8, L)
        = .ok ((A ++ u64L p).length, a16 (A ++ u64L p).length 8,
            L.set i (Slot.ptr p)) := by
      rw [← hF]
      simp only [hgs, beU64_u64L, hpm, hset, exc_bind_ok]
      rw [hstop, ← hA'len]
    rw [eLoop_succ, happ, exc_bind_ok]
    rw [ih (i + 1) (A ++ u64L p) C (L.set i (Slot.ptr p))
        (by rw [hsplit, List.append_assoc])
        (by rw [hA'len]; omega)
        (fun j hj1 hj2 => hslots j (by omega) (by omega))
        (by simp; omega)]
    have hcur : (A ++ u64L p).length + c * 8 = A.length + (c + 1) * 8 := by
      rw [hA'len]
      ring
    have htake : (slots.drop i).take (c + 1) = .ptr p :: (slots.drop (i + 1)).take c := by
      rw [hdropi, List.take_succ_cons]
    rw [hcur, htake, listWrite_cons L i (Slot.ptr p) _ (by omega)]

theorem flatten_take_valid (l : List (List Nat)) (count : Nat)
    (h : ∀ j, j < count → ∃ k, l.get? j = some k ∧ ∀ x ∈ k, x < 256) :
    ∀ y ∈ List.flatten (l.take count), y < 256 := by
  induction count generalizing l with
  | zero => simp
  | succ c ih =>
    obtain ⟨k, hk, hkv⟩ := h 0 (Nat.succ_pos c)
    match l with
    | [] => simp [List.get?] at hk
    | k0 :: l' =>
      have hk0 : k0 = k := by simpa [List.get?] using hk
      subst hk0
      have htail := ih l' (fun j hj => by
        obtain ⟨k', hk', hkv'⟩ := h (j + 1) (Nat.succ_lt_succ hj)
        exact ⟨k', by simpa [List.get?] using hk', hkv'⟩)
      intro y hy
      rw [List.take_succ_cons, List.flatten_cons] at hy
      rcases List.mem_append.mp hy with hy | hy
      · exact hkv y hy
      · exact htail y hy

theorem encSlot_region_valid (l : List Slot) (count : Nat)
    (h : ∀ j, j < count → ∃ v, l.get? j = some (.bytes v)) :
    ∀ y ∈ List.flatten ((l.take count).map encSlot), y < 256 := by
  induction count generalizing l with
  | zero => simp
  | succ c ih =>
    obtain ⟨v, hv⟩ := h 0 (Nat.succ_pos c)
    match l with
    | [] => simp [List.get?] at hv
    | s0 :: l' =>
      have hs0 : s0 = .bytes v := by simpa [List.get?] using hv
      subst hs0
      have htail := ih l' (fun j hj => by
        obtain ⟨v', hv'⟩ := h (j + 1) (Nat.succ_lt_succ hj)
        exact ⟨v', by simpa [List.get?] using hv'⟩)
      intro y hy
      rw [List.take_succ_cons, List.map_cons, List.flatten_cons] at hy
      rcases List.mem_append.mp hy with hy | hy
      · rcases List.mem_append.mp (by simpa [encSlot] using hy) with hy | hy
        · exact u16L_valid _ y hy
        · exact listOfBytes_lt v y hy
      · exact htail y hy

theorem encPtr_region_valid (l : List Slot) (count : Nat)
    (h : ∀ j, j < count → ∃ p, l.get? j = some (.ptr p)) :
    ∀ y ∈ List.flatten ((l.take count).map encPtr), y < 256 := by
  induction count generalizing l with
  | zero => simp
  | succ c ih =>
    obtain ⟨p, hp⟩ := h 0 (Nat.succ_pos c)
    match l with
    | [] => simp [List.get?] at hp
    | s0 :: l' =>
      have hs0 : s0 = .ptr p := by simpa [List.get?] using hp
      subst hs0
      have htail := ih l' (fun j hj => by
        obtain ⟨p', hp'⟩ := h (j + 1) (Nat.succ_lt_succ hj)
        exact ⟨p', by simpa [List.get?] using hp'⟩)
      intro y hy
      rw [List.take_succ_cons, List.map_cons, List.flatten_cons] at hy
      rcases List.mem_append.mp hy with hy | hy
      · exact u64L_valid _ y (by simpa [encPtr] using hy)
      · exact htail y hy

/-- Every byte of the packed node image is a byte value. -/
theorem encList_valid (n : DiskBTreeNode) (h : NodeWF n) :
    ∀ y ∈ encList n, y < 256 := by
  intro y hy
  unfold encList at hy
  rcases List.mem_append.mp hy with hy | hy
  · rcases List.mem_append.mp hy with hy | hy
    · exact encHeader_valid n y hy
    · exact flatten_take_valid _ _
        (fun j hj => (h.hkeys j hj).imp fun k hk => ⟨hk.1, hk.2.2⟩) y hy
  · unfold encRegion at hy
    cases hleaf : n.IsLeaf with
    | true =>
      rw [if_pos (by rw [hleaf])] at hy
      exact encSlot_region_valid _ _
        (fun j hj => (h.hleafslots hleaf j hj).imp fun v hv => hv.1) y hy
    | false =>
      rw [if_neg (by rw [hleaf]; exact Bool.false_ne_true)] at hy
      exact encPtr_region_valid _ _
        (fun j hj => (h.hptrslots hleaf j hj).imp fun q hq => hq.1) y hy

/-- `BytesToNode` inverts `ToBytes` on wellformed nodes, up to the offset
stamp and the reset of the unused tail slots. -/
theorem bytesToNode_encPage (n : DiskBTreeNode) (h : NodeWF n) (p : Nat) :
    BytesToNode (encPage n) p = .ok (canonNode n p) := by
  have hfit := h.hfit
  have hflatlen : (List.flatten (n.Keys.take n.Numkeys)).length
      = n.Numkeys * n.Keysize :=
    flatten_take_length _ _ _ (fun j hj => (h.hkeys j hj).imp (fun k hk => ⟨hk.1, hk.2.1⟩))
  have hencl : (encList n).length
      = 29 + n.Numkeys * n.Keysize + (encRegion n).length := by
    simp [encList, hflatlen]
    omega
  have hFv : ∀ y ∈ encList n ++ List.replicate (8192 - (encList n).length) 0,
      y < 256 := by
    intro y hy
    rcases List.mem_append.mp hy with hy | hy
    · exact encList_valid n h y hy
    · rw [List.eq_of_mem_replicate hy]
      norm_num
  have hFlen : (encList n ++ List.replicate (8192 - (encList n).length) 0).length
      = 8192 := by
    simp
    omega
  have hb0 : goByte (encPage n) 0 = .ok (if n.IsLeaf then 1 else 0) := by
    unfold goByte encPage
    rw [if_pos (by rw [bytesOf_size, hFlen]; norm_num)]
    rw [bget_bytesOf _ hFv 0 (by rw [hFlen]; norm_num)]
    refine congrArg Except.ok ?_
    simp [encList, encHeader]
  have hflag : (((if n.IsLeaf then 1 else 0) : Nat) == 1) = n.IsLeaf := by
    cases n.IsLeaf <;> rfl
  have hsNum : goSlice (encPage n) 1 3 = .ok (bytesOf (u16L n.Numkeys)) := by
    refine goSlice_split (encPage n) _ [(if n.IsLeaf then 1 else 0)]
      (u16L n.Numkeys)
      (u64L n.Parent ++ (u64L n.Next ++ (u64L n.Prev ++ (u16L n.Keysize
        ++ (List.flatten (n.Keys.take n.Numkeys) ++ (encRegion n
          ++ List.replicate (8192 - (encList n).length) 0))))))
      1 3 rfl ?_ (by simp) (by simp)
    simp [encList, encHeader, List.append_assoc]
  have hsPar : goSlice (encPage n) 3 11 = .ok (bytesOf (u64L n.Parent)) := by
    refine goSlice_split (encPage n) _
      ([(if n.IsLeaf then 1 else 0)] ++ u16L n.Numkeys)
      (u64L n.Parent)
      (u64L n.Next ++ (u64L n.Prev ++ (u16L n.Keysize
        ++ (List.flatten (n.Keys.take n.Numkeys) ++ (encRegion n
          ++ List.replicate (8192 - (encList n).length) 0)))))
      3 11 rfl ?_ (by simp) (by simp)
    simp [encList, encHeader, List.append_assoc]
  have hsNext : goSlice (encPage n) 11 19 = .ok (bytesOf (u64L n.Next)) := by
    refine goSlice_split (encPage n) _
      ([(if n.IsLeaf then 1 else 0)] ++ u16L n.Numkeys ++ u64L n.Parent)
      (u64L n.Next)
      (u64L n.Prev ++ (u16L n.Keysize
        ++ (List.flatten (n.Keys.take n.Numkeys) ++ (encRegion n
          ++ List.replicate (8192 - (encList n).length) 0))))
      11 19 rfl ?_ (by simp) (by simp)
    simp [encList, encHeader, List.append_assoc]
  have hsPrev : goSlice (encPage n) 19 27 = .ok (bytesOf (u64L n.Prev)) := by
    refine goSlice_split (encPage n) _
      ([(if n.IsLeaf then 1 else 0)] ++ u16L n.Numkeys ++ u64L n.Parent
        ++ u64L n.Next)
      (u64L n.Prev)
      (u16L n.Keysize ++ (List.flatten (n.Keys.take n.Numkeys) ++ (encRegion n
        ++ List.replicate (8192 - (encList n).length) 0)))
      19 27 rfl ?_ (by simp) (by simp)
    simp [encList, encHeader, List.append_assoc]
  have hsKs : goSlice (encPage n) 27 29 = .ok (bytesOf (u16L n.Keysize)) := by
    refine goSlice_split (encPage n) _
      ([(if n.IsLeaf then 1 else 0)] ++ u16L n.Numkeys ++ u64L n.Parent
        ++ u64L n.Next ++ u64L n.Prev)
      (u16L n.Keysize)
      (List.flatten (n.Keys.take n.Numkeys) ++ (encRegion n
        ++ List.replicate (8192 - (encList n).length) 0))
      27 29 rfl ?_ (by simp) (by simp)
    simp [encList, encHeader, List.append_assoc]
  have hmNum : n.Numkeys % 2 ^ 16 = n.Numkeys := by
    have := h.hnk
    omega
  have hmKs : n.Keysize % 2 ^ 16 = n.Keysize := by
    have := h.hks
    omega
  have hmPar : n.Parent % 2 ^ 64 = n.Parent := Nat.mod_eq_of_lt h.hpar
  have hmNext : n.Next % 2 ^ 64 = n.Next := Nat.mod_eq_of_lt h.hnext
  have hmPrev : n.Prev % 2 ^ 64 = n.Prev := Nat.mod_eq_of_lt h.hprev
  unfold BytesToNode
  simp only [hb0, hsNum, hsPar, hsNext, hsPrev, hsKs, beU16_u16L, beU64_u64L,
    hmNum, hmKs, hmPar, hmNext, hmPrev, hflag, exc_bind_ok]
  rw [show (29 : Nat) = (encHeader n).length from (encHeader_length n).symm]
  have hbKeys : encPage n = bytesOf (encHeader n
      ++ (List.flatten ((n.Keys.drop 0).take n.Numkeys)
        ++ (encRegion n ++ List.replicate (8192 - (encList n).length) 0))) := by
    unfold encPage encList
    rw [List.drop_zero]
    simp [List.append_assoc]
  rw [bytesToNode_keysLoop (encPage n) n.Keysize n.Keys n.Numkeys 0 (encHeader n)
      (encRegion n ++ List.replicate (8192 - (encList n).length) 0)
      (List.replicate (m_ORDER - 1) [])
      hbKeys (by simp)
      (by have h0 : (0 + n.Numkeys) * n.Keysize = n.Numkeys * n.Keysize := by ring
          omega)
      (fun j _ hj => h.hkeys j (by omega))
      (by show 0 + n.Numkeys ≤ (List.replicate (m_ORDER - 1) ([] : List Nat)).length
          simp [m_ORDER]
          have := h.hnk
          omega)]
  simp only [exc_bind_ok]
  have hKfill : listWrite (List.replicate (m_ORDER - 1) ([] : List Nat)) 0
      ((n.Keys.drop 0).take n.Numkeys)
      = n.Keys.take n.Numkeys ++ List.replicate (3 - n.Numkeys) [] := by
    rw [List.drop_zero]
    unfold listWrite
    have hlen : (n.Keys.take n.Numkeys).length = n.Numkeys := by
      rw [List.length_take, h.hkl]
      have := h.hnk
      omega
    rw [List.take_zero, List.nil_append, hlen, Nat.zero_add,
        show m_ORDER - 1 = 3 from rfl, List.drop_replicate]
  rw [hKfill]
  have hP'len : (encHeader n ++ List.flatten (n.Keys.take n.Numkeys)).length
      = (encHeader n).length + n.Numkeys * n.Keysize := by
    simp [hflatlen]
  cases hleaf : n.IsLeaf with
  | true =>
    rw [if_pos rfl]
    have hreg : encRegion n = encSlots n.Pointers 0 n.Numkeys := by
      unfold encRegion encSlots
      rw [if_pos (by rw [hleaf]), List.drop_zero]
    rw [← hP'len]
    have hbLeaf : encPage n = bytesOf
        ((encHeader n ++ List.flatten (n.Keys.take n.Numkeys))
          ++ (encSlots n.Pointers 0 n.Numkeys
            ++ List.replicate (8192 - (encList n).length) 0)) := by
      unfold encPage encList
      rw [← hreg]
      simp [List.append_assoc]
    rw [bytesToNode_leafLoop (encPage n) n.Pointers n.Numkeys 0
        (encHeader n ++ List.flatten (n.Keys.take n.Numkeys))
        (List.replicate (8192 - (encList n).length) 0)
        (List.replicate m_ORDER Slot.null) hbLeaf
        (by rw [hP'len, encHeader_length, ← hreg]; omega)
        (fun j _ hj => h.hleafslots hleaf j (by omega))
        (by show 0 + n.Numkeys ≤ (List.replicate m_ORDER Slot.null).length
            simp [m_ORDER]
            have := h.hnk
            omega)]
    simp only [exc_bind_ok]
    have hPfill : listWrite (List.replicate m_ORDER Slot.null) 0
        ((n.Pointers.drop 0).take n.Numkeys)
        = n.Pointers.take n.Numkeys ++ List.replicate (4 - n.Numkeys) Slot.null := by
      rw [List.drop_zero]
      unfold listWrite
      have hlen : (n.Pointers.take n.Numkeys).length = n.Numkeys := by
        rw [List.length_take, h.hpl]
        have := h.hnk
        omega
      rw [List.take_zero, List.nil_append, hlen, Nat.zero_add,
          show m_ORDER = 4 from rfl, List.drop_replicate]
    rw [hPfill]
    simp [canonNode, hleaf]
  | false =>
    rw [if_neg Bool.false_ne_true]
    have hreg : encRegion n
        = List.flatten ((n.Pointers.take (n.Numkeys + 1)).map encPtr) := by
      unfold encRegion
      rw [if_neg (by rw [hleaf]; exact Bool.false_ne_true)]
    have hreglen : (encRegion n).length = (n.Numkeys + 1) * 8 := by
      rw [hreg]
      exact flatten_ptr_length _ _
        (fun j hj => (h.hptrslots hleaf j hj).imp fun q hq => hq.1)
    rw [← hP'len]
    have hbPtr : encPage n = bytesOf
        ((encHeader n ++ List.flatten (n.Keys.take n.Numkeys))
          ++ (List.flatten (((n.Pointers.drop 0).take (n.Numkeys + 1)).map encPtr)
            ++ List.replicate (8192 - (encList n).length) 0)) := by
      unfold encPage encList
      rw [List.drop_zero, ← hreg]
      simp [List.append_assoc]
    rw [bytesToNode_ptrLoop (encPage n) n.Pointers (n.Numkeys + 1) 0
        (encHeader n ++ List.flatten (n.Keys.take n.Numkeys))
        (List.replicate (8192 - (encList n).length) 0)
        (List.replicate m_ORDER Slot.null) hbPtr
        (by rw [hP'len, encHeader_length]; omega)
        (fun j _ hj => h.hptrslots hleaf j (by omega))
        (by show 0 + (n.Numkeys + 1) ≤ (List.replicate m_ORDER Slot.null).length
            simp [m_ORDER]
            have := h.hnk
            omega)]
    simp only [exc_bind_ok]
    have hPfill : listWrite (List.replicate m_ORDER Slot.null) 0
        ((n.Pointers.drop 0).take (n.Numkeys + 1))
        = n.Pointers.take (n.Numkeys + 1)
          ++ List.replicate (4 - (n.Numkeys + 1)) Slot.null := by
      rw [List.drop_zero]
      unfold listWrite
      have hlen : (n.Pointers.take (n.Numkeys + 1)).length = n.Numkeys + 1 := by
        rw [List.length_take, h.hpl]
        have := h.hnk
        omega
      rw [List.take_zero, List.nil_append, hlen, Nat.zero_add,
          show m_ORDER = 4 from rfl, List.drop_replicate]
    rw [hPfill]
    simp [canonNode, hleaf]

/-- C4: for every node with `Numkeys ≤ ORDER - 1`, keys of length `Keysize`,
leaf values within `uint16` lengths and the whole encoding fitting in one
page, decoding the page produced by encoding the node at the node's own
offset succeeds and yields a node equal to the original in every field, with
the unused trailing key and pointer slots treated as don't-care (they come
back as the fresh-allocation defaults). -/
theorem c4_encode_decode_roundtrip (n : DiskBTreeNode) (h : NodeWF n) :
    ∃ pg m, DiskBTreeNode.ToBytes n = Except.ok pg ∧
      BytesToNode pg n.Ptr = Except.ok m ∧
      m.Ptr = n.Ptr ∧ m.IsLeaf = n.IsLeaf ∧ m.Numkeys = n.Numkeys ∧
      m.Parent = n.Parent ∧ m.Next = n.Next ∧ m.Prev = n.Prev ∧
      m.Keysize = n.Keysize ∧
      m.Keys.take n.Numkeys = n.Keys.take n.Numkeys ∧
      m.Pointers.take (if n.IsLeaf then n.Numkeys else n.Numkeys + 1)
        = n.Pointers.take (if n.IsLeaf then n.Numkeys else n.Numkeys + 1) := by
  refine ⟨encPage n, canonNode n n.Ptr, toBytes_eq n h,
    bytesToNode_encPage n h n.Ptr, rfl, rfl, rfl, rfl, rfl, rfl, rfl, ?_, ?_⟩
  · show (n.Keys.take n.Numkeys ++ List.replicate (3 - n.Numkeys) []).take n.Numkeys
      = n.Keys.take n.Numkeys
    refine List.take_left' ?_
    rw [List.length_take, h.hkl]
    have := h.hnk
    omega
  · show (n.Pointers.take (if n.IsLeaf then n.Numkeys else n.Numkeys + 1)
        ++ List.replicate (4 - (if n.IsLeaf then n.Numkeys else n.Numkeys + 1))
          Slot.null).take (if n.IsLeaf then n.Numkeys else n.Numkeys + 1)
      = n.Pointers.take (if n.IsLeaf then n.Numkeys else n.Numkeys + 1)
    refine List.take_left' ?_
    rw [List.length_take, h.hpl]
    have := h.hnk
    cases n.IsLeaf <;> simp <;> omega

/-- A concrete wellformed one-key leaf node certifying that the hypotheses of
the round-trip theorem are satisfiable. -/
def rtNode : DiskBTreeNode :=
  { Ptr := 4096, IsLeaf := true, Numkeys := 1, Parent := 0, Next := 0, Prev := 0,
    Keysize := 1, Keys := [[49], [], []],
    Pointers := [.bytes ⟨50, 1⟩, .null, .null, .null] }

theorem c4_encode_decode_roundtrip_witness :
    ∃ pg m, DiskBTreeNode.ToBytes rtNode = Except.ok pg ∧
      BytesToNode pg rtNode.Ptr = Except.ok m ∧
      m.Ptr = rtNode.Ptr ∧ m.IsLeaf = rtNode.IsLeaf ∧ m.Numkeys = rtNode.Numkeys ∧
      m.Parent = rtNode.Parent ∧ m.Next = rtNode.Next ∧ m.Prev = rtNode.Prev ∧
      m.Keysize = rtNode.Keysize ∧
      m.Keys.take rtNode.Numkeys = rtNode.Keys.take rtNode.Numkeys ∧
      m.Pointers.take (if rtNode.IsLeaf then rtNode.Numkeys else rtNode.Numkeys + 1)
        = rtNode.Pointers.take
            (if rtNode.IsLeaf then rtNode.Numkeys else rtNode.Numkeys + 1) :=
  c4_encode_decode_roundtrip rtNode
    { hkl := rfl
      hpl := rfl
      hnk := by norm_num [rtNode]
      hks := by norm_num [rtNode]
      hpar := by norm_num [rtNode]
      hnext := by norm_num [rtNode]
      hprev := by norm_num [rtNode]
      hkeys := by
        intro j hj
        have hj0 : j = 0 := by
          simp [rtNode] at hj
          omega
        subst hj0
        exact ⟨[49], rfl, rfl, by decide⟩
      hleafslots := by
        intro _ j hj
        have hj0 : j = 0 := by
          simp [rtNode] at hj
          omega
        subst hj0
        exact ⟨⟨50, 1⟩, rfl, by unfold Bytes.Canon; decide, by decide⟩
      hptrslots := by
        intro hfalse
        simp [rtNode] at hfalse
      hfit := by decide }

/-! ## File-level write/read lemmas -/

/-- Writing to offset 0 of an empty file yields exactly the written bytes. -/
theorem fileWrite_zero (b : Bytes) : fileWrite (⟨0, 0⟩ : Bytes) 0 b = b := by
  unfold fileWrite
  rw [pow256_eq, pow256_eq]
  simp

/-- An in-bounds file write is the window splice. -/
theorem fileWrite_eq_splice (f : Bytes) (ptr : Nat) (src : Bytes)
    (h : ptr + src.size ≤ f.size) :
    fileWrite f ptr src = f.splice ptr src := by
  unfold fileWrite Bytes.splice
  refine congrArg₂ Bytes.mk rfl ?_
  omega

/-- An in-bounds file write over a packed layout replaces the window. -/
theorem fileWrite_split (P Z : List Nat) (src : Bytes) (start : Nat)
    (hst : P.length = start) (hc : src.Canon) (hsz : src.size ≤ Z.length) :
    fileWrite (bytesOf (P ++ Z)) start src
      = bytesOf (P ++ (listOfBytes src ++ Z.drop src.size)) := by
  rw [fileWrite_eq_splice _ _ _ (by simp; omega),
      splice_bytesOf2 P Z src start hst hc hsz]

/-- A file write exactly at the current end appends the written bytes. -/
theorem fileWrite_append (L : List Nat) (src : Bytes) (hc : src.Canon) :
    fileWrite (bytesOf L) L.length src = bytesOf (L ++ listOfBytes src) := by
  unfold fileWrite
  rw [pow256_eq, pow256_eq]
  refine congrArg₂ Bytes.mk ?_ ?_
  · show _ = (bytesOf (L ++ listOfBytes src)).data
    rw [bytesOf_append, bytesOf_listOfBytes src hc,
        Nat.mod_eq_of_lt (bytesOf_lt L),
        Nat.div_eq_of_lt (lt_of_lt_of_le (bytesOf_lt L)
          (Nat.pow_le_pow_right (by norm_num) (by omega)))]
    ring
  · show max (bytesOf L).size (L.length + src.size)
      = (bytesOf (L ++ listOfBytes src)).size
    rw [bytesOf_size, bytesOf_size]
    simp

/-- The master page block: root and page count at offsets 0 and 8 of a
zeroed `MASTER_PAGE_SIZE` page. -/
theorem masterBytes_eq (r c : Nat) :
    putAt (putAt (⟨0, 4096⟩ : Bytes) 0 (u64Bytes r)) 8 (u64Bytes c)
      = bytesOf ((u64L r ++ u64L c) ++ List.replicate 4080 0) := by
  rw [u64Bytes_eq, u64Bytes_eq, zero_bytes_eq,
      show List.replicate 4096 (0 : Nat) = ([] : List Nat) ++ List.replicate 4096 0
        from rfl,
      putAt_pad ([] : List Nat) 4096 (u64L r) 0 rfl (u64L_valid r) (by norm_num)]
  rw [putAt_pad _ _ _ 8 (by simp) (u64L_valid c) (by simp)]
  refine congrArg bytesOf (congrArg₂ (· ++ · : List Nat → List Nat → List Nat)
    (by simp) (congrArg₂ List.replicate (by simp) rfl))

theorem run_writeNode (b : Bytes) (p : Nat) (s : DiskBTree) :
    (writeNode b p).run s = .ok () { s with file := fileWrite s.file p b } := rfl

theorem run_writeMasterPage (s : DiskBTree) (mp : MasterPage)
    (hmp : s.masterPage = some mp) :
    writeMasterPage.run s = .ok ()
      { s with file := fileWrite s.file 0
                         (bytesOf ((u64L mp.root ++ u64L mp.pageCount)
                           ++ List.replicate 4080 0)) } := by
  unfold writeMasterPage
  simp only [run_bind, run_get, hmp, run_modify, masterBytes_eq]

/-- `readNode` of a page sitting between prefix `P` and suffix `Z` of the
backing file decodes to the canonical node image. -/
theorem run_readNode_page (s : DiskBTree) (mp : MasterPage) (ptr : Nat)
    (P Z : List Nat) (N : DiskBTreeNode) (hWF : NodeWF N)
    (hmp : s.masterPage = some mp)
    (hfile : s.file = bytesOf (P ++ (encList N
      ++ List.replicate (8192 - (encList N).length) 0) ++ Z))
    (hP : P.length = ptr)
    (hbd : ¬ ptr > ((mp.pageCount + (U64MOD - 1)) % U64MOD * m_PAGE_SIZE % U64MOD
              + m_MASTER_PAGE_SIZE) % U64MOD) :
    (readNode ptr).run s = .ok (canonNode N ptr) s := by
  have hfit := hWF.hfit
  have hmid : (encList N ++ List.replicate (8192 - (encList N).length) 0).length
      = 8192 := by
    simp
    omega
  have hps : m_PAGE_SIZE = 8192 := rfl
  unfold readNode
  simp only [run_bind, run_get, hmp]
  rw [if_neg hbd]
  rw [if_neg (by
    rw [hfile, bytesOf_size, hps, ← hP]
    simp only [List.length_append, hmid]
    omega)]
  have hdata : s.file.data / pow256 ptr % pow256 m_PAGE_SIZE
      = (encPage N).data := by
    rw [hfile, ← hP,
        show m_PAGE_SIZE = (encList N
          ++ List.replicate (8192 - (encList N).length) 0).length from by
          rw [hps, hmid]]
    rw [pow256_eq, pow256_eq]
    exact bytesOf_read P _ Z
  have hnode : (⟨s.file.data / pow256 ptr % pow256 m_PAGE_SIZE, m_PAGE_SIZE⟩ : Bytes)
      = encPage N := by
    rw [hdata]
    refine congrArg₂ Bytes.mk rfl ?_
    show m_PAGE_SIZE = (encPage N).size
    unfold encPage
    rw [bytesOf_size, hps, hmid]
  rw [hnode, bytesToNode_encPage N hWF ptr, run_lift_ok]

/-- `findLeaf` when the root read yields a leaf. -/
theorem run_findLeaf_of_leaf (fuel : Nat) (k : List Nat) (s : DiskBTree)
    (mp : MasterPage) (nd : DiskBTreeNode)
    (hmp : s.masterPage = some mp)
    (hrn : (readNode mp.root).run s = .ok nd s)
    (hlf : nd.IsLeaf = true) :
    (findLeaf (fuel + 1) k).run s = .ok nd s := by
  unfold findLeaf
  simp only [run_bind, run_get, hmp, hrn]
  unfold findLeafLoop
  rw [hlf]
  simp

/-! ## Concrete tree states -/

/-- The master page image after the first insert: root offset 4096, one
page. -/
def mlist : List Nat := (u64L 4096 ++ u64L 1) ++ List.replicate 4080 0

theorem mlist_length : mlist.length = 4096 := by
  show ((u64L 4096 ++ u64L 1) ++ List.replicate 4080 0).length = 4096
  rw [List.length_append, List.length_append, u64L_length, u64L_length,
      List.length_replicate]

/-- The byte list of a node's page. -/
def pageList (N : DiskBTreeNode) : List Nat :=
  encList N ++ List.replicate (8192 - (encList N).length) 0

theorem encPage_eq_pageList (N : DiskBTreeNode) : encPage N = bytesOf (pageList N) :=
  rfl

theorem pageList_valid (N : DiskBTreeNode) (h : NodeWF N) :
    ∀ y ∈ pageList N, y < 256 := by
  intro y hy
  rcases List.mem_append.mp hy with hy | hy
  · exact encList_valid N h y hy
  · rw [List.eq_of_mem_replicate hy]
    norm_num

theorem pageList_length (N : DiskBTreeNode) (h : NodeWF N) :
    (pageList N).length = 8192 := by
  have := h.hfit
  simp [pageList]
  omega

theorem listOfBytes_encPage (N : DiskBTreeNode) (h : NodeWF N) :
    listOfBytes (encPage N) = pageList N :=
  listOfBytes_bytesOf _ (pageList_valid N h)

/-- A tree whose only node is a root leaf `N` stored at offset 4096. -/
def rootLeafState (ks : Nat) (N : DiskBTreeNode) : DiskBTree :=
  { keySize := ks, masterPage := some ⟨4096, 1⟩,
    file := bytesOf (mlist ++ pageList N) }

/-- The root node created by the first insert of `key`/`value`. -/
def N1 (k v : List Nat) : DiskBTreeNode :=
  { Ptr := 4096, IsLeaf := true, Numkeys := 1, Parent := 0, Next := 0, Prev := 0,
    Keysize := k.length, Keys := [k, [], []],
    Pointers := [.bytes (bytesOf v), .null, .null, .null] }

theorem N1_WF (k v : List Nat) (hk : k.length ≤ 65535) (hkv : ∀ x ∈ k, x < 256)
    (hv : v.length ≤ 65535) (hfit31 : 31 + k.length + v.length ≤ 8192) :
    NodeWF (N1 k v) := by
  refine ⟨rfl, rfl, by norm_num [N1], hk, by norm_num [N1], by norm_num [N1],
    by norm_num [N1], ?_, ?_, ?_, ?_⟩
  · intro j hj
    have hj0 : j = 0 := by
      simp [N1] at hj
      omega
    subst hj0
    exact ⟨k, rfl, rfl, hkv⟩
  · intro _ j hj
    have hj0 : j = 0 := by
      simp [N1] at hj
      omega
    subst hj0
    exact ⟨bytesOf v, rfl, bytesOf_canon v, by rw [bytesOf_size]; exact hv⟩
  · intro hfalse
    simp [N1] at hfalse
  · show (encList (N1 k v)).length ≤ 8192
    have : (encList (N1 k v)).length = 31 + (k.length + v.length) := by
      show (encHeader (N1 k v)
        ++ List.flatten ((N1 k v).Keys.take (N1 k v).Numkeys)
        ++ encRegion (N1 k v)).length = _
      rw [show (N1 k v).Keys.take (N1 k v).Numkeys = [k] from rfl,
          show encRegion (N1 k v)
            = (u16L (bytesOf v).size ++ listOfBytes (bytesOf v))
              ++ ([] : List Nat) from rfl]
      simp
      omega
    omega

/-- The readNode bound check for a one-page tree never rejects offset 4096. -/
theorem bound_one_page :
    ¬ (4096 : Nat) > (((1 : Nat) + (U64MOD - 1)) % U64MOD * m_PAGE_SIZE % U64MOD
        + m_MASTER_PAGE_SIZE) % U64MOD := by
  show ¬ (4096 : Nat) > ((1 + (2 ^ 64 - 1)) % 2 ^ 64 * 8192 % 2 ^ 64 + 4096) % 2 ^ 64
  norm_num

/-- `readNode 4096` on a one-leaf tree returns the canonical root image. -/
theorem run_readNode_rootLeaf (ks : Nat) (N : DiskBTreeNode) (hWF : NodeWF N) :
    (readNode 4096).run (rootLeafState ks N) = .ok (canonNode N 4096)
      (rootLeafState ks N) := by
  refine run_readNode_page (rootLeafState ks N) ⟨4096, 1⟩ 4096 mlist [] N hWF rfl
    ?_ mlist_length bound_one_page
  show bytesOf (mlist ++ pageList N) = _
  rw [List.append_nil]
  rfl

theorem first_insert (fuel : Nat) (k v : List Nat)
    (hk : k.length ≤ 65535) (hkv : ∀ x ∈ k, x < 256) (hv : v.length ≤ 65535)
    (hfit31 : 31 + k.length + v.length ≤ 8192) :
    (Insert fuel (some k) (some v)).run emptyTree
      = .ok () (rootLeafState k.length (N1 k v)) := by
  have hWF := N1_WF k v hk hkv hv hfit31
  have hmod : k.length % U16MOD = k.length := by
    show k.length % 65536 = k.length
    omega
  unfold Insert
  simp only []
  rw [show U16MOD - 1 = 65535 from rfl, if_neg (by omega)]
  have hset1 : goSet (makeLeaf m_MASTER_PAGE_SIZE).Keys 0 k = .ok [k, [], []] := rfl
  have hset2 : goSet (makeLeaf m_MASTER_PAGE_SIZE).Pointers 0
      (Slot.bytes (bytesOf v))
      = .ok [Slot.bytes (bytesOf v), .null, .null, .null] := rfl
  simp only [run_bind, run_get, hset1, hset2, run_lift_ok,
    show emptyTree.masterPage = none from rfl, run_modify]
  simp only [show (makeLeaf m_MASTER_PAGE_SIZE).Ptr = 4096 from rfl,
    show (makeLeaf m_MASTER_PAGE_SIZE).IsLeaf = true from rfl,
    show (makeLeaf m_MASTER_PAGE_SIZE).Numkeys = 0 from rfl,
    show (makeLeaf m_MASTER_PAGE_SIZE).Parent = 0 from rfl,
    show (makeLeaf m_MASTER_PAGE_SIZE).Next = 0 from rfl,
    show (makeLeaf m_MASTER_PAGE_SIZE).Prev = 0 from rfl,
    hmod, Nat.zero_add]
  rw [run_writeMasterPage _ ⟨4096, 1⟩ rfl]
  simp only [show emptyTree.file = (⟨0, 0⟩ : Bytes) from rfl, fileWrite_zero,
    show ((u64L 4096 ++ u64L 1) ++ List.replicate 4080 0) = mlist from rfl]
  rw [show ({ Ptr := 4096, IsLeaf := true, Numkeys := 1, Parent := 0,
              Next := 0, Prev := 0, Keysize := k.length, Keys := [k, [], []],
              Pointers := [Slot.bytes (bytesOf v), Slot.null, Slot.null,
                Slot.null] } : DiskBTreeNode) = N1 k v from rfl]
  rw [toBytes_eq (N1 k v) hWF]
  simp only [run_lift_ok, run_writeNode]
  have hfw : fileWrite (bytesOf mlist) 4096 (encPage (N1 k v))
      = bytesOf (mlist ++ pageList (N1 k v)) := by
    rw [show (4096 : Nat) = mlist.length from mlist_length.symm,
        encPage_eq_pageList,
        fileWrite_append _ _ (bytesOf_canon _),
        listOfBytes_bytesOf _ (pageList_valid _ hWF)]
  rw [hfw]
  rfl

theorem run_lift_bind (e : Except Err α) (f : α → M β) (s : DiskBTree) :
    (lift e >>= f).run s = match e with
      | .ok a => (f a).run s
      | .error er => .error er s := by
  cases e <;> simp

/-- The purely in-memory part of `removeFromNode`, applicable whenever the
parent fix-up branch is not taken (`Parent = 0`). -/
def removeFromNodePure (node : DiskBTreeNode) (key : List Nat) (pointer : DelPtr) :
    Except Err DiskBTreeNode := do
  let keyIdx ← getKeyIndex node key
  if keyIdx < 0 then .error .invalidKeyIndex
  else do
    let keys ← eLoop (node.Numkeys - (keyIdx.toNat + 1))
      (fun i ks => do
        let kv ← goGet ks i
        goSet ks (i - 1) kv)
      (keyIdx.toNat + 1) node.Keys
    let keys ← goSet keys (node.Numkeys - 1) []
    let adj := if node.IsLeaf then 0 else 1
    let numPointers := node.Numkeys + adj
    let pointerIdx ← getPointerIndex node pointer
    if pointerIdx < 0 then .error .invalidPointerIndex
    else do
      let ptrs ← eLoop (numPointers - (pointerIdx.toNat + 1))
        (fun i ps => do
          let pv ← goGet ps i
          goSet ps (i - 1) pv)
        (pointerIdx.toNat + 1) node.Pointers
      let ptrs ← goSet ptrs (numPointers - 1) .null
      .ok { node with Keys := keys, Pointers := ptrs, Numkeys := node.Numkeys - 1 }

theorem run_removeFromNode_noParent (node : DiskBTreeNode) (key : List Nat)
    (pointer : DelPtr) (s : DiskBTree) (hpar : node.Parent = 0) :
    (removeFromNode node key pointer).run s
      = match removeFromNodePure node key pointer with
        | .ok nd => .ok nd s
        | .error e => .error e s := by
  unfold removeFromNode removeFromNodePure
  cases h1 : getKeyIndex node key with
  | error e => simp [run_lift_bind, h1]
  | ok ki =>
    simp only [run_lift_bind, h1, exc_bind_ok]
    by_cases h2 : ki < 0
    · simp [h2]
    · simp only [if_neg h2]
      cases h3 : eLoop (node.Numkeys - (ki.toNat + 1))
          (fun i ks => do
            let kv ← goGet ks i
            goSet ks (i - 1) kv)
          (ki.toNat + 1) node.Keys with
      | error e => simp [run_lift_bind, h3]
      | ok keys =>
        simp only [run_lift_bind, h3, exc_bind_ok]
        cases h4 : goSet keys (node.Numkeys - 1) ([] : List Nat) with
        | error e => simp [run_lift_bind, h4]
        | ok keys2 =>
          simp only [run_lift_bind, h4, exc_bind_ok]
          cases h5 : getPointerIndex node pointer with
          | error e => simp [run_lift_bind, h5]
          | ok pi =>
            simp only [run_lift_bind, h5, exc_bind_ok]
            by_cases h6 : pi < 0
            · simp [h6]
            · simp only [if_neg h6]
              cases h7 : eLoop (node.Numkeys + (if node.IsLeaf then 0 else 1)
                  - (pi.toNat + 1))
                  (fun i ps => do
                    let pv ← goGet ps i
                    goSet ps (i - 1) pv)
                  (pi.toNat + 1) node.Pointers with
              | error e => simp [run_lift_bind, h7]
              | ok ptrs =>
                simp only [run_lift_bind, h7, exc_bind_ok]
                cases h8 : goSet ptrs
                    (node.Numkeys + (if node.IsLeaf then 0 else 1) - 1)
                    Slot.null with
                | error e => simp [run_lift_bind, h8]
                | ok ptrs2 =>
                  simp only [run_lift_bind, h8, exc_bind_ok]
                  rw [if_neg (by simp [hpar])]
                  simp

/-! ## Public operations on a one-leaf tree -/

theorem rootLeaf_mp (ks : Nat) (N : DiskBTreeNode) :
    (rootLeafState ks N).masterPage = some ⟨4096, 1⟩ := rfl

theorem rootLeaf_keySize (ks : Nat) (N : DiskBTreeNode) :
    (rootLeafState ks N).keySize = ks := rfl

theorem canonNode_IsLeaf (N : DiskBTreeNode) (p : Nat) :
    (canonNode N p).IsLeaf = N.IsLeaf := rfl

theorem canonNode_Numkeys (N : DiskBTreeNode) (p : Nat) :
    (canonNode N p).Numkeys = N.Numkeys := rfl

theorem run_findLeaf_rootLeaf (fuel ks : Nat) (N : DiskBTreeNode) (k : List Nat)
    (hWF : NodeWF N) (hNleaf : N.IsLeaf = true) :
    (findLeaf (fuel + 1) k).run (rootLeafState ks N)
      = .ok (canonNode N 4096) (rootLeafState ks N) :=
  run_findLeaf_of_leaf fuel k _ ⟨4096, 1⟩ _ rfl
    (run_readNode_rootLeaf ks N hWF) (by rw [canonNode_IsLeaf, hNleaf])

/-- `Find` of a key present in the root leaf. -/
theorem run_Find_rootLeaf_found (fuel ks : Nat) (N : DiskBTreeNode)
    (k : List Nat) (idx : Int) (w : Bytes)
    (hWF : NodeWF N) (hNleaf : N.IsLeaf = true) (hklen : k.length = ks)
    (hidx : getKeyIndex (canonNode N 4096) k = .ok idx) (hge : ¬ idx < 0)
    (hslot : goGet (canonNode N 4096).Pointers idx.toNat = .ok (.bytes w)) :
    (Find (fuel + 1) (some k)).run (rootLeafState ks N)
      = .ok w (rootLeafState ks N) := by
  unfold Find
  simp only [run_bind, run_get, rootLeaf_mp]
  rw [if_neg (by rw [rootLeaf_keySize]; simp [hklen])]
  simp only [run_bind, run_findLeaf_rootLeaf fuel ks N k hWF hNleaf,
    run_lift_bind, run_lift_ok, hidx]
  rw [if_neg hge]
  simp only [run_lift_bind, hslot, run_pure]

/-- `Find` of a key absent from the root leaf. -/
theorem run_Find_rootLeaf_missing (fuel ks : Nat) (N : DiskBTreeNode)
    (k : List Nat) (idx : Int)
    (hWF : NodeWF N) (hNleaf : N.IsLeaf = true) (hklen : k.length = ks)
    (hidx : getKeyIndex (canonNode N 4096) k = .ok idx) (hlt : idx < 0) :
    (Find (fuel + 1) (some k)).run (rootLeafState ks N)
      = .error .keyNotFound (rootLeafState ks N) := by
  unfold Find
  simp only [run_bind, run_get, rootLeaf_mp]
  rw [if_neg (by rw [rootLeaf_keySize]; simp [hklen])]
  simp only [run_bind, run_findLeaf_rootLeaf fuel ks N k hWF hNleaf,
    run_lift_bind, run_lift_ok, hidx]
  rw [if_pos hlt]
  simp

/-- In-place `Insert` into a root leaf with room. -/
theorem run_Insert_inplace_rootLeaf (fuel ks : Nat) (N N' : DiskBTreeNode)
    (k v : List Nat) (idx : Int)
    (hWF : NodeWF N) (hWF' : NodeWF N') (hNleaf : N.IsLeaf = true)
    (hk65 : ¬ k.length > 65535) (hklen : k.length = ks)
    (hidx : getKeyIndex (canonNode N 4096) k = .ok idx) (hng : ¬ idx > -1)
    (hroom : (canonNode N 4096).Numkeys < 3)
    (hins : insertIntoNode (canonNode N 4096) k (.val (bytesOf v)) = .ok N')
    (hptr' : N'.Ptr = 4096) :
    (Insert (fuel + 1) (some k) (some v)).run (rootLeafState ks N)
      = .ok () (rootLeafState ks N') := by
  unfold Insert
  simp only []
  rw [show U16MOD - 1 = 65535 from rfl, if_neg hk65]
  simp only [run_bind, run_get, rootLeaf_mp, run_tryCatch,
    run_findLeaf_rootLeaf fuel ks N k hWF hNleaf, run_pure]
  simp only [run_bind, run_lift_bind, run_lift_ok, hidx]
  rw [if_neg hng]
  simp only [run_pure]
  rw [if_neg (by rw [rootLeaf_keySize]; simp [hklen])]
  rw [if_pos (by rw [show m_ORDER - 1 = 3 from rfl]; exact hroom)]
  simp only [run_bind, run_lift_bind, run_lift_ok, hins,
    toBytes_eq N' hWF', run_writeNode, hptr']
  have hfw : fileWrite (bytesOf (mlist ++ pageList N)) 4096 (encPage N')
      = bytesOf (mlist ++ pageList N') := by
    rw [show (4096 : Nat) = mlist.length from mlist_length.symm,
        encPage_eq_pageList,
        fileWrite_split mlist (pageList N) _ mlist.length rfl (bytesOf_canon _)
          (by rw [bytesOf_size, pageList_length N hWF, pageList_length N' hWF'])]
    rw [listOfBytes_bytesOf _ (pageList_valid _ hWF'), bytesOf_size,
        pageList_length N' hWF', List.drop_eq_nil_of_le (by
          rw [pageList_length N hWF])]
    rw [List.append_nil]
  show EStateM.Result.ok () { rootLeafState ks N with
    file := fileWrite (rootLeafState ks N).file 4096 (encPage N') } = _
  rw [show (rootLeafState ks N).file = bytesOf (mlist ++ pageList N) from rfl,
      hfw]
  rfl

/-- `Insert` of a key already present in the root leaf. -/
theorem run_Insert_dup_rootLeaf (fuel ks : Nat) (N : DiskBTreeNode)
    (k v : List Nat) (idx : Int)
    (hWF : NodeWF N) (hNleaf : N.IsLeaf = true)
    (hk65 : ¬ k.length > 65535)
    (hidx : getKeyIndex (canonNode N 4096) k = .ok idx) (hpos : idx > -1) :
    (Insert (fuel + 1) (some k) (some v)).run (rootLeafState ks N)
      = .error .keyAlreadyExists (rootLeafState ks N) := by
  unfold Insert
  simp only []
  rw [show U16MOD - 1 = 65535 from rfl, if_neg hk65]
  simp only [run_bind, run_get, rootLeaf_mp, run_tryCatch,
    run_findLeaf_rootLeaf fuel ks N k hWF hNleaf, run_pure]
  simp only [run_bind, run_lift_bind, run_lift_ok, hidx]
  rw [if_pos hpos]
  simp

/-- `Insert` with a key of the wrong length (and not a duplicate). -/
theorem run_Insert_wrongsize_rootLeaf (fuel ks : Nat) (N : DiskBTreeNode)
    (k v : List Nat) (idx : Int)
    (hWF : NodeWF N) (hNleaf : N.IsLeaf = true)
    (hk65 : ¬ k.length > 65535) (hkne : k.length ≠ ks)
    (hidx : getKeyIndex (canonNode N 4096) k = .ok idx) (hng : ¬ idx > -1) :
    (Insert (fuel + 1) (some k) (some v)).run (rootLeafState ks N)
      = .error .invalidKeySize (rootLeafState ks N) := by
  unfold Insert
  simp only []
  rw [show U16MOD - 1 = 65535 from rfl, if_neg hk65]
  simp only [run_bind, run_get, rootLeaf_mp, run_tryCatch,
    run_findLeaf_rootLeaf fuel ks N k hWF hNleaf, run_pure]
  simp only [run_bind, run_lift_bind, run_lift_ok, hidx]
  rw [if_neg hng]
  simp only [run_pure]
  rw [if_pos (by rw [rootLeaf_keySize]; exact hkne)]
  simp

/-- `Delete` of a key present in the root leaf when keys remain: the call
reports success but writes nothing — the backing file is untouched. -/
theorem run_Delete_rootLeaf_noop (fuel ks : Nat) (N nd : DiskBTreeNode)
    (k : List Nat) (idx : Int) (sl : Slot)
    (hWF : NodeWF N) (hNleaf : N.IsLeaf = true) (hNpar : N.Parent = 0)
    (hN1 : 0 < N.Numkeys)
    (hidx : getKeyIndex (canonNode N 4096) k = .ok idx) (hge : ¬ idx < 0)
    (hsl : goGetI (canonNode N 4096).Pointers idx = .ok sl)
    (hrm : removeFromNodePure (canonNode N 4096) k (.sl sl) = .ok nd)
    (hndptr : nd.Ptr = 4096) :
    (Delete (fuel + 1) (some k)).run (rootLeafState ks N)
      = .ok () (rootLeafState ks N) := by
  have hrmrun : (removeFromNode (canonNode N 4096) k (.sl sl)).run
      (rootLeafState ks N) = .ok nd (rootLeafState ks N) := by
    rw [run_removeFromNode_noParent _ _ _ _
        (show (canonNode N 4096).Parent = 0 from hNpar), hrm]
  unfold Delete
  simp only [run_bind, run_get, rootLeaf_mp,
    run_findLeaf_rootLeaf fuel ks N k hWF hNleaf, run_lift_bind, run_lift_ok, hidx]
  rw [if_neg hge]
  simp only [run_bind, run_lift_bind, run_lift_ok, hsl]
  show (deleteEntry (fuel + 1) (canonNode N 4096) k (.sl sl)).run
      (rootLeafState ks N) = _
  unfold deleteEntry
  simp only [run_bind, hrmrun, run_get, rootLeaf_mp, hndptr]
  rw [if_pos (by rfl)]
  unfold adjustRoot
  simp only [run_bind, run_get, rootLeaf_mp, run_readNode_rootLeaf ks N hWF]
  rw [if_pos (by rw [canonNode_Numkeys]; omega)]
  simp

/-- `Delete` of an absent key. -/
theorem run_Delete_rootLeaf_missing (fuel ks : Nat) (N : DiskBTreeNode)
    (k : List Nat) (idx : Int)
    (hWF : NodeWF N) (hNleaf : N.IsLeaf = true)
    (hidx : getKeyIndex (canonNode N 4096) k = .ok idx) (hlt : idx < 0) :
    (Delete (fuel + 1) (some k)).run (rootLeafState ks N)
      = .error .keyNotFound (rootLeafState ks N) := by
  unfold Delete
  simp only [run_bind, run_get, rootLeaf_mp,
    run_findLeaf_rootLeaf fuel ks N k hWF hNleaf, run_lift_bind, run_lift_ok, hidx]
  rw [if_pos hlt]
  simp

/-- `Update` of a key present in the root leaf: the slot is overwritten with
the packed new value (nil encodes as the empty slice) and the page is
rewritten. -/
theorem run_Update_rootLeaf (fuel ks : Nat) (N N' : DiskBTreeNode)
    (k : List Nat) (nv : Option (List Nat)) (idx : Int) (ptrs : List Slot)
    (hWF : NodeWF N) (hWF' : NodeWF N') (hNleaf : N.IsLeaf = true)
    (hklen : k.length = ks)
    (hidx : getKeyIndex (canonNode N 4096) k = .ok idx) (hge : ¬ idx < 0)
    (hset : goSet (canonNode N 4096).Pointers idx.toNat
      (.bytes (bytesOf (nv.getD []))) = .ok ptrs)
    (hN' : { canonNode N 4096 with Pointers := ptrs } = N')
    (hptr' : N'.Ptr = 4096) :
    (Update (fuel + 1) (some k) nv).run (rootLeafState ks N)
      = .ok () (rootLeafState ks N') := by
  unfold Update
  simp only [run_bind, run_get, rootLeaf_mp]
  rw [if_neg (by rw [rootLeaf_keySize]; simp [hklen])]
  simp only [run_bind, run_findLeaf_rootLeaf fuel ks N k hWF hNleaf,
    run_lift_bind, run_lift_ok, hidx]
  rw [if_neg hge]
  simp only [run_bind, run_lift_bind, run_lift_ok, hset, hN',
    toBytes_eq N' hWF', run_writeNode, hptr']
  have hfw : fileWrite (bytesOf (mlist ++ pageList N)) 4096 (encPage N')
      = bytesOf (mlist ++ pageList N') := by
    rw [show (4096 : Nat) = mlist.length from mlist_length.symm,
        encPage_eq_pageList,
        fileWrite_split mlist (pageList N) _ mlist.length rfl (bytesOf_canon _)
          (by rw [bytesOf_size, pageList_length N hWF, pageList_length N' hWF'])]
    rw [listOfBytes_bytesOf _ (pageList_valid _ hWF'), bytesOf_size,
        pageList_length N' hWF', List.drop_eq_nil_of_le (by
          rw [pageList_length N hWF])]
    rw [List.append_nil]
  show EStateM.Result.ok () { rootLeafState ks N with
    file := fileWrite (rootLeafState ks N).file 4096 (encPage N') } = _
  rw [show (rootLeafState ks N).file = bytesOf (mlist ++ pageList N) from rfl,
      hfw]
  rfl

/-! ## The two-key scenario -/

/-- The root leaf after inserting keys `"1"` and `"2"`. -/
def N2 : DiskBTreeNode :=
  { Ptr := 4096, IsLeaf := true, Numkeys := 2, Parent := 0, Next := 0, Prev := 0,
    Keysize := 1, Keys := [[49], [50], []],
    Pointers := [.bytes ⟨97, 1⟩, .bytes ⟨98, 1⟩, .null, .null] }

theorem N2_WF : NodeWF N2 := by
  refine ⟨rfl, rfl, by norm_num [N2], by norm_num [N2], by norm_num [N2],
    by norm_num [N2], by norm_num [N2], ?_, ?_, ?_, by decide⟩
  · intro j hj
    match j with
    | 0 => exact ⟨[49], rfl, rfl, by decide⟩
    | 1 => exact ⟨[50], rfl, rfl, by decide⟩
    | n + 2 => exact absurd hj (by rw [show N2.Numkeys = 2 from rfl]; omega)
  · intro _ j hj
    match j with
    | 0 => exact ⟨⟨97, 1⟩, rfl, by unfold Bytes.Canon; decide, by decide⟩
    | 1 => exact ⟨⟨98, 1⟩, rfl, by unfold Bytes.Canon; decide, by decide⟩
    | n + 2 => exact absurd hj (by rw [show N2.Numkeys = 2 from rfl]; omega)
  · intro hfalse
    simp [N2] at hfalse

theorem N1a_WF : NodeWF (N1 [49] [97]) :=
  N1_WF [49] [97] (by norm_num) (by decide) (by norm_num) (by norm_num)

theorem runState_of_ok (m : M α) (t s : DiskBTree) (a : α)
    (h : m.run t = .ok a s) : runState m t = s := by
  unfold runState
  rw [h]

theorem runState_of_error (m : M α) (t s : DiskBTree) (e : Err)
    (h : m.run t = .error e s) : runState m t = s := by
  unfold runState
  rw [h]

theorem runRes_of_ok (m : M α) (t s : DiskBTree) (a : α)
    (h : m.run t = .ok a s) : runRes m t = .ok a := by
  unfold runRes
  rw [h]

theorem runRes_of_error (m : M α) (t s : DiskBTree) (e : Err)
    (h : m.run t = .error e s) : runRes m t = .error e := by
  unfold runRes
  rw [h]

theorem step_ins1 : applyOp emptyTree (.ins (some [49]) (some [97]))
    = rootLeafState 1 (N1 [49] [97]) := by
  show runState (Insert opFuel (some [49]) (some [97])) emptyTree = _
  exact runState_of_ok _ _ _ ()
    (first_insert opFuel [49] [97] (by norm_num) (by decide) (by norm_num)
      (by norm_num))

theorem step_ins2 : applyOp (rootLeafState 1 (N1 [49] [97]))
    (.ins (some [50]) (some [98])) = rootLeafState 1 N2 := by
  show runState (Insert opFuel (some [50]) (some [98]))
    (rootLeafState 1 (N1 [49] [97])) = _
  refine runState_of_ok _ _ _ () ?_
  rw [show opFuel = 999 + 1 from rfl]
  exact run_Insert_inplace_rootLeaf 999 1 (N1 [49] [97]) N2 [50] [98] (-1)
    N1a_WF N2_WF rfl (by norm_num) rfl (by decide) (by decide) (by decide)
    (by decide) rfl

theorem step_del2 : applyOp (rootLeafState 1 N2) (.del (some [50]))
    = rootLeafState 1 N2 := by
  show runState (Delete opFuel (some [50])) (rootLeafState 1 N2) = _
  refine runState_of_ok _ _ _ () ?_
  rw [show opFuel = 999 + 1 from rfl]
  exact run_Delete_rootLeaf_noop 999 1 N2
    ⟨4096, true, 1, 0, 0, 0, 1, [[49], [], []],
      [.bytes ⟨97, 1⟩, .null, .null, .null]⟩
    [50] 1 (.bytes ⟨98, 1⟩) N2_WF rfl rfl (by decide)
    (by decide) (by decide) (by decide) (by decide) rfl

/-- C1: the spec claims that after any sequence of unique-key inserts and
deletes, `find` returns the last written value for live keys and
`KEY_NOT_FOUND` for deleted keys.  The code diverges: `deleteEntry` never
writes the mutated leaf back, so after insert 1, insert 2, delete 2 (which
reports success) the backing file still holds key 2 and `find 2` returns the
supposedly deleted value 98 instead of failing with `KEY_NOT_FOUND`. -/
theorem c1_find_returns_deleted_value :
    runOps emptyTree [.ins (some [49]) (some [97]), .ins (some [50]) (some [98]),
      .del (some [50])] = rootLeafState 1 N2 ∧
    opResult (rootLeafState 1 N2) (.del (some [50])) = .ok () ∧
    runRes (Find opFuel (some [50])) (rootLeafState 1 N2)
      = .ok (⟨98, 1⟩ : Bytes) := by
  refine ⟨?_, ?_, ?_⟩
  · unfold runOps
    rw [List.foldl_cons, step_ins1, List.foldl_cons, step_ins2,
        List.foldl_cons, step_del2, List.foldl_nil]
  · show runRes (Delete opFuel (some [50])) (rootLeafState 1 N2) = .ok ()
    refine runRes_of_ok _ _ (rootLeafState 1 N2) () ?_
    rw [show opFuel = 999 + 1 from rfl]
    exact run_Delete_rootLeaf_noop 999 1 N2
      ⟨4096, true, 1, 0, 0, 0, 1, [[49], [], []],
        [.bytes ⟨97, 1⟩, .null, .null, .null]⟩
      [50] 1 (.bytes ⟨98, 1⟩) N2_WF rfl rfl (by decide)
      (by decide) (by decide) (by decide) (by decide) rfl
  · refine runRes_of_ok _ _ (rootLeafState 1 N2) _ ?_
    rw [show opFuel = 999 + 1 from rfl]
    exact run_Find_rootLeaf_found 999 1 N2 [50] 1 ⟨98, 1⟩ N2_WF rfl rfl
      (by decide) (by decide) (by decide)

theorem run_leftmostLeaf_rootLeaf (fuel ks : Nat) (N : DiskBTreeNode)
    (hWF : NodeWF N) (hNleaf : N.IsLeaf = true) :
    (leftmostLeaf (fuel + 1 + 1)).run (rootLeafState ks N)
      = .ok (canonNode N 4096) (rootLeafState ks N) := by
  unfold leftmostLeaf
  simp only [run_bind, run_get, rootLeaf_mp, run_readNode_rootLeaf ks N hWF]
  unfold leftmostLeaf.leftmostDescend
  rw [if_pos (show (canonNode N 4096).IsLeaf = true by
    rw [canonNode_IsLeaf]; exact hNleaf)]
  simp

theorem run_rightmostLeaf_rootLeaf (fuel ks : Nat) (N : DiskBTreeNode)
    (hWF : NodeWF N) (hNleaf : N.IsLeaf = true) :
    (rightmostLeaf (fuel + 1 + 1)).run (rootLeafState ks N)
      = .ok (canonNode N 4096) (rootLeafState ks N) := by
  unfold rightmostLeaf
  simp only [run_bind, run_get, rootLeaf_mp, run_readNode_rootLeaf ks N hWF]
  unfold rightmostLeaf.rightmostDescend
  rw [if_pos (show (canonNode N 4096).IsLeaf = true by
    rw [canonNode_IsLeaf]; exact hNleaf)]
  simp

theorem run_collectNextChain_leafRoot (fuel ks : Nat) (N : DiskBTreeNode)
    (ksl : List (List Nat))
    (hNext : (canonNode N 4096).Next = 0)
    (hks : goTake (canonNode N 4096).Keys (canonNode N 4096).Numkeys
      = Except.ok ksl) :
    (collectNextChain (fuel + 1) (canonNode N 4096)).run (rootLeafState ks N)
      = .ok ksl (rootLeafState ks N) := by
  unfold collectNextChain
  simp only [run_lift_bind, run_lift_ok, hks]
  rw [if_pos hNext]
  simp

theorem run_collectPrevChain_leafRoot (fuel ks : Nat) (N : DiskBTreeNode)
    (ksl : List (List Nat))
    (hPrev : (canonNode N 4096).Prev = 0)
    (hks : goTake (canonNode N 4096).Keys (canonNode N 4096).Numkeys
      = Except.ok ksl) :
    (collectPrevChain (fuel + 1) (canonNode N 4096)).run (rootLeafState ks N)
      = .ok ksl (rootLeafState ks N) := by
  unfold collectPrevChain
  simp only [run_lift_bind, run_lift_ok, hks]
  rw [if_pos hPrev]
  simp

theorem run_nextChain_rootLeaf (fuel ks : Nat) (N : DiskBTreeNode)
    (ksl : List (List Nat)) (hWF : NodeWF N) (hNleaf : N.IsLeaf = true)
    (hNext : (canonNode N 4096).Next = 0)
    (hks : goTake (canonNode N 4096).Keys (canonNode N 4096).Numkeys
      = Except.ok ksl) :
    (do
      let l ← leftmostLeaf (fuel + 1 + 1)
      collectNextChain (fuel + 1 + 1) l).run (rootLeafState ks N)
      = .ok ksl (rootLeafState ks N) := by
  simp only [run_bind, run_leftmostLeaf_rootLeaf fuel ks N hWF hNleaf]
  exact run_collectNextChain_leafRoot (fuel + 1) ks N ksl hNext hks

theorem run_prevChain_rootLeaf (fuel ks : Nat) (N : DiskBTreeNode)
    (ksl : List (List Nat)) (hWF : NodeWF N) (hNleaf : N.IsLeaf = true)
    (hPrev : (canonNode N 4096).Prev = 0)
    (hks : goTake (canonNode N 4096).Keys (canonNode N 4096).Numkeys
      = Except.ok ksl) :
    (do
      let l ← rightmostLeaf (fuel + 1 + 1)
      collectPrevChain (fuel + 1 + 1) l).run (rootLeafState ks N)
      = .ok ksl (rootLeafState ks N) := by
  simp only [run_bind, run_rightmostLeaf_rootLeaf fuel ks N hWF hNleaf]
  exact run_collectPrevChain_leafRoot (fuel + 1) ks N ksl hPrev hks

/-- C2: the spec claims the `next` chain from the leftmost leaf visits
exactly the live keys in ascending order and the `prev` chain from the
rightmost leaf is its reverse.  After insert 1, insert 2, delete 2 the live
keys are just `[49]`, but because the deletion is never persisted both
traversals still visit the deleted key `[50]`. -/
theorem c2_leaf_chains_contain_deleted_key :
    runOps emptyTree [.ins (some [49]) (some [97]), .ins (some [50]) (some [98]),
      .del (some [50])] = rootLeafState 1 N2 ∧
    (do
      let l ← leftmostLeaf opFuel
      collectNextChain opFuel l).run (rootLeafState 1 N2)
      = .ok [[49], [50]] (rootLeafState 1 N2) ∧
    (do
      let l ← rightmostLeaf opFuel
      collectPrevChain opFuel l).run (rootLeafState 1 N2)
      = .ok [[49], [50]] (rootLeafState 1 N2) := by
  refine ⟨?_, ?_, ?_⟩
  · unfold runOps
    rw [List.foldl_cons, step_ins1, List.foldl_cons, step_ins2,
        List.foldl_cons, step_del2, List.foldl_nil]
  · rw [show opFuel = 998 + 1 + 1 from rfl]
    exact run_nextChain_rootLeaf 998 1 N2 [[49], [50]] N2_WF rfl (by decide)
      (by decide)
  · rw [show opFuel = 998 + 1 + 1 from rfl]
    exact run_prevChain_rootLeaf 998 1 N2 [[49], [50]] N2_WF rfl (by decide)
      (by decide)

/-- C7: the spec claims that deleting the last key truncates the file to
zero, resets the cached master page, and lets the next insert re-initialize
the tree exactly as a first insert does.  The code diverges much earlier:
`deleteEntry` never writes the mutated leaf, `adjustRoot` re-reads the root
from disk and still sees one key, so nothing at all happens — the file keeps
its 12288 bytes, the cached master page stays set, and re-inserting the
deleted key fails with `KEY_ALREADY_EXISTS` instead of succeeding like the
first insert into a fresh tree. -/
theorem c7_empty_tree_never_truncated_or_reset :
    runOps emptyTree [.ins (some [49]) (some [97]), .del (some [49])]
      = rootLeafState 1 (N1 [49] [97]) ∧
    (rootLeafState 1 (N1 [49] [97])).file.size = 12288 ∧
    (rootLeafState 1 (N1 [49] [97])).masterPage = some ⟨4096, 1⟩ ∧
    runRes (Insert opFuel (some [49]) (some [98]))
      (rootLeafState 1 (N1 [49] [97])) = .error .keyAlreadyExists ∧
    runRes (Insert opFuel (some [49]) (some [98])) emptyTree = .ok () := by
  refine ⟨?_, ?_, rfl, ?_, ?_⟩
  · unfold runOps
    rw [List.foldl_cons, step_ins1, List.foldl_cons]
    rw [show applyOp (rootLeafState 1 (N1 [49] [97])) (.del (some [49]))
        = rootLeafState 1 (N1 [49] [97]) from by
      show runState (Delete opFuel (some [49])) (rootLeafState 1 (N1 [49] [97]))
        = _
      refine runState_of_ok _ _ _ () ?_
      rw [show opFuel = 999 + 1 from rfl]
      exact run_Delete_rootLeaf_noop 999 1 (N1 [49] [97])
        ⟨4096, true, 0, 0, 0, 0, 1, [[], [], []],
          [.null, .null, .null, .null]⟩
        [49] 0 (.bytes ⟨97, 1⟩) N1a_WF rfl rfl (by decide)
        (by decide) (by decide) (by decide) (by decide) rfl]
    rw [List.foldl_nil]
  · rw [show (rootLeafState 1 (N1 [49] [97])).file
        = bytesOf (mlist ++ pageList (N1 [49] [97])) from rfl,
      bytesOf_size, List.length_append, mlist_length,
      pageList_length _ N1a_WF]
  · refine runRes_of_error _ _ (rootLeafState 1 (N1 [49] [97])) _ ?_
    rw [show opFuel = 999 + 1 from rfl]
    exact run_Insert_dup_rootLeaf 999 1 (N1 [49] [97]) [49] [98] 0 N1a_WF rfl
      (by norm_num) (by decide) (by decide)
  · exact runRes_of_ok _ _ _ ()
      (first_insert opFuel [49] [98] (by norm_num) (by decide) (by norm_num)
        (by norm_num))

end DiskBPTree

namespace DiskBPTree

/-! ## MACHINERY -/

/-- The three rejection errors of the public API whose no-mutation guarantee
the spec asserts: duplicate key, wrong key size, missing key. -/
def isE3 : Err → Bool
  | .keyAlreadyExists => true
  | .invalidKeySize => true
  | .keyNotFound => true
  | _ => false

/-- The final state carried by a run result (an `EStateM` error result keeps
the state reached so far). -/
def resState : EStateM.Result Err DiskBTree α → DiskBTree
  | .ok _ s => s
  | .error _ s => s

/-- A pure computation that never fails with a rejection error. -/
def PNE3 (p : Except Err α) : Prop := ∀ e, p = .error e → isE3 e = false

/-- A monadic computation that never fails with a rejection error. -/
def NE3 (m : M α) : Prop := ∀ s e s', m.run s = .error e s' → isE3 e = false

/-- A computation that never moves the state: the state coming out equals the
state going in, on success and on failure alike. -/
def RO (m : M α) : Prop := ∀ s, resState (m.run s) = s

/-- Rejection errors do not mutate: whenever a run ends in one of the three
validation errors, the final state is the initial one. -/
def SafeE3 (m : M α) : Prop :=
  ∀ s e s', m.run s = .error e s' → isE3 e = true → s' = s

theorem pne3_ok (a : α) : PNE3 (Except.ok a : Except Err α) := by
  intro e h
  exact absurd h (by simp)

theorem pne3_err {e0 : Err} (h : isE3 e0 = false) :
    PNE3 (Except.error e0 : Except Err α) := by
  intro e he
  injection he with h1
  subst h1
  exact h

theorem pne3_bind {p : Except Err α} {f : α → Except Err β}
    (hp : PNE3 p) (hf : ∀ a, PNE3 (f a)) : PNE3 (p >>= f) := by
  intro e h
  cases hq : p with
  | ok a =>
      rw [hq, exc_bind_ok] at h
      exact hf a e h
  | error e1 =>
      rw [hq, exc_bind_error] at h
      injection h with h1
      subst h1
      exact hp e1 hq

theorem pne3_ite {c : Prop} [Decidable c] {p q : Except Err α}
    (hp : PNE3 p) (hq : PNE3 q) : PNE3 (if c then p else q) := by
  by_cases h : c
  · rw [if_pos h]; exact hp
  · rw [if_neg h]; exact hq

theorem pne3_goGet (xs : List α) (i : Nat) : PNE3 (goGet xs i) := by
  unfold goGet
  cases xs.get? i with
  | some v => exact pne3_ok v
  | none => exact pne3_err rfl

theorem pne3_goSet (xs : List α) (i : Nat) (v : α) : PNE3 (goSet xs i v) := by
  unfold goSet
  split
  · exact pne3_ok _
  · exact pne3_err rfl

theorem pne3_goByte (b : Bytes) (i : Nat) : PNE3 (goByte b i) := by
  unfold goByte
  split
  · exact pne3_ok _
  · exact pne3_err rfl

theorem pne3_goSlice (b : Bytes) (i j : Nat) : PNE3 (goSlice b i j) := by
  unfold goSlice
  split
  · exact pne3_ok _
  · exact pne3_err rfl

theorem pne3_goCopy (pg : Bytes) (i j : Nat) (src : Bytes) :
    PNE3 (goCopy pg i j src) := by
  unfold goCopy
  split
  · exact pne3_ok _
  · exact pne3_err rfl

theorem pne3_beU16 (s : Bytes) : PNE3 (beU16 s) := by
  unfold beU16
  split
  · exact pne3_err rfl
  · exact pne3_ok _

theorem pne3_beU64 (s : Bytes) : PNE3 (beU64 s) := by
  unfold beU64
  split
  · exact pne3_err rfl
  · exact pne3_ok _

theorem pne3_asBytesAssert (s : Slot) : PNE3 (asBytesAssert s) := by
  cases s with
  | bytes v => exact pne3_ok v
  | ptr p => exact pne3_err rfl
  | noderef p => exact pne3_err rfl
  | null => exact pne3_err rfl

theorem pne3_asU64Assert (s : Slot) : PNE3 (asU64Assert s) := by
  cases s with
  | bytes v => exact pne3_err rfl
  | ptr p => exact pne3_ok p
  | noderef p => exact pne3_err rfl
  | null => exact pne3_err rfl

theorem pne3_goGetI (xs : List α) (i : Int) : PNE3 (goGetI xs i) := by
  unfold goGetI
  split
  · exact pne3_err rfl
  · exact pne3_goGet xs i.toNat

theorem pne3_goSetI (xs : List α) (i : Int) (v : α) : PNE3 (goSetI xs i v) := by
  unfold goSetI
  split
  · exact pne3_err rfl
  · exact pne3_goSet xs i.toNat v

theorem pne3_eLoop {f : Nat → σ → Except Err σ}
    (hf : ∀ i acc, PNE3 (f i acc)) :
    ∀ c i acc, PNE3 (eLoop c f i acc) := by
  intro c
  induction c with
  | zero => intro i acc; exact pne3_ok acc
  | succ c ih =>
      intro i acc
      rw [eLoop_succ]
      exact pne3_bind (hf i acc) fun a => ih (i + 1) a

theorem pne3_eLoopDown {f : Nat → σ → Except Err σ}
    (hf : ∀ i acc, PNE3 (f i acc)) :
    ∀ c i acc, PNE3 (eLoopDown c f i acc) := by
  intro c
  induction c with
  | zero => intro i acc; exact pne3_ok acc
  | succ c ih =>
      intro i acc
      exact pne3_bind (hf i acc) fun a => ih (i - 1) a

theorem pne3_ToBytes (n : DiskBTreeNode) : PNE3 n.ToBytes := by
  unfold DiskBTreeNode.ToBytes
  refine pne3_bind (pne3_eLoop ?_ _ _ _) fun a => ?_
  · intro i acc
    obtain ⟨x, y, pg⟩ := acc
    exact pne3_bind (pne3_goGet _ _) fun k =>
      pne3_bind (pne3_goCopy _ _ _ _) fun pg2 => pne3_ok _
  · obtain ⟨st, y, pg⟩ := a
    refine pne3_ite ?_ ?_
    · refine pne3_bind (pne3_eLoop ?_ _ _ _) fun b => ?_
      · intro i acc
        obtain ⟨x, y2, pg2⟩ := acc
        exact pne3_bind (pne3_goGet _ _) fun s =>
          pne3_bind (pne3_asBytesAssert _) fun val =>
            pne3_bind (pne3_goCopy _ _ _ _) fun pg3 =>
              pne3_bind (pne3_goCopy _ _ _ _) fun pg4 => pne3_ok _
      · obtain ⟨x, y2, pg2⟩ := b
        exact pne3_ok _
    · refine pne3_bind (pne3_eLoop ?_ _ _ _) fun b => ?_
      · intro i acc
        obtain ⟨x, y2, pg2⟩ := acc
        exact pne3_bind (pne3_goGet _ _) fun s =>
          pne3_bind (pne3_asU64Assert _) fun p =>
            pne3_bind (pne3_goCopy _ _ _ _) fun pg3 => pne3_ok _
      · obtain ⟨x, y2, pg2⟩ := b
        exact pne3_ok _

theorem pne3_BytesToNode (b : Bytes) (ptr : Nat) : PNE3 (BytesToNode b ptr) := by
  unfold BytesToNode
  refine pne3_bind (pne3_goByte _ _) fun b0 => ?_
  refine pne3_bind (pne3_goSlice _ _ _) fun s1 => ?_
  refine pne3_bind (pne3_beU16 s1) fun numkeys => ?_
  refine pne3_bind (pne3_goSlice _ _ _) fun s2 => ?_
  refine pne3_bind (pne3_beU64 s2) fun parent => ?_
  refine pne3_bind (pne3_goSlice _ _ _) fun s3 => ?_
  refine pne3_bind (pne3_beU64 s3) fun next => ?_
  refine pne3_bind (pne3_goSlice _ _ _) fun s4 => ?_
  refine pne3_bind (pne3_beU64 s4) fun prev => ?_
  refine pne3_bind (pne3_goSlice _ _ _) fun s5 => ?_
  refine pne3_bind (pne3_beU16 s5) fun keysize => ?_
  refine pne3_bind (pne3_eLoop ?_ _ _ _) fun a => ?_
  · intro i acc
    obtain ⟨x, y, ks⟩ := acc
    exact pne3_bind (pne3_goSlice _ _ _) fun src =>
      pne3_bind (pne3_goSet _ _ _) fun ks2 => pne3_ok _
  · obtain ⟨st, y, keys⟩ := a
    refine pne3_ite ?_ ?_
    · refine pne3_bind (pne3_eLoop ?_ _ _ _) fun c => ?_
      · intro i acc
        obtain ⟨x, y2, ps⟩ := acc
        refine pne3_bind (pne3_goSlice _ _ _) fun s6 => ?_
        refine pne3_bind (pne3_beU16 s6) fun vlen => ?_
        exact pne3_bind (pne3_goSlice _ _ _) fun v =>
          pne3_bind (pne3_goSet _ _ _) fun ps2 => pne3_ok _
      · obtain ⟨x, y2, ps⟩ := c
        exact pne3_ok _
    · refine pne3_bind (pne3_eLoop ?_ _ _ _) fun c => ?_
      · intro i acc
        obtain ⟨x, y2, ps⟩ := acc
        refine pne3_bind (pne3_goSlice _ _ _) fun s6 => ?_
        refine pne3_bind (pne3_beU64 s6) fun p => ?_
        exact pne3_bind (pne3_goSet _ _ _) fun ps2 => pne3_ok _
      · obtain ⟨x, y2, ps⟩ := c
        exact pne3_ok _

theorem pne3_getKeyIndexLoop (keys : List (List Nat)) (key : List Nat) :
    ∀ c i, PNE3 (getKeyIndexLoop keys key i c) := by
  intro c
  induction c with
  | zero => intro i; exact pne3_ok _
  | succ c ih =>
      intro i
      refine pne3_bind (pne3_goGet _ _) fun k => ?_
      split
      · exact pne3_ok _
      · exact ih (i + 1)

theorem pne3_getKeyIndex (node : DiskBTreeNode) (key : List Nat) :
    PNE3 (getKeyIndex node key) :=
  pne3_getKeyIndexLoop node.Keys key node.Numkeys 0

theorem pne3_getInsertionIndexLoop (keys : List (List Nat)) (key : List Nat) :
    ∀ c i, PNE3 (getInsertionIndexLoop keys key i c) := by
  intro c
  induction c with
  | zero => intro i; exact pne3_ok _
  | succ c ih =>
      intro i
      refine pne3_bind (pne3_goGet _ _) fun k => ?_
      split
      · exact ih (i + 1)
      · exact pne3_ok _

theorem pne3_getPointerIndexLoop (node : DiskBTreeNode) (pointer : DelPtr) :
    ∀ c i, PNE3 (getPointerIndexLoop node pointer i c) := by
  intro c
  induction c with
  | zero => intro i; exact pne3_ok _
  | succ c ih =>
      intro i
      refine pne3_bind (pne3_goGet _ _) fun s => ?_
      cases pointer with
      | sl sl0 =>
          cases sl0 with
          | bytes val =>
              exact pne3_bind (pne3_asBytesAssert _) fun w =>
                pne3_ite (pne3_ok _) (ih (i + 1))
          | ptr p => exact pne3_ite (pne3_ok _) (ih (i + 1))
          | noderef p => exact pne3_ite (pne3_ok _) (ih (i + 1))
          | null => exact pne3_ite (pne3_ok _) (ih (i + 1))
      | ndobj p => exact pne3_ite (pne3_ok _) (ih (i + 1))

theorem pne3_getPointerIndex (node : DiskBTreeNode) (pointer : DelPtr) :
    PNE3 (getPointerIndex node pointer) := by
  unfold getPointerIndex
  refine pne3_ite (pne3_ok _) ?_
  exact pne3_getPointerIndexLoop node pointer _ 0

theorem pne3_getSiblingIndexLoop (parent : DiskBTreeNode) (ptr : Nat) :
    ∀ c i, PNE3 (getSiblingIndexLoop parent ptr i c) := by
  intro c
  induction c with
  | zero => intro i; exact pne3_ok _
  | succ c ih =>
      intro i
      refine pne3_bind (pne3_goGet _ _) fun s => ?_
      split
      · exact pne3_ok _
      · exact ih (i + 1)

theorem pne3_insertShift (adj : Nat) :
    ∀ c i acc, PNE3 (insertShift adj i c acc) := by
  intro c
  induction c with
  | zero => intro i acc; exact pne3_ok acc
  | succ c ih =>
      intro i acc
      obtain ⟨keys, ptrs⟩ := acc
      exact pne3_bind (pne3_goGet _ _) fun kv =>
        pne3_bind (pne3_goSet _ _ _) fun keys2 =>
          pne3_bind (pne3_goGet _ _) fun pv =>
            pne3_bind (pne3_goSet _ _ _) fun ptrs2 => ih (i - 1) (keys2, ptrs2)

theorem pne3_insertIntoNode (node : DiskBTreeNode) (key : List Nat)
    (pointer : IPtr) : PNE3 (insertIntoNode node key pointer) := by
  unfold insertIntoNode
  refine pne3_bind (pne3_getInsertionIndexLoop _ _ _ _) fun ii => ?_
  refine pne3_bind (pne3_insertShift _ _ _ _) fun a => ?_
  obtain ⟨keys, ptrs⟩ := a
  refine pne3_bind (pne3_goSet _ _ _) fun keys2 => ?_
  cases hL : node.IsLeaf with
  | true =>
      cases pointer with
      | val v => exact pne3_bind (pne3_goSet _ _ _) fun y => pne3_ok _
      | nd p => exact pne3_bind (pne3_goSet _ _ _) fun y => pne3_ok _
  | false =>
      cases pointer with
      | val v => exact pne3_bind (pne3_err rfl) fun y => pne3_ok _
      | nd p => exact pne3_bind (pne3_goSet _ _ _) fun y => pne3_ok _

theorem ne3_bind {m : M α} {f : α → M β} (hm : NE3 m) (hf : ∀ a, NE3 (f a)) :
    NE3 (m >>= f) := by
  intro s e s' h
  rw [run_bind] at h
  cases hq : m.run s with
  | ok a t =>
      rw [hq] at h
      exact hf a t e s' h
  | error e1 t =>
      rw [hq] at h
      injection h with h1 h2
      subst h1
      exact hm s e1 t hq

theorem ne3_pure (a : α) : NE3 (pure a : M α) := by
  intro s e s' h
  exact absurd h (by simp)

theorem ne3_get : NE3 (get : M DiskBTree) := by
  intro s e s' h
  exact absurd h (by simp)

theorem ne3_set (t : DiskBTree) : NE3 (set t : M Unit) := by
  intro s e s' h
  exact absurd h (by simp)

theorem ne3_modify (f : DiskBTree → DiskBTree) : NE3 (modify f : M Unit) := by
  intro s e s' h
  exact absurd h (by simp)

theorem ne3_throw {e0 : Err} (h : isE3 e0 = false) : NE3 (throw e0 : M α) := by
  intro s e s' hr
  rw [run_throw] at hr
  injection hr with h1 h2
  subst h1
  exact h

theorem ne3_lift {p : Except Err α} (hp : PNE3 p) : NE3 (lift p) := by
  intro s e s' h
  cases hq : p with
  | ok a =>
      rw [hq, run_lift_ok] at h
      exact absurd h (by simp)
  | error e1 =>
      rw [hq, run_lift_error] at h
      injection h with h1 h2
      subst h1
      exact hp e1 hq

theorem ne3_ite {c : Prop} [Decidable c] {p q : M α}
    (hp : NE3 p) (hq : NE3 q) : NE3 (if c then p else q) := by
  by_cases h : c
  · rw [if_pos h]; exact hp
  · rw [if_neg h]; exact hq

theorem ne3_tryCatch {m : M α} {h : Err → M α}
    (hm : NE3 m) (hh : ∀ e, NE3 (h e)) : NE3 (tryCatch m h) := by
  intro s e s' hr
  rw [run_tryCatch] at hr
  cases hq : m.run s with
  | ok a t =>
      rw [hq] at hr
      exact absurd hr (by simp)
  | error e1 t =>
      rw [hq] at hr
      exact hh e1 t e s' hr

theorem ro_bind {m : M α} {f : α → M β} (hm : RO m) (hf : ∀ a, RO (f a)) :
    RO (m >>= f) := by
  intro s
  rw [run_bind]
  cases hq : m.run s with
  | ok a t =>
      have ht : t = s := by have h2 := hm s; rw [hq] at h2; exact h2
      subst ht
      exact hf a t
  | error e1 t =>
      have h2 := hm s
      rw [hq] at h2
      exact h2

theorem ro_pure (a : α) : RO (pure a : M α) := fun _ => rfl

theorem ro_get : RO (get : M DiskBTree) := fun _ => rfl

theorem ro_throw (e : Err) : RO (throw e : M α) := fun _ => rfl

theorem ro_lift (p : Except Err α) : RO (lift p) := by
  intro s
  cases p with
  | ok a => rfl
  | error e => rfl

theorem ro_ite {c : Prop} [Decidable c] {p q : M α}
    (hp : RO p) (hq : RO q) : RO (if c then p else q) := by
  by_cases h : c
  · rw [if_pos h]; exact hp
  · rw [if_neg h]; exact hq

theorem ro_tryCatch {m : M α} {h : Err → M α}
    (hm : RO m) (hh : ∀ e, RO (h e)) : RO (tryCatch m h) := by
  intro s
  rw [run_tryCatch]
  cases hq : m.run s with
  | ok a t =>
      have h2 := hm s
      rw [hq] at h2
      exact h2
  | error e1 t =>
      have ht : t = s := by have h2 := hm s; rw [hq] at h2; exact h2
      subst ht
      exact hh e1 t

theorem safe_of_ro {m : M α} (h : RO m) : SafeE3 m := by
  intro s e s' hr _
  have h2 := h s
  rw [hr] at h2
  exact h2

theorem safe_of_ne3 {m : M α} (h : NE3 m) : SafeE3 m := by
  intro s e s' hr he
  rw [h s e s' hr] at he
  exact absurd he (by simp)

theorem safe_throw (e0 : Err) : SafeE3 (throw e0 : M α) :=
  safe_of_ro (ro_throw e0)

theorem safe_pure (a : α) : SafeE3 (pure a : M α) := safe_of_ro (ro_pure a)

theorem safe_ite {c : Prop} [Decidable c] {p q : M α}
    (hp : SafeE3 p) (hq : SafeE3 q) : SafeE3 (if c then p else q) := by
  by_cases h : c
  · rw [if_pos h]; exact hp
  · rw [if_neg h]; exact hq

theorem safe_bind_ro {m : M α} {f : α → M β}
    (hm : RO m) (hf : ∀ a, SafeE3 (f a)) : SafeE3 (m >>= f) := by
  intro s e s' hr he
  rw [run_bind] at hr
  cases hq : m.run s with
  | ok a t =>
      rw [hq] at hr
      have ht : t = s := by have h2 := hm s; rw [hq] at h2; exact h2
      subst ht
      exact hf a t e s' hr he
  | error e1 t =>
      rw [hq] at hr
      injection hr with h1 h2
      subst h2
      have h2 := hm s
      rw [hq] at h2
      exact h2

theorem ne3_writeNode (b : Bytes) (p : Nat) : NE3 (writeNode b p) := by
  intro s e s' h
  unfold writeNode at h
  rw [run_modify] at h
  exact absurd h (by simp)

theorem ne3_writeMasterPage : NE3 writeMasterPage := by
  unfold writeMasterPage
  refine ne3_bind ne3_get fun t => ?_
  cases hmp : t.masterPage with
  | none => exact ne3_throw rfl
  | some mp => exact ne3_modify _

theorem ne3_newPagePtr : NE3 newPagePtr := by
  unfold newPagePtr
  refine ne3_bind ne3_get fun t => ?_
  cases hmp : t.masterPage with
  | none => exact ne3_throw rfl
  | some mp => exact ne3_pure _

theorem ne3_incPageCount : NE3 incPageCount := by
  unfold incPageCount
  refine ne3_bind ne3_get fun t => ?_
  cases hmp : t.masterPage with
  | none => exact ne3_throw rfl
  | some mp => exact ne3_set _

theorem ne3_setRoot (ptr : Nat) : NE3 (setRoot ptr) := by
  unfold setRoot
  refine ne3_bind ne3_get fun t => ?_
  cases hmp : t.masterPage with
  | none => exact ne3_throw rfl
  | some mp => exact ne3_set _

theorem ne3_readNode (ptr : Nat) : NE3 (readNode ptr) := by
  unfold readNode
  refine ne3_bind ne3_get fun t => ?_
  cases hmp : t.masterPage with
  | none => exact ne3_throw rfl
  | some mp =>
      refine ne3_ite (ne3_throw rfl) ?_
      exact ne3_ite (ne3_throw rfl) (ne3_lift (pne3_BytesToNode _ _))

theorem ro_readNode (ptr : Nat) : RO (readNode ptr) := by
  unfold readNode
  refine ro_bind ro_get fun t => ?_
  cases hmp : t.masterPage with
  | none => exact ro_throw _
  | some mp =>
      refine ro_ite (ro_throw _) ?_
      exact ro_ite (ro_throw _) (ro_lift _)

theorem ne3_findLeafLoop (key : List Nat) :
    ∀ fuel node, NE3 (findLeafLoop key fuel node) := by
  intro fuel
  induction fuel with
  | zero => intro node; exact ne3_throw rfl
  | succ fuel ih =>
      intro node
      show NE3 (findLeafLoop key (fuel + 1) node)
      unfold findLeafLoop
      refine ne3_ite (ne3_pure _) ?_
      refine ne3_bind (ne3_lift (pne3_getInsertionIndexLoop _ _ _ _)) fun i => ?_
      refine ne3_bind (ne3_lift (pne3_goGet _ _)) fun s => ?_
      cases s with
      | bytes v => exact ne3_throw rfl
      | ptr p => exact ne3_bind (ne3_readNode p) fun nd => ih nd
      | noderef p => exact ne3_throw rfl
      | null => exact ne3_throw rfl

theorem ro_findLeafLoop (key : List Nat) :
    ∀ fuel node, RO (findLeafLoop key fuel node) := by
  intro fuel
  induction fuel with
  | zero => intro node; exact ro_throw _
  | succ fuel ih =>
      intro node
      show RO (findLeafLoop key (fuel + 1) node)
      unfold findLeafLoop
      refine ro_ite (ro_pure _) ?_
      refine ro_bind (ro_lift _) fun i => ?_
      refine ro_bind (ro_lift _) fun s => ?_
      cases s with
      | bytes v => exact ro_throw _
      | ptr p => exact ro_bind (ro_readNode p) fun nd => ih nd
      | noderef p => exact ro_throw _
      | null => exact ro_throw _

theorem ne3_findLeaf (fuel : Nat) (key : List Nat) : NE3 (findLeaf fuel key) := by
  unfold findLeaf
  refine ne3_bind ne3_get fun t => ?_
  cases hmp : t.masterPage with
  | none => exact ne3_throw rfl
  | some mp => exact ne3_bind (ne3_readNode _) fun nd => ne3_findLeafLoop key fuel nd

theorem ro_findLeaf (fuel : Nat) (key : List Nat) : RO (findLeaf fuel key) := by
  unfold findLeaf
  refine ro_bind ro_get fun t => ?_
  cases hmp : t.masterPage with
  | none => exact ro_throw _
  | some mp => exact ro_bind (ro_readNode _) fun nd => ro_findLeafLoop key fuel nd

theorem ne3_getSiblingIndex (node : DiskBTreeNode) : NE3 (getSiblingIndex node) := by
  unfold getSiblingIndex
  exact ne3_bind (ne3_readNode _) fun parent =>
    ne3_lift (pne3_getSiblingIndexLoop _ _ _ _)

theorem ne3_adjustRoot : NE3 adjustRoot := by
  unfold adjustRoot
  refine ne3_bind ne3_get fun t => ?_
  cases hmp : t.masterPage with
  | none => exact ne3_throw rfl
  | some mp =>
      refine ne3_bind (ne3_readNode _) fun root => ?_
      refine ne3_ite (ne3_pure _) ?_
      refine ne3_ite ?_ (ne3_modify _)
      refine ne3_bind (ne3_lift (pne3_goGet _ _)) fun s => ?_
      cases s with
      | bytes v => exact ne3_throw rfl
      | ptr p =>
          refine ne3_bind (ne3_readNode p) fun newRoot => ?_
          refine ne3_bind (ne3_setRoot p) fun u => ?_
          refine ne3_bind (ne3_lift (pne3_ToBytes _)) fun b => ?_
          exact ne3_bind (ne3_writeNode b p) fun u2 => ne3_writeMasterPage
      | noderef p => exact ne3_throw rfl
      | null => exact ne3_throw rfl

theorem ne3_removeFromNode (node : DiskBTreeNode) (key : List Nat)
    (pointer : DelPtr) : NE3 (removeFromNode node key pointer) := by
  unfold removeFromNode
  refine ne3_bind (ne3_lift (pne3_getKeyIndex _ _)) fun keyIdx => ?_
  refine ne3_ite (ne3_throw rfl) ?_
  refine ne3_bind (ne3_lift (pne3_eLoop
    (fun i ks => pne3_bind (pne3_goGet _ _) fun kv => pne3_goSet _ _ _)
    _ _ _)) fun keys => ?_
  refine ne3_bind (ne3_lift (pne3_goSet _ _ _)) fun keys2 => ?_
  refine ne3_bind (ne3_lift (pne3_getPointerIndex _ _)) fun ptrIdx => ?_
  refine ne3_ite (ne3_throw rfl) ?_
  refine ne3_bind (ne3_lift (pne3_eLoop
    (fun i ps => pne3_bind (pne3_goGet _ _) fun pv => pne3_goSet _ _ _)
    _ _ _)) fun ptrs => ?_
  refine ne3_bind (ne3_lift (pne3_goSet _ _ _)) fun ptrs2 => ?_
  refine ne3_ite ?_ (ne3_pure _)
  refine ne3_bind (ne3_readNode _) fun nodeParent => ?_
  refine ne3_bind (ne3_lift (pne3_getKeyIndex _ _)) fun oldIdx => ?_
  refine ne3_ite ?_ (ne3_pure _)
  refine ne3_bind (ne3_lift (pne3_goGet _ _)) fun k0 => ?_
  refine ne3_bind (ne3_lift (pne3_goSetI _ _ _)) fun pKeys => ?_
  refine ne3_bind (ne3_lift (pne3_ToBytes _)) fun b => ?_
  exact ne3_bind (ne3_writeNode _ _) fun u => ne3_pure _

theorem ne3_ite_bind {c : Prop} [inst : Decidable c] {m1 m2 : M α} {f : α → M β}
    (h1 : NE3 m1) (h2 : NE3 m2) (hf : ∀ a, NE3 (f a)) :
    NE3 (if c then m1 >>= f else m2 >>= f) :=
  ne3_ite (ne3_bind h1 hf) (ne3_bind h2 hf)

theorem ne3_splitRootAndInsert (node newNode : DiskBTreeNode)
    (k : List Nat) : NE3 (splitRootAndInsert node newNode k) := by
  unfold splitRootAndInsert
  refine ne3_bind ne3_newPagePtr fun p => ?_
  refine ne3_bind ne3_incPageCount fun u => ?_
  refine ne3_ite_bind (ne3_lift (pne3_goGet _ _)) (ne3_pure _) fun k0 => ?_
  refine ne3_bind (ne3_lift (pne3_goSet _ _ _)) fun keys => ?_
  refine ne3_bind (ne3_lift (pne3_goSet _ _ _)) fun ptrs => ?_
  refine ne3_bind (ne3_lift (pne3_goSet _ _ _)) fun ptrs2 => ?_
  refine ne3_bind ne3_get fun t => ?_
  refine ne3_bind (ne3_lift (pne3_ToBytes _)) fun b1 => ?_
  refine ne3_bind (ne3_writeNode _ _) fun u1 => ?_
  refine ne3_bind (ne3_lift (pne3_ToBytes _)) fun b2 => ?_
  refine ne3_bind (ne3_writeNode _ _) fun u2 => ?_
  refine ne3_bind (ne3_lift (pne3_ToBytes _)) fun b3 => ?_
  refine ne3_bind (ne3_writeNode _ _) fun u3 => ?_
  exact ne3_bind (ne3_setRoot _) fun u4 => ne3_writeMasterPage

theorem ne3_splitMoveLoop (tempNode : DiskBTreeNode) (isLeaf : Bool)
    (adj : Nat) :
    ∀ c i newNode, NE3 (splitMoveLoop tempNode isLeaf adj i c newNode) := by
  intro c
  induction c with
  | zero => intro i newNode; exact ne3_pure _
  | succ c ih =>
      intro i newNode
      show NE3 (splitMoveLoop tempNode isLeaf adj i (c + 1) newNode)
      unfold splitMoveLoop
      refine ne3_ite ?_ ?_
      · refine ne3_bind (ne3_lift (pne3_goGet _ _)) fun kv => ?_
        refine ne3_bind (ne3_lift (pne3_goSet _ _ _)) fun ks => ?_
        refine ne3_bind (ne3_pure _) fun y => ?_
        refine ne3_bind (ne3_lift (pne3_goGet _ _)) fun s => ?_
        refine ne3_bind (ne3_lift (pne3_goSet _ _ _)) fun ps => ?_
        exact ih (i + 1) _
      · refine ne3_ite ?_ ?_
        · refine ne3_bind (ne3_lift (pne3_goGet _ _)) fun kv => ?_
          refine ne3_bind (ne3_lift (pne3_goSet _ _ _)) fun ks => ?_
          refine ne3_bind (ne3_pure _) fun y => ?_
          refine ne3_bind (ne3_lift (pne3_goGet _ _)) fun s => ?_
          cases s with
          | ptr p =>
              refine ne3_bind (ne3_readNode p) fun child => ?_
              refine ne3_bind (ne3_lift (pne3_ToBytes _)) fun b => ?_
              refine ne3_bind (ne3_writeNode _ _) fun u => ?_
              refine ne3_bind (ne3_pure _) fun y2 => ?_
              refine ne3_bind (ne3_lift (pne3_goGet _ _)) fun s2 => ?_
              refine ne3_bind (ne3_lift (pne3_goSet _ _ _)) fun ps => ?_
              exact ih (i + 1) _
          | bytes v =>
              refine ne3_bind (ne3_throw rfl) fun y2 => ?_
              refine ne3_bind (ne3_lift (pne3_goGet _ _)) fun s2 => ?_
              refine ne3_bind (ne3_lift (pne3_goSet _ _ _)) fun ps => ?_
              exact ih (i + 1) _
          | noderef p =>
              refine ne3_bind (ne3_throw rfl) fun y2 => ?_
              refine ne3_bind (ne3_lift (pne3_goGet _ _)) fun s2 => ?_
              refine ne3_bind (ne3_lift (pne3_goSet _ _ _)) fun ps => ?_
              exact ih (i + 1) _
          | null =>
              refine ne3_bind (ne3_throw rfl) fun y2 => ?_
              refine ne3_bind (ne3_lift (pne3_goGet _ _)) fun s2 => ?_
              refine ne3_bind (ne3_lift (pne3_goSet _ _ _)) fun ps => ?_
              exact ih (i + 1) _
        · refine ne3_bind (ne3_pure _) fun y => ?_
          refine ne3_bind (ne3_lift (pne3_goGet _ _)) fun s => ?_
          cases s with
          | ptr p =>
              refine ne3_bind (ne3_readNode p) fun child => ?_
              refine ne3_bind (ne3_lift (pne3_ToBytes _)) fun b => ?_
              refine ne3_bind (ne3_writeNode _ _) fun u => ?_
              refine ne3_bind (ne3_pure _) fun y2 => ?_
              refine ne3_bind (ne3_lift (pne3_goGet _ _)) fun s2 => ?_
              refine ne3_bind (ne3_lift (pne3_goSet _ _ _)) fun ps => ?_
              exact ih (i + 1) _
          | bytes v =>
              refine ne3_bind (ne3_throw rfl) fun y2 => ?_
              refine ne3_bind (ne3_lift (pne3_goGet _ _)) fun s2 => ?_
              refine ne3_bind (ne3_lift (pne3_goSet _ _ _)) fun ps => ?_
              exact ih (i + 1) _
          | noderef p =>
              refine ne3_bind (ne3_throw rfl) fun y2 => ?_
              refine ne3_bind (ne3_lift (pne3_goGet _ _)) fun s2 => ?_
              refine ne3_bind (ne3_lift (pne3_goSet _ _ _)) fun ps => ?_
              exact ih (i + 1) _
          | null =>
              refine ne3_bind (ne3_throw rfl) fun y2 => ?_
              refine ne3_bind (ne3_lift (pne3_goGet _ _)) fun s2 => ?_
              refine ne3_bind (ne3_lift (pne3_goSet _ _ _)) fun ps => ?_
              exact ih (i + 1) _

theorem ne3_recursivelySplitAndInsert :
    ∀ fuel node key pointer,
      NE3 (recursivelySplitAndInsert fuel node key pointer) := by
  intro fuel
  induction fuel with
  | zero => intro node key pointer; exact ne3_throw rfl
  | succ fuel ih =>
      intro node key pointer
      show NE3 (recursivelySplitAndInsert (fuel + 1) node key pointer)
      unfold recursivelySplitAndInsert
      refine ne3_bind ne3_newPagePtr fun newPtr => ?_
      refine ne3_bind ne3_incPageCount fun u => ?_
      refine ne3_ite_bind (ne3_pure _) (ne3_pure _) fun pr => ?_
      obtain ⟨node2, newNode⟩ := pr
      refine ne3_bind ne3_get fun t => ?_
      refine ne3_bind (ne3_lift (pne3_eLoop ?_ _ _ _)) fun tkp => ?_
      · intro i acc
        obtain ⟨ks, ps⟩ := acc
        exact pne3_bind (pne3_goGet _ _) fun kv =>
          pne3_bind (pne3_goSet _ _ _) fun ks2 =>
            pne3_bind (pne3_goGet _ _) fun pv =>
              pne3_bind (pne3_goSet _ _ _) fun ps2 => pne3_ok _
      obtain ⟨tk, tp⟩ := tkp
      refine ne3_bind (ne3_lift (pne3_goGet _ _)) fun pv => ?_
      refine ne3_bind (ne3_lift (pne3_goSet _ _ _)) fun tp2 => ?_
      refine ne3_bind (ne3_lift (pne3_insertIntoNode _ _ _)) fun tempNode2 => ?_
      refine ne3_bind (ne3_lift (pne3_eLoop ?_ _ _ _)) fun nkp => ?_
      · intro i acc
        obtain ⟨ks, ps, num⟩ := acc
        exact pne3_bind (pne3_goGet _ _) fun kv =>
          pne3_bind (pne3_goSet _ _ _) fun ks2 =>
            pne3_bind (pne3_goGet _ _) fun pv2 =>
              pne3_bind (pne3_goSet _ _ _) fun ps2 => pne3_ok _
      obtain ⟨nk, np, nnum⟩ := nkp
      refine ne3_ite ?_ ?_
      · refine ne3_bind (ne3_lift (pne3_goGet _ _)) fun pv2 => ?_
        refine ne3_bind (ne3_lift (pne3_goSet _ _ _)) fun np2 => ?_
        refine ne3_bind (ne3_pure _) fun pa => ?_
        obtain ⟨node3, adj⟩ := pa
        refine ne3_bind (ne3_splitMoveLoop _ _ _ _ _ _) fun newNode2 => ?_
        refine ne3_bind ne3_get fun t2 => ?_
        cases hmp : t2.masterPage with
        | none => exact ne3_throw rfl
        | some mp =>
            refine ne3_ite ?_ ?_
            · exact ne3_bind (ne3_lift (pne3_goGet _ _)) fun sep =>
                ne3_splitRootAndInsert _ _ _
            · refine ne3_bind (ne3_lift (pne3_ToBytes _)) fun b => ?_
              refine ne3_bind (ne3_writeNode _ _) fun u1 => ?_
              refine ne3_bind (ne3_lift (pne3_ToBytes _)) fun b2 => ?_
              refine ne3_bind (ne3_writeNode _ _) fun u2 => ?_
              refine ne3_bind ne3_writeMasterPage fun u3 => ?_
              refine ne3_bind (ne3_readNode _) fun nodeParent => ?_
              refine ne3_ite ?_ ?_
              · refine ne3_ite_bind (ne3_lift (pne3_goGet _ _))
                  (ne3_lift (pne3_goGet _ _)) fun k0 => ?_
                refine ne3_bind (ne3_lift (pne3_insertIntoNode _ _ _)) fun np2x => ?_
                refine ne3_bind (ne3_lift (pne3_ToBytes _)) fun b3 => ?_
                exact ne3_writeNode _ _
              · refine ne3_ite ?_ ?_
                · exact ne3_bind (ne3_lift (pne3_goGet _ _)) fun k0 => ih _ _ _
                · exact ne3_bind (ne3_lift (pne3_goGet _ _)) fun sep => ih _ _ _
      · refine ne3_bind (ne3_pure _) fun pa => ?_
        obtain ⟨node3, adj⟩ := pa
        refine ne3_bind (ne3_splitMoveLoop _ _ _ _ _ _) fun newNode2 => ?_
        refine ne3_bind ne3_get fun t2 => ?_
        cases hmp : t2.masterPage with
        | none => exact ne3_throw rfl
        | some mp =>
            refine ne3_ite ?_ ?_
            · exact ne3_bind (ne3_lift (pne3_goGet _ _)) fun sep =>
                ne3_splitRootAndInsert _ _ _
            · refine ne3_bind (ne3_lift (pne3_ToBytes _)) fun b => ?_
              refine ne3_bind (ne3_writeNode _ _) fun u1 => ?_
              refine ne3_bind (ne3_lift (pne3_ToBytes _)) fun b2 => ?_
              refine ne3_bind (ne3_writeNode _ _) fun u2 => ?_
              refine ne3_bind ne3_writeMasterPage fun u3 => ?_
              refine ne3_bind (ne3_readNode _) fun nodeParent => ?_
              refine ne3_ite ?_ ?_
              · refine ne3_ite_bind (ne3_lift (pne3_goGet _ _))
                  (ne3_lift (pne3_goGet _ _)) fun k0 => ?_
                refine ne3_bind (ne3_lift (pne3_insertIntoNode _ _ _)) fun np2x => ?_
                refine ne3_bind (ne3_lift (pne3_ToBytes _)) fun b3 => ?_
                exact ne3_writeNode _ _
              · refine ne3_ite ?_ ?_
                · exact ne3_bind (ne3_lift (pne3_goGet _ _)) fun k0 => ih _ _ _
                · exact ne3_bind (ne3_lift (pne3_goGet _ _)) fun sep => ih _ _ _

theorem ne3_borrowFromSibling (node sibling : DiskBTreeNode)
    (isLeftSibling : Bool) (kPrime : List Nat) (kPrimeIdx : Int) :
    NE3 (borrowFromSibling node sibling isLeftSibling kPrime kPrimeIdx) := by
  unfold borrowFromSibling
  refine ne3_bind (ne3_readNode _) fun nodeParent => ?_
  refine ne3_ite ?_ ?_
  · refine ne3_ite ?_ ?_
    · refine ne3_bind (ne3_lift (pne3_eLoopDown ?_ _ _ _)) fun kp => ?_
      · intro i acc
        obtain ⟨ks, ps⟩ := acc
        exact pne3_bind (pne3_goGet _ _) fun kv =>
          pne3_bind (pne3_goSet _ _ _) fun ks2 =>
            pne3_bind (pne3_goGet _ _) fun pv =>
              pne3_bind (pne3_goSet _ _ _) fun ps2 => pne3_ok _
      obtain ⟨keys, ptrs⟩ := kp
      refine ne3_bind (ne3_lift (pne3_goGet _ _)) fun pv => ?_
      refine ne3_bind (ne3_lift (pne3_goSet _ _ _)) fun ptrs2 => ?_
      refine ne3_bind (ne3_lift (pne3_goSet _ _ _)) fun keys2 => ?_
      refine ne3_bind (ne3_lift (pne3_goGet _ _)) fun sv => ?_
      refine ne3_bind (ne3_lift (pne3_goSet _ _ _)) fun ptrs3 => ?_
      refine ne3_bind ?_ fun bcp => ?_
      · cases sv with
        | ptr p => exact ne3_pure _
        | bytes v => exact ne3_throw rfl
        | noderef p => exact ne3_throw rfl
        | null => exact ne3_throw rfl
      refine ne3_bind (ne3_readNode _) fun bc => ?_
      refine ne3_bind (ne3_lift (pne3_goGet _ _)) fun sk => ?_
      refine ne3_bind (ne3_lift (pne3_goSetI _ _ _)) fun pKeys => ?_
      refine ne3_bind (ne3_lift (pne3_goSet _ _ _)) fun sKeys => ?_
      refine ne3_bind (ne3_lift (pne3_goSet _ _ _)) fun sPtrs => ?_
      refine ne3_bind (ne3_pure _) fun trip => ?_
      obtain ⟨n2, s2, p2⟩ := trip
      refine ne3_bind (ne3_lift (pne3_ToBytes _)) fun b1 => ?_
      refine ne3_bind (ne3_writeNode _ _) fun u1 => ?_
      refine ne3_bind (ne3_lift (pne3_ToBytes _)) fun b2 => ?_
      refine ne3_bind (ne3_writeNode _ _) fun u2 => ?_
      refine ne3_bind (ne3_lift (pne3_ToBytes _)) fun b3 => ?_
      exact ne3_writeNode _ _
    · refine ne3_bind (ne3_lift (pne3_goSet _ _ _)) fun keys => ?_
      refine ne3_bind (ne3_lift (pne3_goGet _ _)) fun sv => ?_
      refine ne3_bind (ne3_lift (pne3_goSet _ _ _)) fun ptrs => ?_
      refine ne3_bind ?_ fun bcp => ?_
      · cases sv with
        | ptr p => exact ne3_pure _
        | bytes v => exact ne3_throw rfl
        | noderef p => exact ne3_throw rfl
        | null => exact ne3_throw rfl
      refine ne3_bind (ne3_readNode _) fun bc => ?_
      refine ne3_bind (ne3_lift (pne3_goGet _ _)) fun sk => ?_
      refine ne3_bind (ne3_lift (pne3_goSetI _ _ _)) fun pKeys => ?_
      refine ne3_bind (ne3_lift (pne3_eLoop ?_ _ _ _)) fun kp => ?_
      · intro i acc
        obtain ⟨ks, ps⟩ := acc
        exact pne3_bind (pne3_goGet _ _) fun kv =>
          pne3_bind (pne3_goSet _ _ _) fun ks2 =>
            pne3_bind (pne3_goGet _ _) fun pv =>
              pne3_bind (pne3_goSet _ _ _) fun ps2 =>
                pne3_bind (pne3_goSet _ _ _) fun ks3 =>
                  pne3_bind (pne3_goSet _ _ _) fun ps3 => pne3_ok _
      obtain ⟨sKeys, sPtrs⟩ := kp
      refine ne3_bind (ne3_lift (pne3_goGet _ _)) fun pv => ?_
      refine ne3_bind (ne3_lift (pne3_goSet _ _ _)) fun sPtrs2 => ?_
      refine ne3_bind (ne3_lift (pne3_goSet _ _ _)) fun sPtrs3 => ?_
      refine ne3_bind (ne3_lift (pne3_goSet _ _ _)) fun sKeys2 => ?_
      refine ne3_bind (ne3_lift (pne3_goSet _ _ _)) fun sPtrs4 => ?_
      refine ne3_bind (ne3_pure _) fun trip => ?_
      obtain ⟨n2, s2, p2⟩ := trip
      refine ne3_bind (ne3_lift (pne3_ToBytes _)) fun b1 => ?_
      refine ne3_bind (ne3_writeNode _ _) fun u1 => ?_
      refine ne3_bind (ne3_lift (pne3_ToBytes _)) fun b2 => ?_
      refine ne3_bind (ne3_writeNode _ _) fun u2 => ?_
      refine ne3_bind (ne3_lift (pne3_ToBytes _)) fun b3 => ?_
      exact ne3_writeNode _ _
  · refine ne3_ite ?_ ?_
    · refine ne3_bind (ne3_lift (pne3_eLoopDown ?_ _ _ _)) fun kp => ?_
      · intro i acc
        obtain ⟨ks, ps⟩ := acc
        exact pne3_bind (pne3_goGet _ _) fun kv =>
          pne3_bind (pne3_goSet _ _ _) fun ks2 =>
            pne3_bind (pne3_goGet _ _) fun pv =>
              pne3_bind (pne3_goSet _ _ _) fun ps2 => pne3_ok _
      obtain ⟨keys, ptrs⟩ := kp
      refine ne3_bind (ne3_lift (pne3_goGet _ _)) fun sk => ?_
      refine ne3_bind (ne3_lift (pne3_goSet _ _ _)) fun keys2 => ?_
      refine ne3_bind (ne3_lift (pne3_goGet _ _)) fun sv => ?_
      refine ne3_bind (ne3_lift (pne3_goSet _ _ _)) fun ptrs2 => ?_
      refine ne3_bind (ne3_lift (pne3_goGet _ _)) fun k0 => ?_
      refine ne3_bind (ne3_lift (pne3_goSetI _ _ _)) fun pKeys => ?_
      refine ne3_bind (ne3_lift (pne3_goSet _ _ _)) fun sKeys => ?_
      refine ne3_bind (ne3_lift (pne3_goSet _ _ _)) fun sPtrs => ?_
      refine ne3_bind (ne3_pure _) fun trip => ?_
      obtain ⟨n2, s2, p2⟩ := trip
      refine ne3_bind (ne3_lift (pne3_ToBytes _)) fun b1 => ?_
      refine ne3_bind (ne3_writeNode _ _) fun u1 => ?_
      refine ne3_bind (ne3_lift (pne3_ToBytes _)) fun b2 => ?_
      refine ne3_bind (ne3_writeNode _ _) fun u2 => ?_
      refine ne3_bind (ne3_lift (pne3_ToBytes _)) fun b3 => ?_
      exact ne3_writeNode _ _
    · refine ne3_bind (ne3_lift (pne3_goGet _ _)) fun sk => ?_
      refine ne3_bind (ne3_lift (pne3_goSet _ _ _)) fun keys => ?_
      refine ne3_bind (ne3_lift (pne3_goGet _ _)) fun sv => ?_
      refine ne3_bind (ne3_lift (pne3_goSet _ _ _)) fun ptrs => ?_
      refine ne3_bind (ne3_lift (pne3_goGet _ _)) fun sk1 => ?_
      refine ne3_bind (ne3_lift (pne3_goSetI _ _ _)) fun pKeys => ?_
      refine ne3_bind (ne3_lift (pne3_eLoop ?_ _ _ _)) fun kp => ?_
      · intro i acc
        obtain ⟨ks, ps⟩ := acc
        exact pne3_bind (pne3_goGet _ _) fun kv =>
          pne3_bind (pne3_goSet _ _ _) fun ks2 =>
            pne3_bind (pne3_goGet _ _) fun pv =>
              pne3_bind (pne3_goSet _ _ _) fun ps2 =>
                pne3_bind (pne3_goSet _ _ _) fun ks3 =>
                  pne3_bind (pne3_goSet _ _ _) fun ps3 => pne3_ok _
      obtain ⟨sKeys, sPtrs⟩ := kp
      refine ne3_bind (ne3_pure _) fun trip => ?_
      obtain ⟨n2, s2, p2⟩ := trip
      refine ne3_bind (ne3_lift (pne3_ToBytes _)) fun b1 => ?_
      refine ne3_bind (ne3_writeNode _ _) fun u1 => ?_
      refine ne3_bind (ne3_lift (pne3_ToBytes _)) fun b2 => ?_
      refine ne3_bind (ne3_writeNode _ _) fun u2 => ?_
      refine ne3_bind (ne3_lift (pne3_ToBytes _)) fun b3 => ?_
      exact ne3_writeNode _ _

theorem ne3_mergeMoveLoop (fuel : Nat) (node : DiskBTreeNode) :
    ∀ c sibling j i, NE3 (mergeMoveLoop fuel node sibling j c i) := by
  intro c
  induction c with
  | zero => intro sib j i; exact ne3_pure _
  | succ c ih =>
      intro sib j i
      show NE3 (mergeMoveLoop fuel node sib j (c + 1) i)
      unfold mergeMoveLoop
      refine ne3_bind (ne3_lift (pne3_goGet _ _)) fun kv => ?_
      refine ne3_bind (ne3_lift (pne3_goSet _ _ _)) fun sKeys => ?_
      refine ne3_bind (ne3_lift (pne3_goGet _ _)) fun pv => ?_
      refine ne3_bind (ne3_lift (pne3_goSet _ _ _)) fun sPtrs => ?_
      refine ne3_bind ?_ fun bcp => ?_
      · cases pv with
        | ptr p => exact ne3_pure _
        | bytes v => exact ne3_throw rfl
        | noderef p => exact ne3_throw rfl
        | null => exact ne3_throw rfl
      refine ne3_bind (ne3_readNode _) fun bc => ?_
      refine ne3_bind (ne3_lift (pne3_ToBytes _)) fun b => ?_
      refine ne3_bind (ne3_writeNode _ _) fun u => ?_
      exact ih _ (j + 1) (i + 1)

theorem ne3_deleteEntry_mergeNodes :
    ∀ fuel, (∀ node key pointer, NE3 (deleteEntry fuel node key pointer)) ∧
      (∀ node sibling isl kPrime, NE3 (mergeNodes fuel node sibling isl kPrime)) := by
  intro fuel
  induction fuel with
  | zero =>
      constructor
      · intro node key pointer
        exact ne3_throw rfl
      · intro node sibling isl kPrime
        exact ne3_throw rfl
  | succ fuel ih =>
      constructor
      · intro node key pointer
        show NE3 (deleteEntry (fuel + 1) node key pointer)
        unfold deleteEntry
        refine ne3_bind (ne3_removeFromNode _ _ _) fun node2 => ?_
        refine ne3_bind ne3_get fun t => ?_
        cases hmp : t.masterPage with
        | none => exact ne3_throw rfl
        | some mp =>
            refine ne3_ite ne3_adjustRoot ?_
            refine ne3_ite (ne3_pure _) ?_
            refine ne3_bind (ne3_getSiblingIndex _) fun siblingIdx => ?_
            by_cases hsi : siblingIdx < 0
            · rw [if_pos hsi]
              refine ne3_bind (ne3_readNode _) fun nodeParent => ?_
              refine ne3_bind (ne3_lift (pne3_goGetI _ _)) fun kPrime => ?_
              refine ne3_bind (ne3_lift (pne3_goGetI _ _)) fun s => ?_
              cases s with
              | ptr siblingPtr =>
                  refine ne3_bind (ne3_readNode _) fun sibling => ?_
                  exact ne3_ite (ne3_borrowFromSibling _ _ _ _ _)
                    (ih.2 _ _ _ _)
              | bytes v => exact ne3_throw rfl
              | noderef p => exact ne3_throw rfl
              | null => exact ne3_throw rfl
            · rw [if_neg hsi]
              refine ne3_bind (ne3_readNode _) fun nodeParent => ?_
              refine ne3_bind (ne3_lift (pne3_goGetI _ _)) fun kPrime => ?_
              refine ne3_bind (ne3_lift (pne3_goGetI _ _)) fun s => ?_
              cases s with
              | ptr siblingPtr =>
                  refine ne3_bind (ne3_readNode _) fun sibling => ?_
                  exact ne3_ite (ne3_borrowFromSibling _ _ _ _ _)
                    (ih.2 _ _ _ _)
              | bytes v => exact ne3_throw rfl
              | noderef p => exact ne3_throw rfl
              | null => exact ne3_throw rfl
      · intro node sibling isl kPrime
        show NE3 (mergeNodes (fuel + 1) node sibling isl kPrime)
        unfold mergeNodes
        by_cases hn : (!isl) = true
        · rw [if_pos hn]
          refine ne3_ite ?_ ?_
          · refine ne3_bind (ne3_lift (pne3_goSet _ _ _)) fun sKeys => ?_
            refine ne3_bind (ne3_mergeMoveLoop _ _ _ _ _ _) fun si => ?_
            obtain ⟨sib3, i⟩ := si
            refine ne3_bind (ne3_lift (pne3_goGet _ _)) fun pv => ?_
            refine ne3_bind (ne3_lift (pne3_goSet _ _ _)) fun sPtrs => ?_
            refine ne3_bind ?_ fun bcp => ?_
            · cases pv with
              | ptr p => exact ne3_pure _
              | bytes v => exact ne3_throw rfl
              | noderef p => exact ne3_throw rfl
              | null => exact ne3_throw rfl
            refine ne3_bind (ne3_readNode _) fun bc => ?_
            refine ne3_bind (ne3_lift (pne3_ToBytes _)) fun b0 => ?_
            refine ne3_bind (ne3_writeNode _ _) fun u0 => ?_
            refine ne3_bind (ne3_pure _) fun sib4 => ?_
            refine ne3_bind (ne3_lift (pne3_ToBytes _)) fun b => ?_
            refine ne3_bind (ne3_writeNode _ _) fun u1 => ?_
            refine ne3_bind (ne3_lift (pne3_ToBytes _)) fun b2 => ?_
            refine ne3_bind (ne3_writeNode _ _) fun u2 => ?_
            refine ne3_bind (ne3_readNode _) fun nodeParent => ?_
            exact ih.1 _ _ _
          · refine ne3_bind (ne3_lift (pne3_eLoop ?_ _ _ _)) fun kp => ?_
            · intro j acc
              obtain ⟨ks, ps⟩ := acc
              exact pne3_bind (pne3_goGet _ _) fun kv =>
                pne3_bind (pne3_goSet _ _ _) fun ks2 =>
                  pne3_bind (pne3_goGet _ _) fun pv =>
                    pne3_bind (pne3_goSet _ _ _) fun ps2 => pne3_ok _
            obtain ⟨sKeys, sPtrs⟩ := kp
            refine ne3_bind (ne3_pure _) fun sib4 => ?_
            refine ne3_bind (ne3_lift (pne3_ToBytes _)) fun b => ?_
            refine ne3_bind (ne3_writeNode _ _) fun u1 => ?_
            refine ne3_bind (ne3_lift (pne3_ToBytes _)) fun b2 => ?_
            refine ne3_bind (ne3_writeNode _ _) fun u2 => ?_
            refine ne3_bind (ne3_readNode _) fun nodeParent => ?_
            exact ih.1 _ _ _
        · rw [if_neg hn]
          refine ne3_ite ?_ ?_
          · refine ne3_bind (ne3_lift (pne3_goSet _ _ _)) fun sKeys => ?_
            refine ne3_bind (ne3_mergeMoveLoop _ _ _ _ _ _) fun si => ?_
            obtain ⟨sib3, i⟩ := si
            refine ne3_bind (ne3_lift (pne3_goGet _ _)) fun pv => ?_
            refine ne3_bind (ne3_lift (pne3_goSet _ _ _)) fun sPtrs => ?_
            refine ne3_bind ?_ fun bcp => ?_
            · cases pv with
              | ptr p => exact ne3_pure _
              | bytes v => exact ne3_throw rfl
              | noderef p => exact ne3_throw rfl
              | null => exact ne3_throw rfl
            refine ne3_bind (ne3_readNode _) fun bc => ?_
            refine ne3_bind (ne3_lift (pne3_ToBytes _)) fun b0 => ?_
            refine ne3_bind (ne3_writeNode _ _) fun u0 => ?_
            refine ne3_bind (ne3_pure _) fun sib4 => ?_
            refine ne3_bind (ne3_lift (pne3_ToBytes _)) fun b => ?_
            refine ne3_bind (ne3_writeNode _ _) fun u1 => ?_
            refine ne3_bind (ne3_lift (pne3_ToBytes _)) fun b2 => ?_
            refine ne3_bind (ne3_writeNode _ _) fun u2 => ?_
            refine ne3_bind (ne3_readNode _) fun nodeParent => ?_
            exact ih.1 _ _ _
          · refine ne3_bind (ne3_lift (pne3_eLoop ?_ _ _ _)) fun kp => ?_
            · intro j acc
              obtain ⟨ks, ps⟩ := acc
              exact pne3_bind (pne3_goGet _ _) fun kv =>
                pne3_bind (pne3_goSet _ _ _) fun ks2 =>
                  pne3_bind (pne3_goGet _ _) fun pv =>
                    pne3_bind (pne3_goSet _ _ _) fun ps2 => pne3_ok _
            obtain ⟨sKeys, sPtrs⟩ := kp
            refine ne3_bind (ne3_pure _) fun sib4 => ?_
            refine ne3_bind (ne3_lift (pne3_ToBytes _)) fun b => ?_
            refine ne3_bind (ne3_writeNode _ _) fun u1 => ?_
            refine ne3_bind (ne3_lift (pne3_ToBytes _)) fun b2 => ?_
            refine ne3_bind (ne3_writeNode _ _) fun u2 => ?_
            refine ne3_bind (ne3_readNode _) fun nodeParent => ?_
            exact ih.1 _ _ _

theorem ne3_deleteEntry (fuel : Nat) (node : DiskBTreeNode) (key : List Nat)
    (pointer : DelPtr) : NE3 (deleteEntry fuel node key pointer) :=
  (ne3_deleteEntry_mergeNodes fuel).1 node key pointer

theorem ro_Find (fuel : Nat) (key : Option (List Nat)) : RO (Find fuel key) := by
  unfold Find
  refine ro_bind ro_get fun t => ?_
  cases hmp : t.masterPage with
  | none =>
      cases key with
      | none => exact ro_throw _
      | some k => exact ro_throw _
  | some mp =>
      cases key with
      | none => exact ro_throw _
      | some k =>
          refine ro_ite (ro_throw _) ?_
          refine ro_bind (ro_findLeaf fuel k) fun leaf => ?_
          refine ro_bind (ro_lift _) fun idx => ?_
          refine ro_ite (ro_throw _) ?_
          refine ro_bind (ro_lift _) fun s => ?_
          cases s with
          | bytes v => exact ro_pure _
          | ptr p => exact ro_throw _
          | noderef p => exact ro_throw _
          | null => exact ro_throw _

theorem safe_Find (fuel : Nat) (key : Option (List Nat)) :
    SafeE3 (Find fuel key) :=
  safe_of_ro (ro_Find fuel key)

theorem safe_Update (fuel : Nat) (key newValue : Option (List Nat)) :
    SafeE3 (Update fuel key newValue) := by
  unfold Update
  refine safe_bind_ro ro_get fun t => ?_
  cases hmp : t.masterPage with
  | none =>
      cases key with
      | none => exact safe_throw _
      | some k => exact safe_throw _
  | some mp =>
      cases key with
      | none => exact safe_throw _
      | some k =>
          refine safe_ite (safe_throw _) ?_
          refine safe_bind_ro (ro_findLeaf fuel k) fun leaf => ?_
          refine safe_bind_ro (ro_lift _) fun idx => ?_
          refine safe_ite (safe_throw _) ?_
          refine safe_bind_ro (ro_lift _) fun ptrs => ?_
          refine safe_bind_ro (ro_lift _) fun b => ?_
          exact safe_of_ne3 (ne3_writeNode _ _)

theorem safe_Delete (fuel : Nat) (key : Option (List Nat)) :
    SafeE3 (Delete fuel key) := by
  unfold Delete
  refine safe_bind_ro ro_get fun t => ?_
  cases hmp : t.masterPage with
  | none =>
      cases key with
      | none => exact safe_throw _
      | some k => exact safe_throw _
  | some mp =>
      cases key with
      | none => exact safe_throw _
      | some k =>
          refine safe_bind_ro (ro_findLeaf fuel k) fun leaf => ?_
          refine safe_bind_ro (ro_lift _) fun idx => ?_
          refine safe_ite (safe_throw _) ?_
          refine safe_bind_ro (ro_lift _) fun s => ?_
          exact safe_of_ne3 (ne3_deleteEntry _ _ _ _)

theorem safe_Insert (fuel : Nat) (key value : Option (List Nat)) :
    SafeE3 (Insert fuel key value) := by
  unfold Insert
  cases key with
  | none =>
      cases value with
      | none => exact safe_throw _
      | some v => exact safe_throw _
  | some k =>
      cases value with
      | none => exact safe_throw _
      | some v =>
          refine safe_ite (safe_throw _) ?_
          refine safe_bind_ro ro_get fun t => ?_
          cases hmp : t.masterPage with
          | none =>
              refine safe_of_ne3 ?_
              refine ne3_bind (ne3_lift (pne3_goSet _ _ _)) fun keys => ?_
              refine ne3_bind (ne3_lift (pne3_goSet _ _ _)) fun ptrs => ?_
              refine ne3_bind (ne3_modify _) fun u0 => ?_
              refine ne3_bind ne3_writeMasterPage fun u1 => ?_
              refine ne3_bind (ne3_lift (pne3_ToBytes _)) fun b => ?_
              exact ne3_writeNode _ _
          | some mp =>
              refine safe_bind_ro (ro_tryCatch ?_ ?_) fun leafE => ?_
              · exact ro_bind (ro_findLeaf fuel k) fun l => ro_pure _
              · intro e
                exact ro_pure _
              refine safe_bind_ro ?_ fun u => ?_
              · cases leafE with
                | ok leaf =>
                    refine ro_bind (ro_lift _) fun idx => ?_
                    exact ro_ite (ro_throw _) (ro_pure _)
                | error e => exact ro_pure _
              refine safe_ite (safe_throw _) ?_
              cases leafE with
              | error e => exact safe_throw _
              | ok leaf =>
                  refine safe_ite ?_ ?_
                  · refine safe_of_ne3 ?_
                    refine ne3_bind (ne3_lift (pne3_insertIntoNode _ _ _))
                      fun leaf2 => ?_
                    refine ne3_bind (ne3_lift (pne3_ToBytes _)) fun b => ?_
                    exact ne3_writeNode _ _
                  · exact safe_of_ne3 (ne3_recursivelySplitAndInsert _ _ _ _)

/-- C5 counterexample: the spec claims `delete` with a key whose length
differs from the fixed key size fails with `INVALID_KEY_SIZE`.  `Delete`
performs no size check at all: after a first insert fixing the key size at 1,
deleting the 2-byte key `[50, 50]` reports `KEY_NOT_FOUND`, not
`INVALID_KEY_SIZE`. -/
theorem c5_delete_wrong_size_key_not_found :
    runOps emptyTree [.ins (some [49]) (some [97])]
      = rootLeafState 1 (N1 [49] [97]) ∧
    runRes (Delete opFuel (some [50, 50])) (rootLeafState 1 (N1 [49] [97]))
      = .error .keyNotFound ∧
    Err.keyNotFound ≠ Err.invalidKeySize := by
  refine ⟨?_, ?_, by decide⟩
  · unfold runOps
    rw [List.foldl_cons, step_ins1, List.foldl_nil]
  · refine runRes_of_error _ _ (rootLeafState 1 (N1 [49] [97])) _ ?_
    rw [show opFuel = 999 + 1 from rfl]
    exact run_Delete_rootLeaf_missing 999 1 (N1 [49] [97]) [50, 50] (-1)
      N1a_WF rfl (by decide) (by decide)

/-- C5: once a master page exists, `Find` and `Update` reject a key of the
wrong length with `INVALID_KEY_SIZE` before descending, and `Insert` rejects
it with `INVALID_KEY_SIZE` after the duplicate probe; `Delete` however has no
size check and reports a wrong-size (hence absent) key as `KEY_NOT_FOUND`. -/
theorem c5_wrong_size_rejections (fuel ks : Nat) (t : DiskBTree)
    (mp : MasterPage) (nv : Option (List Nat)) (N : DiskBTreeNode)
    (k kd v : List Nat) (idx idxd : Int)
    (hmp : t.masterPage = some mp) (hsz : k.length ≠ t.keySize)
    (hWF : NodeWF N) (hNleaf : N.IsLeaf = true)
    (hk65 : ¬ k.length > 65535) (hkne : k.length ≠ ks)
    (hidx : getKeyIndex (canonNode N 4096) k = .ok idx) (hng : ¬ idx > -1)
    (hidxd : getKeyIndex (canonNode N 4096) kd = .ok idxd) (hltd : idxd < 0) :
    (Find fuel (some k)).run t = .error .invalidKeySize t ∧
    (Update fuel (some k) nv).run t = .error .invalidKeySize t ∧
    (Insert (fuel + 1) (some k) (some v)).run (rootLeafState ks N)
      = .error .invalidKeySize (rootLeafState ks N) ∧
    (Delete (fuel + 1) (some kd)).run (rootLeafState ks N)
      = .error .keyNotFound (rootLeafState ks N) := by
  refine ⟨?_, ?_, ?_, ?_⟩
  · unfold Find
    simp only [run_bind, run_get, hmp]
    rw [if_pos hsz]
    simp
  · unfold Update
    simp only [run_bind, run_get, hmp]
    rw [if_pos hsz]
    simp
  · exact run_Insert_wrongsize_rootLeaf fuel ks N k v idx hWF hNleaf hk65
      hkne hidx hng
  · exact run_Delete_rootLeaf_missing fuel ks N kd idxd hWF hNleaf hidxd hltd

theorem c5_wrong_size_rejections_witness :
    (rootLeafState 1 (N1 [49] [97])).masterPage = some ⟨4096, 1⟩ ∧
    ([50, 50] : List Nat).length ≠ (rootLeafState 1 (N1 [49] [97])).keySize ∧
    NodeWF (N1 [49] [97]) ∧
    getKeyIndex (canonNode (N1 [49] [97]) 4096) [50, 50] = .ok (-1) ∧
    ((Find 999 (some [50, 50])).run (rootLeafState 1 (N1 [49] [97]))
        = .error .invalidKeySize (rootLeafState 1 (N1 [49] [97])) ∧
      (Update 999 (some [50, 50]) none).run (rootLeafState 1 (N1 [49] [97]))
        = .error .invalidKeySize (rootLeafState 1 (N1 [49] [97])) ∧
      (Insert (999 + 1) (some [50, 50]) (some [0])).run
          (rootLeafState 1 (N1 [49] [97]))
        = .error .invalidKeySize (rootLeafState 1 (N1 [49] [97])) ∧
      (Delete (999 + 1) (some [50, 50])).run (rootLeafState 1 (N1 [49] [97]))
        = .error .keyNotFound (rootLeafState 1 (N1 [49] [97]))) :=
  ⟨rfl, by decide, N1a_WF, by decide,
    c5_wrong_size_rejections 999 1 (rootLeafState 1 (N1 [49] [97])) ⟨4096, 1⟩
      none (N1 [49] [97]) [50, 50] [50, 50] [0] (-1) (-1) rfl (by decide)
      N1a_WF rfl (by decide) (by decide) (by decide) (by decide) (by decide)
      (by decide)⟩

/-- C6: inserting a key already present in the root leaf fails with
`KEY_ALREADY_EXISTS` and leaves the tree state byte-identical; in general,
whenever any public operation ends in `KEY_ALREADY_EXISTS`,
`INVALID_KEY_SIZE` or `KEY_NOT_FOUND`, the final state equals the initial
state (`SafeE3`): these three rejections never mutate the handle or the
backing file. -/
theorem c6_validation_rejections_never_mutate (fuel ks : Nat)
    (N : DiskBTreeNode) (k v : List Nat) (idx : Int)
    (hWF : NodeWF N) (hNleaf : N.IsLeaf = true) (hk65 : ¬ k.length > 65535)
    (hidx : getKeyIndex (canonNode N 4096) k = .ok idx) (hpos : idx > -1) :
    (Insert (fuel + 1) (some k) (some v)).run (rootLeafState ks N)
      = .error .keyAlreadyExists (rootLeafState ks N) ∧
    (∀ fl key value, SafeE3 (Insert fl key value)) ∧
    (∀ fl key, SafeE3 (Find fl key)) ∧
    (∀ fl key nv, SafeE3 (Update fl key nv)) ∧
    (∀ fl key, SafeE3 (Delete fl key)) :=
  ⟨run_Insert_dup_rootLeaf fuel ks N k v idx hWF hNleaf hk65 hidx hpos,
    safe_Insert, safe_Find, safe_Update, safe_Delete⟩

theorem c6_validation_rejections_never_mutate_witness :
    NodeWF N2 ∧ N2.IsLeaf = true ∧ ¬ ([49] : List Nat).length > 65535 ∧
    getKeyIndex (canonNode N2 4096) [49] = .ok 0 ∧ ((0 : Int) > -1) ∧
    ((Insert (999 + 1) (some [49]) (some [200])).run (rootLeafState 1 N2)
        = .error .keyAlreadyExists (rootLeafState 1 N2) ∧
      (∀ fl key value, SafeE3 (Insert fl key value)) ∧
      (∀ fl key, SafeE3 (Find fl key)) ∧
      (∀ fl key nv, SafeE3 (Update fl key nv)) ∧
      (∀ fl key, SafeE3 (Delete fl key))) :=
  ⟨N2_WF, rfl, by decide, by decide, by decide,
    c6_validation_rejections_never_mutate 999 1 N2 [49] [200] 0 N2_WF rfl
      (by decide) (by decide) (by decide)⟩

/-- C8 counterexample: the spec claims `insert` checks that the value is
non-empty before anything else, so an insert with an empty value never
succeeds.  The code only rejects a nil value; inserting the empty (non-nil)
value succeeds and creates the tree. -/
theorem c8_empty_value_insert_succeeds :
    (Insert opFuel (some [49]) (some [])).run emptyTree
      = .ok () (rootLeafState 1 (N1 [49] [])) ∧
    (rootLeafState 1 (N1 [49] [])).masterPage ≠ emptyTree.masterPage :=
  ⟨first_insert opFuel [49] [] (by norm_num) (by decide) (by norm_num)
    (by norm_num), by decide⟩

/-- C8: the order of `Insert`'s checks is: nil key or nil value first
(`INVALID_DATA`, for every state), then key length over `2^16 - 1`
(`KEY_SIZE_TOO_LARGE`, for every state), then the duplicate probe
(`KEY_ALREADY_EXISTS`), then the fixed-key-size check (`INVALID_KEY_SIZE`),
and only then mutation; there is no value-non-empty check, and an insert with
the empty value succeeds like any other first insert. -/
theorem c8_insert_validation_order (fuel ks : Nat) (N : DiskBTreeNode)
    (value : Option (List Nat)) (kbig kdup kodd v k0 : List Nat)
    (idx idx2 : Int)
    (hbig : kbig.length > 65535)
    (hWF : NodeWF N) (hNleaf : N.IsLeaf = true)
    (hdup65 : ¬ kdup.length > 65535)
    (hidx : getKeyIndex (canonNode N 4096) kdup = .ok idx) (hpos : idx > -1)
    (hodd65 : ¬ kodd.length > 65535) (hkne : kodd.length ≠ ks)
    (hidx2 : getKeyIndex (canonNode N 4096) kodd = .ok idx2)
    (hng : ¬ idx2 > -1)
    (hk0 : k0.length ≤ 65535) (hkv0 : ∀ x ∈ k0, x < 256)
    (hfitk : 31 + k0.length ≤ 8192) :
    (∀ s : DiskBTree, (Insert fuel none value).run s = .error .invalidData s) ∧
    (∀ s : DiskBTree, (Insert fuel (some kbig) (some v)).run s
        = .error .keySizeTooLarge s) ∧
    (Insert (fuel + 1) (some kdup) (some v)).run (rootLeafState ks N)
      = .error .keyAlreadyExists (rootLeafState ks N) ∧
    (Insert (fuel + 1) (some kodd) (some v)).run (rootLeafState ks N)
      = .error .invalidKeySize (rootLeafState ks N) ∧
    (Insert fuel (some k0) (some [])).run emptyTree
      = .ok () (rootLeafState k0.length (N1 k0 [])) := by
  refine ⟨?_, ?_, ?_, ?_, ?_⟩
  · intro s
    cases value with
    | none => rfl
    | some v0 => rfl
  · intro s
    unfold Insert
    simp only []
    rw [show U16MOD - 1 = 65535 from rfl, if_pos hbig]
    rfl
  · exact run_Insert_dup_rootLeaf fuel ks N kdup v idx hWF hNleaf hdup65
      hidx hpos
  · exact run_Insert_wrongsize_rootLeaf fuel ks N kodd v idx2 hWF hNleaf
      hodd65 hkne hidx2 hng
  · exact first_insert fuel k0 [] hk0 hkv0 (by norm_num)
      (by simp only [List.length_nil]; omega)

theorem c8_insert_validation_order_witness :
    (List.replicate 65536 0).length > 65535 ∧ NodeWF (N1 [49] [97]) ∧
    getKeyIndex (canonNode (N1 [49] [97]) 4096) [49] = .ok 0 ∧
    getKeyIndex (canonNode (N1 [49] [97]) 4096) [50, 50] = .ok (-1) ∧
    ((∀ s : DiskBTree, (Insert 999 none none).run s = .error .invalidData s) ∧
      (∀ s : DiskBTree,
        (Insert 999 (some (List.replicate 65536 0)) (some [99])).run s
          = .error .keySizeTooLarge s) ∧
      (Insert (999 + 1) (some [49]) (some [99])).run
          (rootLeafState 1 (N1 [49] [97]))
        = .error .keyAlreadyExists (rootLeafState 1 (N1 [49] [97])) ∧
      (Insert (999 + 1) (some [50, 50]) (some [99])).run
          (rootLeafState 1 (N1 [49] [97]))
        = .error .invalidKeySize (rootLeafState 1 (N1 [49] [97])) ∧
      (Insert 999 (some [51]) (some [])).run emptyTree
        = .ok () (rootLeafState ([51] : List Nat).length (N1 [51] []))) :=
  ⟨by rw [List.length_replicate]; norm_num, N1a_WF, by decide, by decide,
    c8_insert_validation_order 999 1 (N1 [49] [97]) none
      (List.replicate 65536 0) [49] [50, 50] [99] [51] 0 (-1)
      (by rw [List.length_replicate]; norm_num)
      N1a_WF rfl (by decide) (by decide) (by decide) (by decide) (by decide)
      (by decide) (by decide) (by norm_num) (by decide) (by norm_num)⟩

/-- C9 counterexample: the spec claims an empty key fails with `INVALID_KEY`
and a null key fails with `INVALID_DATA`.  Inserting the empty (non-nil) key
succeeds and mutates the tree, and `Find`/`Delete` with a nil key fail with
`KEY_NOT_FOUND`, not `INVALID_DATA` or `INVALID_KEY`. -/
theorem c9_empty_key_insert_succeeds :
    (Insert opFuel (some []) (some [97])).run emptyTree
      = .ok () (rootLeafState 0 (N1 [] [97])) ∧
    runRes (Find opFuel none) emptyTree = .error .keyNotFound ∧
    runRes (Delete opFuel none) emptyTree = .error .keyNotFound ∧
    Err.keyNotFound ≠ Err.invalidData ∧ Err.keyNotFound ≠ Err.invalidKey := by
  refine ⟨?_, ?_, ?_, by decide, by decide⟩
  · exact first_insert opFuel [] [97] (by norm_num) (by simp) (by norm_num)
      (by norm_num)
  · exact runRes_of_error _ _ emptyTree _ rfl
  · exact runRes_of_error _ _ emptyTree _ rfl

/-- C9: a nil key or nil value passed to `Insert` fails with `INVALID_DATA`
for every state; a nil key passed to `Find`, `Update` or `Delete` fails with
`KEY_NOT_FOUND` for every state; an empty (non-nil) key or value is accepted:
the first insert with an empty key, or with an empty value, succeeds.  No
path returns `INVALID_KEY`. -/
theorem c9_nil_rejections (fuel : Nat) (value : Option (List Nat))
    (k0 v0 : List Nat)
    (hk0 : k0.length ≤ 65535) (hkv0 : ∀ x ∈ k0, x < 256)
    (hv0 : v0.length ≤ 65535) (hfitv : 31 + v0.length ≤ 8192)
    (hfitk : 31 + k0.length ≤ 8192) :
    (∀ s : DiskBTree, (Insert fuel none value).run s = .error .invalidData s) ∧
    (∀ s : DiskBTree,
      (Insert fuel (some k0) none).run s = .error .invalidData s) ∧
    (∀ s : DiskBTree, (Find fuel none).run s = .error .keyNotFound s) ∧
    (∀ s : DiskBTree,
      (Update fuel none value).run s = .error .keyNotFound s) ∧
    (∀ s : DiskBTree, (Delete fuel none).run s = .error .keyNotFound s) ∧
    (Insert fuel (some []) (some v0)).run emptyTree
      = .ok () (rootLeafState 0 (N1 [] v0)) ∧
    (Insert fuel (some k0) (some [])).run emptyTree
      = .ok () (rootLeafState k0.length (N1 k0 [])) := by
  refine ⟨?_, ?_, ?_, ?_, ?_, ?_, ?_⟩
  · intro s
    cases value with
    | none => rfl
    | some w => rfl
  · intro s
    rfl
  · intro s
    unfold Find
    simp only [run_bind, run_get]
    cases hm : s.masterPage with
    | none => rfl
    | some mp => rfl
  · intro s
    unfold Update
    simp only [run_bind, run_get]
    cases hm : s.masterPage with
    | none => rfl
    | some mp => rfl
  · intro s
    unfold Delete
    simp only [run_bind, run_get]
    cases hm : s.masterPage with
    | none => rfl
    | some mp => rfl
  · exact first_insert fuel [] v0 (by norm_num) (by simp) hv0
      (by simp only [List.length_nil]; omega)
  · exact first_insert fuel k0 [] hk0 hkv0 (by norm_num)
      (by simp only [List.length_nil]; omega)

theorem c9_nil_rejections_witness :
    ([49] : List Nat).length ≤ 65535 ∧ (∀ x ∈ ([49] : List Nat), x < 256) ∧
    ([97] : List Nat).length ≤ 65535 ∧
    ((∀ s : DiskBTree, (Insert 1000 none none).run s = .error .invalidData s) ∧
      (∀ s : DiskBTree,
        (Insert 1000 (some [49]) none).run s = .error .invalidData s) ∧
      (∀ s : DiskBTree, (Find 1000 none).run s = .error .keyNotFound s) ∧
      (∀ s : DiskBTree,
        (Update 1000 none none).run s = .error .keyNotFound s) ∧
      (∀ s : DiskBTree, (Delete 1000 none).run s = .error .keyNotFound s) ∧
      (Insert 1000 (some []) (some [97])).run emptyTree
        = .ok () (rootLeafState 0 (N1 [] [97])) ∧
      (Insert 1000 (some [49]) (some [])).run emptyTree
        = .ok () (rootLeafState ([49] : List Nat).length (N1 [49] []))) :=
  ⟨by norm_num, by decide, by norm_num,
    c9_nil_rejections 1000 none [49] [97] (by norm_num) (by decide)
      (by norm_num) (by norm_num) (by norm_num)⟩

/-- C10: `Update` validates nothing about the new value: updating a present
key with nil succeeds, persists the leaf with a zero-length value bound to
the key, and a subsequent `Find` returns the zero-length byte sequence
rather than an error. -/
theorem c10_update_nil_persists_empty_value (fuel ks : Nat)
    (N Nn : DiskBTreeNode) (k : List Nat) (idx idx2 : Int) (ptrs : List Slot)
    (hWF : NodeWF N) (hWF2 : NodeWF Nn) (hNleaf : N.IsLeaf = true)
    (hklen : k.length = ks)
    (hidx : getKeyIndex (canonNode N 4096) k = .ok idx) (hge : ¬ idx < 0)
    (hset : goSet (canonNode N 4096).Pointers idx.toNat
      (.bytes (bytesOf [])) = .ok ptrs)
    (hN2 : { canonNode N 4096 with Pointers := ptrs } = Nn)
    (hptr2 : Nn.Ptr = 4096) (hNleaf2 : Nn.IsLeaf = true)
    (hidx2 : getKeyIndex (canonNode Nn 4096) k = .ok idx2) (hge2 : ¬ idx2 < 0)
    (hslot2 : goGet (canonNode Nn 4096).Pointers idx2.toNat
      = .ok (.bytes (bytesOf []))) :
    (Update (fuel + 1) (some k) none).run (rootLeafState ks N)
      = .ok () (rootLeafState ks Nn) ∧
    (Find (fuel + 1) (some k)).run (rootLeafState ks Nn)
      = .ok (bytesOf []) (rootLeafState ks Nn) ∧
    (bytesOf []).size = 0 := by
  refine ⟨?_, ?_, rfl⟩
  · exact run_Update_rootLeaf fuel ks N Nn k none idx ptrs hWF hWF2 hNleaf
      hklen hidx hge hset hN2 hptr2
  · exact run_Find_rootLeaf_found fuel ks Nn k idx2 (bytesOf []) hWF2
      hNleaf2 hklen hidx2 hge2 hslot2

theorem c10_update_nil_persists_empty_value_witness :
    NodeWF (N1 [49] [97]) ∧ NodeWF (N1 [49] []) ∧
    goSet (canonNode (N1 [49] [97]) 4096).Pointers 0 (.bytes (bytesOf []))
      = .ok [.bytes (bytesOf []), .null, .null, .null] ∧
    ({ canonNode (N1 [49] [97]) 4096 with
        Pointers := [.bytes (bytesOf []), .null, .null, .null] } = N1 [49] []) ∧
    ((Update (999 + 1) (some [49]) none).run (rootLeafState 1 (N1 [49] [97]))
        = .ok () (rootLeafState 1 (N1 [49] [])) ∧
      (Find (999 + 1) (some [49])).run (rootLeafState 1 (N1 [49] []))
        = .ok (bytesOf []) (rootLeafState 1 (N1 [49] [])) ∧
      (bytesOf []).size = 0) :=
  ⟨N1a_WF, N1_WF [49] [] (by norm_num) (by decide) (by norm_num) (by norm_num),
    by decide, by decide,
    c10_update_nil_persists_empty_value 999 1 (N1 [49] [97]) (N1 [49] [])
      [49] 0 0 [.bytes (bytesOf []), .null, .null, .null] N1a_WF
      (N1_WF [49] [] (by norm_num) (by decide) (by norm_num) (by norm_num))
      rfl rfl (by decide) (by decide) (by decide) (by decide) rfl rfl
      (by decide) (by decide) (by decide)⟩

end DiskBPTree
